import Mathlib

/-!
# etcd-discovery: membership reconciliation

A shallow embedding of `gambol99/etcd-discovery` (`main.go`, `etcd.go`, `aws.go`,
`utils.go`, `config.go`).  The program talks to three external systems (the etcd
members API, the EC2 / autoscaling API and the instance metadata service).  Every
call to one of them is a field of `Env`, a state-passing function over an arbitrary
world state `σ`; the embedded functions thread that state and record every call
they issue, with its answer, in a trace of `Event`s.

Go `error` values are modelled by their message (a `String`); a Go run-time panic
(index out of range) is the separate outcome `Outcome.crashed`.  Pointer fields of
the AWS SDK records are modelled as plain values (they are always set by the SDK).
Logging (`glog`) and the three second pause between removal attempts
(`<-time.After`) have no effect on the calls issued and are not part of the trace.
-/

namespace EtcdDiscovery

/-! ## Data model -/

/-- The etcd client's `Member` record: cluster-assigned id, name and peer URLs. -/
structure Member where
  ID : String
  Name : String
  PeerURLs : List String
deriving DecidableEq, Repr

/-- The fields of `ec2.Instance` the program reads (`State` is `State.Name`). -/
structure Instance where
  InstanceId : String
  PrivateDnsName : String
  PrivateIpAddress : String
  State : String
deriving DecidableEq, Repr

/-- One `ec2.Reservation` of a `DescribeInstancesOutput`. -/
structure Reservation where
  Instances : List Instance
deriving DecidableEq, Repr

/-- The fields of `autoscaling.Instance` the program reads. -/
structure GroupInstance where
  InstanceId : String
  HealthStatus : String
deriving DecidableEq, Repr

/-- The fields of `autoscaling.Group` the program reads. -/
structure Group where
  AutoScalingGroupName : String
  Instances : List GroupInstance
deriving DecidableEq, Repr

/-- The instance identity document (`doc.go`). -/
structure awsIdentity where
  InstanceID : String
  Region : String
  LocalIP : String
  PrivateDNSName : String
  ImageID : String
  InstanceType : String
  AvailabilityZone : String
deriving DecidableEq, Repr

/-- The configuration record filled by `flag.Parse` (`config.go`). -/
structure discoveryConfig where
  environmentFile : String
  etcdPeerScheme : String
  etcdClientScheme : String
  etcdClientPort : Int
  etcdPeerPort : Int
  privateIPs : Bool
  privateHostnames : Bool
  proxyMode : Bool
  groupName : String
deriving DecidableEq, Repr

/-- The flag defaults registered in `init` (`config.go`). -/
def defaultConfig : discoveryConfig :=
  { environmentFile := "", etcdPeerScheme := "https", etcdClientScheme := "https",
    etcdClientPort := 2379, etcdPeerPort := 2380, privateIPs := false,
    privateHostnames := true, proxyMode := false, groupName := "" }

/-- How a Go call ends: a value with a nil error, a non-nil error, or a panic. -/
inductive Outcome (α : Type) where
  | ok (a : α)
  | error (msg : String)
  | crashed
deriving DecidableEq, Repr

/-- The external calls, as state-passing functions over a world state `σ`. -/
structure Env (σ : Type) where
  /-- `etcd.New(etcd.Config{Endpoints: endpoints})`: the error, if any. -/
  etcdNew : List String → σ → Option String × σ
  /-- `MembersAPI.List`. -/
  membersList : σ → Except String (List Member) × σ
  /-- `MembersAPI.Add(ctx, peerURL)`: the error, if any. -/
  membersAdd : String → σ → Option String × σ
  /-- `MembersAPI.Remove(ctx, id)`: the error, if any. -/
  membersRemove : String → σ → Option String × σ
  /-- `EC2.DescribeInstances` filtered on `instance-id`: the reservations. -/
  describeInstances : String → σ → Except String (List Reservation) × σ
  /-- `AutoScaling.DescribeAutoScalingGroups(nil)`: the groups. -/
  describeAutoScalingGroups : σ → Except String (List Group) × σ
  /-- `http.Get(url)` followed by `ioutil.ReadAll` of the body. -/
  httpGet : String → σ → Except String String × σ
  /-- `json.Unmarshal` of the identity document (the world only fixes the decoder). -/
  unmarshalIdentity : String → σ → Except String awsIdentity
  /-- `os.OpenFile` and `WriteString` of `writeFile`: the error, if any. -/
  fileWrite : String → String → σ → Option String × σ

instance instDecidableEqExcept {ε α : Type} [DecidableEq ε] [DecidableEq α] :
    DecidableEq (Except ε α) := fun a b =>
  match a, b with
  | .ok x, .ok y => if h : x = y then isTrue (by rw [h]) else isFalse (by
      intro h2; cases h2; exact h rfl)
  | .error x, .error y => if h : x = y then isTrue (by rw [h]) else isFalse (by
      intro h2; cases h2; exact h rfl)
  | .ok _, .error _ => isFalse (by intro h2; cases h2)
  | .error _, .ok _ => isFalse (by intro h2; cases h2)

/-- The calls a run issues, each with the answer it got.  `hasMember` and
`addMember` mark the entry into these two wrappers; the calls they make follow. -/
inductive Event where
  | newEtcdClient (endpoints : List String) (err : Option String)
  | listMembers (res : Except String (List Member))
  | isInstanceTerminated (id : String) (res : Except String (List Reservation))
  | deleteMember (id : String) (err : Option String)
  | hasMember (name : String)
  | addMember (name url : String)
  | membersAdd (url : String) (err : Option String)
  | describeAutoScalingGroups (res : Except String (List Group))
  | describeInstances (id : String) (res : Except String (List Reservation))
  | httpGet (url : String) (res : Except String String)
  | writeFile (filename content : String) (err : Option String)
deriving DecidableEq

/-- The result of running a piece of the program from a world state. -/
structure Run (σ α : Type) where
  trace : List Event
  out : Outcome α
  state : σ

variable {σ : Type}

/-! ## `utils.go` and `config.go` -/

/-- `isSchema`. -/
def isSchema (s : String) : Bool :=
  if s = "https" ∨ s = "http" then true else false

/-- `isPort`. -/
def isPort (p : Int) : Bool :=
  if p ≥ 1 ∧ p ≤ 65534 then true else false

/-- `getConfig`, after `flag.Parse` has filled `config`: the error, if any. -/
def getConfig (config : discoveryConfig) : Option String :=
  if config.environmentFile = "" then
    some "you have not set the environment file path to write to"
  else if !isPort config.etcdPeerPort then
    some ("etcd peer port " ++ toString config.etcdPeerPort ++ " is an invalid port")
  else if !isPort config.etcdClientPort then
    some ("etcd client port " ++ toString config.etcdClientPort ++ " is an invalid port")
  else if config.proxyMode && config.groupName = "" then
    some "you must set the autoscaling group name when in proxy mode"
  else if config.privateIPs && config.privateHostnames then
    some "you cannot have both private address and hostnames enabled"
  else if !isSchema config.etcdClientScheme then
    some ("the scheme " ++ config.etcdClientScheme ++ " for etcd client is invalid")
  else if !isSchema config.etcdPeerScheme then
    some ("the scheme " ++ config.etcdPeerScheme ++ " for etcd peer is invalid")
  else none

/-- `getPeerURL`: `fmt.Sprintf("%s://%s:%d", scheme, location, port)`. -/
def getPeerURL (config : discoveryConfig) (location : String) : String :=
  config.etcdPeerScheme ++ "://" ++ location ++ ":" ++ toString config.etcdPeerPort

/-- `getPeerURLs`. -/
def getPeerURLs (config : discoveryConfig) (members : List Instance) : String :=
  ",".intercalate (members.map fun i =>
    let node := if config.privateIPs then i.PrivateIpAddress else i.PrivateDnsName
    i.InstanceId ++ "=" ++ getPeerURL config node)

/-- `getEtcdEndpoints`. -/
def getEtcdEndpoints (config : discoveryConfig) (instances : List Instance) : List String :=
  instances.map fun i =>
    let location := if config.privateIPs then i.PrivateIpAddress else i.PrivateDnsName
    config.etcdClientScheme ++ "://" ++ location ++ ":" ++ toString config.etcdClientPort

/-- `writeFile`. -/
def writeFile (E : Env σ) (filename content : String) (s : σ) : Run σ Unit :=
  match E.fileWrite filename content s with
  | (some err, s1) => ⟨[Event.writeFile filename content (some err)], .error err, s1⟩
  | (none, s1) => ⟨[Event.writeFile filename content none], .ok (), s1⟩

/-- `getMetaLocalHostname`. -/
def getMetaLocalHostname (E : Env σ) (s : σ) : Run σ String :=
  let url := "http://169.254.169.254/latest/meta-data/local-hostname"
  match E.httpGet url s with
  | (.error err, s1) => ⟨[Event.httpGet url (.error err)], .error err, s1⟩
  | (.ok content, s1) => ⟨[Event.httpGet url (.ok content)], .ok content, s1⟩

/-- `getInstanceIdentity`. -/
def getInstanceIdentity (E : Env σ) (s : σ) : Run σ awsIdentity :=
  let url := "http://169.254.169.254/latest/dynamic/instance-identity/document"
  match E.httpGet url s with
  | (.error err, s1) => ⟨[Event.httpGet url (.error err)], .error err, s1⟩
  | (.ok content, s1) =>
    match E.unmarshalIdentity content s1 with
    | .error err => ⟨[Event.httpGet url (.ok content)], .error err, s1⟩
    | .ok doc =>
      let h := getMetaLocalHostname E s1
      match h.out with
      | .ok hostname =>
        ⟨Event.httpGet url (.ok content) :: h.trace,
          .ok { doc with PrivateDNSName := hostname }, h.state⟩
      | .error err => ⟨Event.httpGet url (.ok content) :: h.trace, .error err, h.state⟩
      | .crashed => ⟨Event.httpGet url (.ok content) :: h.trace, .crashed, h.state⟩

/-! ## `etcd.go` -/

/-- `newEtcdClient`. -/
def newEtcdClient (E : Env σ) (endpoints : List String) (s : σ) : Run σ Unit :=
  match E.etcdNew endpoints s with
  | (some err, s1) => ⟨[Event.newEtcdClient endpoints (some err)], .error err, s1⟩
  | (none, s1) => ⟨[Event.newEtcdClient endpoints none], .ok (), s1⟩

/-- `etcdClient.listMembers` (`handleError` logs and returns the error unchanged). -/
def listMembers (E : Env σ) (s : σ) : Run σ (List Member) :=
  match E.membersList s with
  | (.error err, s1) => ⟨[Event.listMembers (.error err)], .error err, s1⟩
  | (.ok members, s1) => ⟨[Event.listMembers (.ok members)], .ok members, s1⟩

/-- `etcdClient.hasMember`. -/
def hasMember (E : Env σ) (name : String) (s : σ) : Run σ Bool :=
  let l := listMembers E s
  match l.out with
  | .ok members =>
    ⟨Event.hasMember name :: l.trace, .ok (members.any fun m => m.Name == name), l.state⟩
  | .error err => ⟨Event.hasMember name :: l.trace, .error err, l.state⟩
  | .crashed => ⟨Event.hasMember name :: l.trace, .crashed, l.state⟩

/-- `etcdClient.addMember`. -/
def addMember (E : Env σ) (name url : String) (s : σ) : Run σ Unit :=
  let h := hasMember E name s
  match h.out with
  | .error err => ⟨Event.addMember name url :: h.trace, .error err, h.state⟩
  | .crashed => ⟨Event.addMember name url :: h.trace, .crashed, h.state⟩
  | .ok true => ⟨Event.addMember name url :: h.trace, .ok (), h.state⟩
  | .ok false =>
    match E.membersAdd url h.state with
    | (some err, s1) =>
      ⟨Event.addMember name url :: (h.trace ++ [Event.membersAdd url (some err)]),
        .error err, s1⟩
    | (none, s1) =>
      ⟨Event.addMember name url :: (h.trace ++ [Event.membersAdd url none]), .ok (), s1⟩

/-- `etcdClient.deleteMember`. -/
def deleteMember (E : Env σ) (id : String) (s : σ) : Run σ Unit :=
  match E.membersRemove id s with
  | (some err, s1) => ⟨[Event.deleteMember id (some err)], .error err, s1⟩
  | (none, s1) => ⟨[Event.deleteMember id none], .ok (), s1⟩

/-! ## `aws.go` -/

/-- `awsClient.isInstanceTerminated`.  `Reservations[0].Instances[0]` panics when
the first reservation holds no instance. -/
def isInstanceTerminated (E : Env σ) (id : String) (s : σ) : Run σ Bool :=
  match E.describeInstances id s with
  | (.error err, s1) => ⟨[Event.isInstanceTerminated id (.error err)], .error err, s1⟩
  | (.ok reservations, s1) =>
    let tr := [Event.isInstanceTerminated id (.ok reservations)]
    match reservations with
    | [] => ⟨tr, .ok false, s1⟩
    | r0 :: _ =>
      match r0.Instances with
      | [] => ⟨tr, .crashed, s1⟩
      | i0 :: _ => if i0.State ≠ "terminated" then ⟨tr, .ok false, s1⟩ else ⟨tr, .ok true, s1⟩

/-- `awsClient.getAutoScalingGroupByName`. -/
def getAutoScalingGroupByName (E : Env σ) (name : String) (s : σ) : Run σ Group :=
  match E.describeAutoScalingGroups s with
  | (.error err, s1) => ⟨[Event.describeAutoScalingGroups (.error err)], .error err, s1⟩
  | (.ok groups, s1) =>
    match groups.find? fun gp => gp.AutoScalingGroupName == name with
    | some gp => ⟨[Event.describeAutoScalingGroups (.ok groups)], .ok gp, s1⟩
    | none =>
      ⟨[Event.describeAutoScalingGroups (.ok groups)],
        .error ("no auto-scaling group " ++ name ++ " found"), s1⟩

/-- `awsClient.getAutoScalingGroupWithInstanceID`. -/
def getAutoScalingGroupWithInstanceID (E : Env σ) (id : String) (s : σ) : Run σ String :=
  match E.describeAutoScalingGroups s with
  | (.error err, s1) => ⟨[Event.describeAutoScalingGroups (.error err)], .error err, s1⟩
  | (.ok groups, s1) =>
    match groups.find? fun g => g.Instances.any fun i => i.InstanceId == id with
    | some g => ⟨[Event.describeAutoScalingGroups (.ok groups)], .ok g.AutoScalingGroupName, s1⟩
    | none =>
      ⟨[Event.describeAutoScalingGroups (.ok groups)],
        .error ("no auto-scaling group found with instance id: " ++ id), s1⟩

/-- The loop `for _, i := range group.Instances` of `getAutoScalingInstances`; `list`
is the slice built so far.  `instance.Reservations[0]` panics when the describe call
returns no reservation. -/
def instancesLoop (E : Env σ) : List GroupInstance → List Instance → σ → Run σ (List Instance)
  | [], list, s => ⟨[], .ok list, s⟩
  | i :: rest, list, s =>
    if i.HealthStatus ≠ "Healthy" then instancesLoop E rest list s
    else
      match E.describeInstances i.InstanceId s with
      | (.error err, s1) => ⟨[Event.describeInstances i.InstanceId (.error err)], .error err, s1⟩
      | (.ok reservations, s1) =>
        let ev := Event.describeInstances i.InstanceId (.ok reservations)
        match reservations with
        | [] => ⟨[ev], .crashed, s1⟩
        | r0 :: _ =>
          match r0.Instances with
          | [] =>
            let r := instancesLoop E rest list s1
            ⟨ev :: r.trace, r.out, r.state⟩
          | i0 :: _ =>
            if i0.State ≠ "running" then
              let r := instancesLoop E rest list s1
              ⟨ev :: r.trace, r.out, r.state⟩
            else
              let r := instancesLoop E rest (list ++ [i0]) s1
              ⟨ev :: r.trace, r.out, r.state⟩

/-- `awsClient.getAutoScalingInstances`. -/
def getAutoScalingInstances (E : Env σ) (name : String) (s : σ) : Run σ (List Instance) :=
  let g := getAutoScalingGroupByName E name s
  match g.out with
  | .error err => ⟨g.trace, .error err, g.state⟩
  | .crashed => ⟨g.trace, .crashed, g.state⟩
  | .ok group =>
    let r := instancesLoop E group.Instances [] g.state
    ⟨g.trace ++ r.trace, r.out, r.state⟩

/-! ## `main.go` -/

/-- What the retry loop of `syncMembership` leaves behind: the calls it made, the
flag `removed` and the world state. -/
structure Removal (σ : Type) where
  trace : List Event
  removed : Bool
  state : σ

/-- The retry loop `for j := 0; j < 3; j++` of `syncMembership` for one member; the
first argument counts the attempts still allowed (`3 - j`). -/
def removeLoop (E : Env σ) (id : String) : Nat → σ → Removal σ
  | 0, s => ⟨[], false, s⟩
  | n + 1, s =>
    let d := deleteMember E id s
    match d.out with
    | .ok _ => ⟨d.trace, true, d.state⟩
    | _ =>
      let r := removeLoop E id n d.state
      ⟨d.trace ++ r.trace, r.removed, r.state⟩

/-- The loop `for _, i := range members` of `syncMembership`: an error outcome is
the `return fmt.Errorf(...)` inside the loop, `ok` means the loop ran to its end. -/
def cleanupMembers (E : Env σ) : List Member → σ → Run σ Unit
  | [], s => ⟨[], .ok (), s⟩
  | i :: rest, s =>
    let t := isInstanceTerminated E i.Name s
    match t.out with
    | .crashed => ⟨t.trace, .crashed, t.state⟩
    | .error _ =>
      let r := cleanupMembers E rest t.state
      ⟨t.trace ++ r.trace, r.out, r.state⟩
    | .ok false =>
      let r := cleanupMembers E rest t.state
      ⟨t.trace ++ r.trace, r.out, r.state⟩
    | .ok true =>
      let d := removeLoop E i.ID 3 t.state
      if !d.removed then
        ⟨t.trace ++ d.trace, .error ("failed to remove the member: " ++ i.Name), d.state⟩
      else
        let r := cleanupMembers E rest d.state
        ⟨t.trace ++ d.trace ++ r.trace, r.out, r.state⟩

/-- The join step of `syncMembership` (from `client.hasMember(memberID)` on). -/
def joinCluster (E : Env σ) (config : discoveryConfig) (identity : awsIdentity) (s : σ) :
    Run σ Unit :=
  let memberID := identity.InstanceID
  let h := hasMember E memberID s
  match h.out with
  | .error err => ⟨h.trace, .error err, h.state⟩
  | .crashed => ⟨h.trace, .crashed, h.state⟩
  | .ok true => ⟨h.trace, .ok (), h.state⟩
  | .ok false =>
    let nodeAddress := if config.privateIPs then identity.LocalIP else identity.PrivateDNSName
    let peerURL := getPeerURL config nodeAddress
    let a := addMember E memberID peerURL h.state
    match a.out with
    | .crashed => ⟨h.trace ++ a.trace, .crashed, a.state⟩
    | _ => ⟨h.trace ++ a.trace, .ok (), a.state⟩

/-- `syncMembership`. -/
def syncMembership (E : Env σ) (config : discoveryConfig) (identity : awsIdentity)
    (instances : List String) (s : σ) : Run σ Unit :=
  let c := newEtcdClient E instances s
  match c.out with
  | .error err => ⟨c.trace, .error err, c.state⟩
  | .crashed => ⟨c.trace, .crashed, c.state⟩
  | .ok _ =>
    let l := listMembers E c.state
    match l.out with
    | .error err => ⟨c.trace ++ l.trace, .error err, l.state⟩
    | .crashed => ⟨c.trace ++ l.trace, .crashed, l.state⟩
    | .ok members =>
      let r := cleanupMembers E members l.state
      match r.out with
      | .error err => ⟨c.trace ++ l.trace ++ r.trace, .error err, r.state⟩
      | .crashed => ⟨c.trace ++ l.trace ++ r.trace, .crashed, r.state⟩
      | .ok _ =>
        let j := joinCluster E config identity r.state
        ⟨c.trace ++ l.trace ++ r.trace ++ j.trace, j.out, j.state⟩

/-- The content `writeEnvironment` builds with `fmt.Sprintf` from its raw string
literal, which opens with a line break. -/
def environmentContent (config : discoveryConfig) (identity : awsIdentity)
    (members : List Instance) (state : String) (proxy : Bool) : String :=
  let peersURL := getPeerURLs config members
  let mode := if proxy then "on" else "off"
  "\nETCD_INITIAL_CLUSTER_STATE=" ++ state ++ "\nETCD_NAME=" ++ identity.InstanceID ++
    "\nETCD_INITIAL_CLUSTER=\"" ++ peersURL ++ "\"\nETCD_PROXY=\"" ++ mode ++ "\"\n"

/-- `writeEnvironment`. -/
def writeEnvironment (E : Env σ) (config : discoveryConfig) (filename : String)
    (identity : awsIdentity) (members : List Instance) (state : String) (proxy : Bool)
    (s : σ) : Run σ Unit :=
  writeFile E filename (environmentContent config identity members state proxy) s

/-- `getAutoScalingMembers`. -/
def getAutoScalingMembers (E : Env σ) (config : discoveryConfig) (identity : awsIdentity)
    (s : σ) : Run σ (List Instance) :=
  if config.groupName = "" then
    let n := getAutoScalingGroupWithInstanceID E identity.InstanceID s
    match n.out with
    | .error err => ⟨n.trace, .error err, n.state⟩
    | .crashed => ⟨n.trace, .crashed, n.state⟩
    | .ok name =>
      let r := getAutoScalingInstances E name n.state
      ⟨n.trace ++ r.trace, r.out, r.state⟩
  else getAutoScalingInstances E config.groupName s

/-- How the process ends: `main` returns (status 0), `os.Exit(code)`, or a panic. -/
inductive Exit where
  | returned
  | exit (code : Nat)
  | crashed
deriving DecidableEq, Repr

/-- A run of the whole program: the calls issued and how the process ended. -/
structure MainRun (σ : Type) where
  trace : List Event
  status : Exit
  state : σ

/-- The cluster state `main` computes before writing the environment file, with the
calls made to compute it. -/
def clusterState (E : Env σ) (config : discoveryConfig) (instances : List Instance)
    (s : σ) : List Event × String × σ :=
  let c := newEtcdClient E (getEtcdEndpoints config instances) s
  let probe : List Event × String × σ :=
    match c.out with
    | .ok _ =>
      let l := listMembers E c.state
      match l.out with
      | .ok _ => (c.trace ++ l.trace, "existing", l.state)
      | _ => (c.trace ++ l.trace, "new", l.state)
    | _ => (c.trace, "new", c.state)
  if config.proxyMode then (probe.1, "existing", probe.2.2) else probe

/-- `main`, with `config` as filled by `flag.Parse`.  `printUsage` ends the process
with `os.Exit(1)`; `newAwsClient` makes no call and never fails. -/
def main (E : Env σ) (config : discoveryConfig) (s : σ) : MainRun σ :=
  match getConfig config with
  | some _ => ⟨[], .exit 1, s⟩
  | none =>
    let i := getInstanceIdentity E s
    match i.out with
    | .error _ => ⟨i.trace, .exit 1, i.state⟩
    | .crashed => ⟨i.trace, .crashed, i.state⟩
    | .ok identity =>
      let m := getAutoScalingMembers E config identity i.state
      match m.out with
      | .error _ => ⟨i.trace ++ m.trace, .exit 1, m.state⟩
      | .crashed => ⟨i.trace ++ m.trace, .crashed, m.state⟩
      | .ok instances =>
        let cs := clusterState E config instances m.state
        let w := writeEnvironment E config config.environmentFile identity instances
          cs.2.1 config.proxyMode cs.2.2
        match w.out with
        | .error _ => ⟨i.trace ++ m.trace ++ cs.1 ++ w.trace, .exit 1, w.state⟩
        | .crashed => ⟨i.trace ++ m.trace ++ cs.1 ++ w.trace, .crashed, w.state⟩
        | .ok _ =>
          if !config.proxyMode then
            let y := syncMembership E config identity (getEtcdEndpoints config instances)
              w.state
            match y.out with
            | .error _ => ⟨i.trace ++ m.trace ++ cs.1 ++ w.trace ++ y.trace, .exit 1, y.state⟩
            | .crashed => ⟨i.trace ++ m.trace ++ cs.1 ++ w.trace ++ y.trace, .crashed, y.state⟩
            | .ok _ => ⟨i.trace ++ m.trace ++ cs.1 ++ w.trace ++ y.trace, .returned, y.state⟩
          else ⟨i.trace ++ m.trace ++ cs.1 ++ w.trace, .returned, w.state⟩

/-! ## A concrete world

The cluster and the cloud as one explicit state, for the claims that speak about
the member list before and after a run.  The etcd side follows the members API of
the etcd server: `Remove(id)` takes the member with that id out of the list and
remembers the id as removed, `Add(peerURL)` registers a new member that has a fresh
id, the given peer URL and no name yet (the name is published by the etcd process
itself once it starts), and is refused when the id or the peer URL is already in
use or the id was removed before.  Transient failures are scripted by `faults`: every
`List`, `Add` and `Remove` call consumes one entry, and fails without touching the
cluster when the entry is `true`.  The inventory answers each describe call by a
fixed function of the instance id. -/

/-- The state of the cluster, the cloud inventory and the local machine. -/
structure World where
  members : List Member
  removed : List String
  newIDs : List String
  faults : List Bool
  inventory : String → Except String (List Reservation)
  groups : Except String (List Group)
  metadata : String → Except String String
  decode : String → Except String awsIdentity
  readOnlyFiles : List String
  files : List (String × String)

namespace World

/-- Consume one entry of the fault script. -/
def nextFault (w : World) : Bool × World :=
  match w.faults with
  | [] => (false, w)
  | f :: rest => (f, { w with faults := rest })

/-- `etcd.New` makes no network call; it refuses an empty endpoint list. -/
def etcdNew (endpoints : List String) (w : World) : Option String × World :=
  if endpoints.isEmpty then (some "client: no endpoints available", w) else (none, w)

/-- `MembersAPI.List`. -/
def membersList (w : World) : Except String (List Member) × World :=
  match w.nextFault with
  | (true, w1) => (.error "client: etcd cluster is unavailable or misconfigured", w1)
  | (false, w1) => (.ok w1.members, w1)

/-- `MembersAPI.Remove`. -/
def membersRemove (id : String) (w : World) : Option String × World :=
  match w.nextFault with
  | (true, w1) => (some "client: etcd cluster is unavailable or misconfigured", w1)
  | (false, w1) =>
    if w1.members.any (fun m => m.ID == id) then
      (none, { w1 with members := w1.members.filter (fun m => m.ID != id),
                       removed := id :: w1.removed })
    else (some "client: member not found", w1)

/-- `MembersAPI.Add`. -/
def membersAdd (url : String) (w : World) : Option String × World :=
  match w.nextFault with
  | (true, w1) => (some "client: etcd cluster is unavailable or misconfigured", w1)
  | (false, w1) =>
    match w1.newIDs with
    | [] => (some "client: no member id available", w1)
    | id :: ids =>
      let w2 := { w1 with newIDs := ids }
      if w2.removed.contains id || w2.members.any (fun m => m.ID == id) then
        (some "client: member id exists or was removed", w2)
      else if w2.members.any (fun m => m.PeerURLs.contains url) then
        (some "client: peer URL exists", w2)
      else (none, { w2 with members := w2.members ++ [⟨id, "", [url]⟩] })

/-- `os.OpenFile` with `O_TRUNC|O_CREATE` followed by `WriteString`. -/
def fileWrite (filename content : String) (w : World) : Option String × World :=
  if w.readOnlyFiles.contains filename then (some "open: permission denied", w)
  else (none, { w with files := (filename, content) :: w.files.filter (fun f => f.1 != filename) })

/-- The environment a `World` provides. -/
def env : Env World where
  etcdNew := etcdNew
  membersList := membersList
  membersAdd := membersAdd
  membersRemove := membersRemove
  describeInstances := fun id w => (w.inventory id, w)
  describeAutoScalingGroups := fun w => (w.groups, w)
  httpGet := fun url w => (w.metadata url, w)
  unmarshalIdentity := fun content w => w.decode content
  fileWrite := fileWrite

end World

/-- A world whose describe calls can also fail transiently.  The lookups have a fault
script of their own: every describe call consumes one entry and fails without
consulting the inventory when the entry is `true`; once the script is used up every
call is answered from the inventory.  All other calls are those of the world. -/
structure FlakyWorld where
  world : World
  lookupFaults : List Bool

namespace FlakyWorld

/-- A call of the world, made in the flaky world. -/
def lift {α : Type} (f : World → α × World) (v : FlakyWorld) : α × FlakyWorld :=
  ((f v.world).1, { v with world := (f v.world).2 })

/-- `EC2.DescribeInstances`, with transient failures. -/
def describeInstances (id : String) (v : FlakyWorld) :
    Except String (List Reservation) × FlakyWorld :=
  match v.lookupFaults with
  | [] => (v.world.inventory id, v)
  | true :: rest => (.error "RequestLimitExceeded", { v with lookupFaults := rest })
  | false :: rest => (v.world.inventory id, { v with lookupFaults := rest })

/-- The environment a `FlakyWorld` provides. -/
def env : Env FlakyWorld where
  etcdNew := fun endpoints => lift (World.etcdNew endpoints)
  membersList := lift World.membersList
  membersAdd := fun url => lift (World.membersAdd url)
  membersRemove := fun id => lift (World.membersRemove id)
  describeInstances := describeInstances
  describeAutoScalingGroups := fun v => (v.world.groups, v)
  httpGet := fun url v => (v.world.metadata url, v)
  unmarshalIdentity := fun content v => v.world.decode content
  fileWrite := fun filename content => lift (World.fileWrite filename content)

end FlakyWorld

/-! ## Trace predicates and other definitions used to state the claims -/

/-- An `isInstanceTerminated` call. -/
def Event.isLookup : Event → Bool
  | .isInstanceTerminated _ _ => true
  | _ => false

/-- A `deleteMember` call. -/
def Event.isDelete : Event → Bool
  | .deleteMember _ _ => true
  | _ => false

/-- A `deleteMember` call with the given id. -/
def Event.isDeleteOf (id : String) : Event → Bool
  | .deleteMember i _ => i == id
  | _ => false

/-- A call of the join step: `hasMember`, `addMember`, or the `Add` request. -/
def Event.isJoin : Event → Bool
  | .hasMember _ => true
  | .addMember _ _ => true
  | .membersAdd _ _ => true
  | _ => false

/-- The answer `isInstanceTerminated` computes from the reply of the describe call. -/
def terminatedVerdict : Except String (List Reservation) → Outcome Bool
  | .error err => .error err
  | .ok [] => .ok false
  | .ok (r0 :: _) =>
    match r0.Instances with
    | [] => .crashed
    | i0 :: _ => if i0.State ≠ "terminated" then .ok false else .ok true

/-- The failed `deleteMember` calls for `id`, one per error message. -/
def failedDeletes (id : String) (errs : List String) : List Event :=
  errs.map fun e => Event.deleteMember id (some e)

/-- What follows the handling of the member at position `k - 1` when the loop goes
on: the lookup of the member at position `k`, or, past the last member, nothing
more from the loop, which then has run to its end. -/
def Continues (members : List Member) (k : Nat) (out : Outcome Unit) (rest : List Event) : Prop :=
  (∃ m res post, members[k]? = some m ∧ rest = Event.isInstanceTerminated m.Name res :: post) ∨
  (members.length ≤ k ∧ rest = [] ∧ out = .ok ())

/-- The handling of one member, read off the trace of the loop: the lookup at
position `k` belongs to the member at position `k`, and what follows it is fixed by
the answer of the lookup. -/
def MemberBlock (members : List Member) (out : Outcome Unit) (k : Nat) (m : Member)
    (res : Except String (List Reservation)) (post : List Event) : Prop :=
  (terminatedVerdict res = .crashed ∧ post = [] ∧ out = .crashed) ∨
  ((terminatedVerdict res = .ok false ∨ ∃ e, terminatedVerdict res = .error e) ∧
    Continues members (k + 1) out post) ∨
  (terminatedVerdict res = .ok true ∧ ∃ errs : List String,
    (errs.length < 3 ∧ ∃ rest, post = failedDeletes m.ID errs ++ Event.deleteMember m.ID none :: rest ∧
      Continues members (k + 1) out rest) ∨
    (errs.length = 3 ∧ post = failedDeletes m.ID errs ∧
      out = .error ("failed to remove the member: " ++ m.Name)))

/-- The peer URL the join step advertises. -/
def advertiseURL (config : discoveryConfig) (identity : awsIdentity) : String :=
  getPeerURL config (if config.privateIPs then identity.LocalIP else identity.PrivateDNSName)

/-- How the run goes on after the member at position `k - 1`: with the lookup of the
member at position `k`, or, past the last member, with the `hasMember` check for the
own instance id, after which no removal is issued. -/
def GoesOn (members : List Member) (self : String) (k : Nat) (rest : List Event) : Prop :=
  (∃ m res post, members[k]? = some m ∧ rest = Event.isInstanceTerminated m.Name res :: post) ∨
  (members.length ≤ k ∧ ∃ t, rest = Event.hasMember self :: t ∧ ∀ e ∈ t, e.isDelete = false)

/-- The handling of one member, read off the trace of a run of `syncMembership`:
what follows the lookup of the member `m` at position `k` is fixed by the answer
`res` of that lookup. -/
def SyncBlock (members : List Member) (self : String) (out : Outcome Unit) (k : Nat) (m : Member)
    (res : Except String (List Reservation)) (post : List Event) : Prop :=
  (terminatedVerdict res = .crashed ∧ post = [] ∧ out = .crashed) ∨
  ((terminatedVerdict res = .ok false ∨ ∃ e, terminatedVerdict res = .error e) ∧
    GoesOn members self (k + 1) post) ∨
  (terminatedVerdict res = .ok true ∧ ∃ errs : List String,
    (errs.length < 3 ∧ ∃ rest, post = failedDeletes m.ID errs ++ Event.deleteMember m.ID none :: rest ∧
      GoesOn members self (k + 1) rest) ∨
    (errs.length = 3 ∧ post = failedDeletes m.ID errs ∧
      out = .error ("failed to remove the member: " ++ m.Name)))

/-- A call that adds or removes a cluster member: `Remove` or `Add`. -/
def Event.isMutation : Event → Bool
  | .deleteMember _ _ => true
  | .membersAdd _ _ => true
  | _ => false

/-- The verdict of the inventory of a world on a member name. -/
def World.verdict (w : World) (name : String) : Outcome Bool :=
  terminatedVerdict (w.inventory name)

/-- The four lines of the environment file, without their line breaks. -/
def environmentLines (state name peers mode : String) : List String :=
  ["ETCD_INITIAL_CLUSTER_STATE=" ++ state, "ETCD_NAME=" ++ name,
   "ETCD_INITIAL_CLUSTER=\"" ++ peers ++ "\"", "ETCD_PROXY=\"" ++ mode ++ "\""]

/-- The record the loop of `getAutoScalingInstances` keeps for a describe reply that
holds a reservation: the first instance of the first reservation, when it is running. -/
def runningInstance (reservations : List Reservation) : Option Instance :=
  match reservations with
  | [] => none
  | r0 :: _ =>
    match r0.Instances with
    | [] => none
    | i0 :: _ => if i0.State ≠ "running" then none else some i0

/-- The instances of a group whose autoscaling health status is `Healthy`. -/
def healthyInstances (group : Group) : List GroupInstance :=
  group.Instances.filter fun i => i.HealthStatus == "Healthy"

/-! ## Sample inputs -/

/-- The identity of the instance the program runs on, in the examples. -/
def selfIdentity : awsIdentity :=
  ⟨"i-self", "eu-west-1", "10.0.0.5", "ip-10-0-0-5.internal", "ami-1", "t2.small", "eu-west-1a"⟩

/-- The seed endpoints of the examples. -/
def seeds : List String := ["https://ip-10-0-0-4.internal:2379"]

/-- The peer URL `selfIdentity` advertises under `defaultConfig`. -/
def selfURL : String := "https://ip-10-0-0-5.internal:2380"

/-- The error a scripted fault of the sample cluster returns. -/
def unavailable : String := "client: etcd cluster is unavailable or misconfigured"

/-- An inventory: `i-dead` is terminated, `i-stop` is stopped, the lookup of `i-err`
fails, `i-gone` is unknown (no reservation), `i-void` has a reservation that holds
nothing, and every other id is a running instance. -/
def sampleInventory : String → Except String (List Reservation) := fun id =>
  if id = "i-dead" then .ok [⟨[⟨"i-dead", "ip-10-0-0-9.internal", "10.0.0.9", "terminated"⟩]⟩]
  else if id = "i-stop" then .ok [⟨[⟨"i-stop", "ip-10-0-0-8.internal", "10.0.0.8", "stopped"⟩]⟩]
  else if id = "i-err" then .error "RequestLimitExceeded"
  else if id = "i-gone" then .ok []
  else if id = "i-void" then .ok [⟨[]⟩]
  else .ok [⟨[⟨id, "ip-10-0-0-1.internal", "10.0.0.1", "running"⟩]⟩]

/-- Three autoscaling groups over the sample inventory. -/
def sampleGroups : List Group :=
  [⟨"etcd", [⟨"i-a", "Healthy"⟩, ⟨"i-bad", "Unhealthy"⟩, ⟨"i-stop", "Healthy"⟩,
      ⟨"i-void", "Healthy"⟩, ⟨"i-c", "Healthy"⟩]⟩,
   ⟨"limited", [⟨"i-a", "Healthy"⟩, ⟨"i-err", "Healthy"⟩, ⟨"i-c", "Healthy"⟩]⟩,
   ⟨"vanished", [⟨"i-a", "Healthy"⟩, ⟨"i-gone", "Healthy"⟩, ⟨"i-c", "Healthy"⟩]⟩]

/-- A world over the sample inventory with the given members and fault script. -/
def sampleWorld (members : List Member) (faults : List Bool) : World where
  members := members
  removed := []
  newIDs := ["9", "10"]
  faults := faults
  inventory := sampleInventory
  groups := .ok sampleGroups
  metadata := fun _ => .error "no metadata service"
  decode := fun _ => .error "no identity document"
  readOnlyFiles := []
  files := []

/-- A member whose instance is terminated. -/
def deadMember : Member := ⟨"1", "i-dead", ["https://ip-10-0-0-9.internal:2380"]⟩

/-- A member whose lookup fails. -/
def errMember : Member := ⟨"2", "i-err", ["https://ip-10-0-0-2.internal:2380"]⟩

/-- A member the inventory does not know. -/
def goneMember : Member := ⟨"3", "i-gone", ["https://ip-10-0-0-3.internal:2380"]⟩

/-- A member whose instance is running. -/
def okMember : Member := ⟨"4", "i-ok", ["https://ip-10-0-0-4.internal:2380"]⟩

/-- The member of `selfIdentity`, named. -/
def selfMember : Member := ⟨"7", "i-self", ["https://ip-10-0-0-5.internal:2380"]⟩

/-- A cluster with a terminated member whose removal fails three times. -/
def retryWorld : World := sampleWorld [deadMember, okMember] [false, true, true, true]

/-- A cluster with a terminated member whose removal succeeds at the third attempt. -/
def healWorld : World :=
  sampleWorld [deadMember, errMember, goneMember, okMember] [false, true, true, false]

/-- A cluster whose first two members cannot be resolved in the inventory. -/
def unresolvedWorld : World := sampleWorld [errMember, goneMember, okMember] []

/-- A healthy cluster the instance is not yet part of; every call succeeds. -/
def joinWorld : World := sampleWorld [okMember] []

/-- The same cluster, where the `Add` request of the first run fails. -/
def softFailWorld : World := sampleWorld [okMember] [false, false, false, true]

/-- A cluster the instance is already a named member of, with one terminated member. -/
def settledWorld : World := sampleWorld [selfMember, deadMember] []

/-- The configuration of the output-file scenario: https, port 2380, private IPs. -/
def scenarioConfig : discoveryConfig :=
  { defaultConfig with
    environmentFile := "/etc/etcd.env", privateIPs := true, privateHostnames := false }

/-- The identity of the output-file scenario. -/
def scenarioIdentity : awsIdentity :=
  ⟨"i-0123", "eu-west-1", "10.0.0.1", "ip-10-0-0-1.internal", "ami-1", "t2.small", "eu-west-1a"⟩

/-- The two peers of the output-file scenario. -/
def scenarioPeers : List Instance :=
  [⟨"i-0123", "ip-10-0-0-1.internal", "10.0.0.1", "running"⟩,
   ⟨"i-0456", "ip-10-0-0-2.internal", "10.0.0.2", "running"⟩]

/-- The four lines of the output-file scenario, joined by line breaks. -/
def scenarioBlock : String :=
  "ETCD_INITIAL_CLUSTER_STATE=new\nETCD_NAME=i-0123\n" ++
  "ETCD_INITIAL_CLUSTER=\"i-0123=https://10.0.0.1:2380,i-0456=https://10.0.0.2:2380\"\n" ++
  "ETCD_PROXY=\"off\""

/-- A configuration that enables both addressing modes. -/
def bothConfig : discoveryConfig :=
  { defaultConfig with environmentFile := "/etc/etcd.env", privateIPs := true }

/-- The run of `syncMembership` in a sample world. -/
def sampleRun (w : World) : Run World Unit :=
  syncMembership World.env defaultConfig selfIdentity seeds w

/-- A world in which the whole program can run: the metadata service answers, the
identity document decodes to `selfIdentity` (the host name is filled in from the
second request), and the cluster holds one healthy member. -/
def bootWorld (faults : List Bool) : World where
  members := [okMember]
  removed := []
  newIDs := ["9", "10"]
  faults := faults
  inventory := sampleInventory
  groups := .ok (sampleGroups ++ [⟨"idle", [⟨"i-bad", "Unhealthy"⟩]⟩])
  metadata := fun url =>
    if url = "http://169.254.169.254/latest/meta-data/local-hostname" then
      .ok "ip-10-0-0-5.internal"
    else .ok "identity document"
  decode := fun _ => .ok { selfIdentity with PrivateDNSName := "" }
  readOnlyFiles := []
  files := []

/-- A valid configuration that names the autoscaling group `etcd`. -/
def bootConfig : discoveryConfig :=
  { defaultConfig with
    environmentFile := "/etc/etcd.env", privateHostnames := false, groupName := "etcd" }

/-- The same configuration for the group `idle`, which has no healthy instance. -/
def idleConfig : discoveryConfig := { bootConfig with groupName := "idle" }

/-- The same configuration in proxy mode. -/
def proxyConfig : discoveryConfig := { bootConfig with proxyMode := true }


/-- The running instances of the group `etcd` in the sample inventory. -/
def bootInstances : List Instance :=
  [⟨"i-a", "ip-10-0-0-1.internal", "10.0.0.1", "running"⟩,
   ⟨"i-c", "ip-10-0-0-1.internal", "10.0.0.1", "running"⟩]

/-- A configuration whose peer port is out of range. -/
def badPeerConfig : discoveryConfig := { bootConfig with etcdPeerPort := 0 }

/-- A configuration whose client port is out of range. -/
def badClientConfig : discoveryConfig := { bootConfig with etcdClientPort := 65535 }

/-- The configuration `bootConfig` with private host names switched on. -/
def hostnamesConfig : discoveryConfig := { bootConfig with privateHostnames := true }

/-- The configuration `bootConfig` with private IP addresses switched on. -/
def addressConfig : discoveryConfig := { bootConfig with privateIPs := true }

/-- The run of the examples in a flaky world. -/
def flakyRun (v : FlakyWorld) : Run FlakyWorld Unit :=
  syncMembership FlakyWorld.env defaultConfig selfIdentity seeds v

/-- The world `settledWorld` in which the second lookup fails once. -/
def missedWorld : FlakyWorld := ⟨settledWorld, [false, true]⟩

/-- The world `settledWorld` in which the lookups of a second run fail. -/
def shakyWorld : FlakyWorld := ⟨settledWorld, [false, false, true, true]⟩

/-! ## Lemmas -/

theorem isInstanceTerminated_eq (E : Env σ) (id : String) (s : σ) :
    isInstanceTerminated E id s =
      ⟨[Event.isInstanceTerminated id (E.describeInstances id s).1],
        terminatedVerdict (E.describeInstances id s).1, (E.describeInstances id s).2⟩ := by
  unfold isInstanceTerminated terminatedVerdict
  rcases h : E.describeInstances id s with ⟨res, s1⟩
  rcases res with err | reservations
  · rfl
  · rcases reservations with _ | ⟨r0, rs⟩
    · rfl
    · simp only
      rcases h0 : r0.Instances with _ | ⟨i0, is⟩
      · rfl
      · simp only
        split <;> rfl

theorem removeLoop_spec (E : Env σ) (id : String) :
    ∀ (n : Nat) (s : σ), ∃ errs : List String,
      ((removeLoop E id n s).removed = true ∧ errs.length < n ∧
        (removeLoop E id n s).trace = failedDeletes id errs ++ [Event.deleteMember id none]) ∨
      ((removeLoop E id n s).removed = false ∧ errs.length = n ∧
        (removeLoop E id n s).trace = failedDeletes id errs) := by
  intro n
  induction n with
  | zero => intro s; exact ⟨[], Or.inr ⟨rfl, rfl, rfl⟩⟩
  | succ n ih =>
    intro s
    unfold removeLoop deleteMember
    rcases h : E.membersRemove id s with ⟨err, s1⟩
    rcases err with _ | err
    · exact ⟨[], Or.inl ⟨rfl, by simp, rfl⟩⟩
    · obtain ⟨errs, hh⟩ := ih s1
      refine ⟨err :: errs, ?_⟩
      rcases hh with ⟨h1, h2, h3⟩ | ⟨h1, h2, h3⟩
      · left
        refine ⟨h1, by simpa using h2, ?_⟩
        simp [failedDeletes, h3]
      · right
        refine ⟨h1, by simpa using h2, ?_⟩
        simp [failedDeletes, h3]

theorem Continues.shift_cons {members : List Member} {k : Nat} {out : Outcome Unit}
    {rest : List Event} (i : Member) (h : Continues members k out rest) :
    Continues (i :: members) (k + 1) out rest := by
  rcases h with ⟨m, res, post, h1, h2⟩ | ⟨h1, h2, h3⟩
  · exact Or.inl ⟨m, res, post, by simpa using h1, h2⟩
  · exact Or.inr ⟨by simpa using h1, h2, h3⟩

theorem cleanupMembers_head (E : Env σ) (members : List Member) (s : σ) :
    Continues members 0 (cleanupMembers E members s).out (cleanupMembers E members s).trace := by
  cases members with
  | nil => exact Or.inr ⟨by simp, rfl, rfl⟩
  | cons i rest =>
    have key : ∃ post, (cleanupMembers E (i :: rest) s).trace =
        Event.isInstanceTerminated i.Name (E.describeInstances i.Name s).1 :: post := by
      unfold cleanupMembers
      rw [isInstanceTerminated_eq]
      simp only
      rcases hv : terminatedVerdict (E.describeInstances i.Name s).1 with b | e | _
      · cases b
        · exact ⟨_, rfl⟩
        · simp only
          split
          · exact ⟨_, rfl⟩
          · exact ⟨_, by simp; rfl⟩
      · exact ⟨_, rfl⟩
      · exact ⟨_, rfl⟩
    obtain ⟨post, hp⟩ := key
    exact Or.inl ⟨i, _, post, by simp, hp⟩

theorem failedDeletes_not_lookup (id : String) (errs : List String) :
    ∀ e ∈ failedDeletes id errs, e.isLookup = false := by
  intro e he
  simp only [failedDeletes, List.mem_map] at he
  obtain ⟨x, _, rfl⟩ := he
  rfl

theorem split_after_block {p : Event → Bool} :
    ∀ (D pre : List Event) (L : Event) (post Y : List Event),
      (∀ e ∈ D, p e = false) → p L = true → pre ++ L :: post = D ++ Y →
      ∃ q, pre = D ++ q ∧ q ++ L :: post = Y := by
  intro D
  induction D with
  | nil => intro pre L post Y _ _ h; exact ⟨pre, rfl, by simpa using h⟩
  | cons d D ih =>
    intro pre L post Y hD hL h
    cases pre with
    | nil =>
      simp only [List.nil_append, List.cons_append, List.cons.injEq] at h
      have := hD d (by simp)
      rw [← h.1] at this
      rw [hL] at this
      cases this
    | cons e pre =>
      simp only [List.cons_append, List.cons.injEq] at h
      obtain ⟨q, h1, h2⟩ := ih pre L post Y (fun e he => hD e (by simp [he])) hL h.2
      exact ⟨q, by rw [h.1, h1]; rfl, h2⟩

theorem MemberBlock.shift_block {members : List Member} {out : Outcome Unit} {k : Nat} {m : Member}
    {res : Except String (List Reservation)} {post : List Event} (i : Member)
    (h : MemberBlock members out k m res post) :
    MemberBlock (i :: members) out (k + 1) m res post := by
  rcases h with h | ⟨h1, h2⟩ | ⟨h1, errs, ⟨h2, rest, h3, h4⟩ | h2⟩
  · exact Or.inl h
  · exact Or.inr (Or.inl ⟨h1, h2.shift_cons i⟩)
  · exact Or.inr (Or.inr ⟨h1, errs, Or.inl ⟨h2, rest, h3, h4.shift_cons i⟩⟩)
  · exact Or.inr (Or.inr ⟨h1, errs, Or.inr h2⟩)

theorem cleanupMembers_block (E : Env σ) :
    ∀ (members : List Member) (s : σ) (pre : List Event) (name : String)
      (res : Except String (List Reservation)) (post : List Event),
      (cleanupMembers E members s).trace = pre ++ Event.isInstanceTerminated name res :: post →
      ∃ m, members[pre.countP Event.isLookup]? = some m ∧ m.Name = name ∧
        MemberBlock members (cleanupMembers E members s).out (pre.countP Event.isLookup) m res post := by
  intro members
  induction members with
  | nil => intro s pre name res post h; simp [cleanupMembers] at h
  | cons i rest ih =>
    intro s pre name res post h
    unfold cleanupMembers at h ⊢
    rw [isInstanceTerminated_eq] at h ⊢
    simp only at h ⊢
    rcases hv : terminatedVerdict (E.describeInstances i.Name s).1 with b | e | _
    · cases b
      · -- not terminated: the loop goes on
        rw [hv] at h
        simp only at h ⊢
        cases pre with
        | nil =>
          simp only [List.nil_append, List.singleton_append, List.cons.injEq,
            Event.isInstanceTerminated.injEq] at h
          obtain ⟨⟨h1, h2⟩, h3⟩ := h
          refine ⟨i, by simp, h1, Or.inr (Or.inl ⟨Or.inl (h2 ▸ hv), ?_⟩)⟩
          rw [← h3]
          exact (cleanupMembers_head E rest _).shift_cons i
        | cons e pre =>
          simp only [List.cons_append, List.singleton_append, List.cons.injEq] at h
          obtain ⟨m, h1, h2, h3⟩ := ih _ pre name res post h.2
          refine ⟨m, ?_, h2, ?_⟩
          · rw [← h.1]; simpa [Event.isLookup] using h1
          · rw [← h.1]; simpa [Event.isLookup] using h3.shift_block i
      · -- terminated: the retry loop runs
        rw [hv] at h
        simp only at h ⊢
        obtain ⟨errs, hr⟩ := removeLoop_spec E i.ID 3 (E.describeInstances i.Name s).2
        rcases hr with ⟨r1, r2, r3⟩ | ⟨r1, r2, r3⟩
        · -- removed within the bound
          rw [r1] at h ⊢
          simp only [Bool.not_true, Bool.false_eq_true, if_false] at h ⊢
          rw [r3] at h
          cases pre with
          | nil =>
            simp only [List.nil_append, List.singleton_append, List.cons_append,
              List.append_assoc, List.cons.injEq, Event.isInstanceTerminated.injEq] at h
            obtain ⟨⟨h1, h2⟩, h3⟩ := h
            refine ⟨i, by simp, h1, Or.inr (Or.inr ⟨h2 ▸ hv, errs, Or.inl ⟨r2, _, h3.symm, ?_⟩⟩)⟩
            exact (cleanupMembers_head E rest _).shift_cons i
          | cons e pre =>
            simp only [List.cons_append, List.singleton_append, List.append_assoc,
              List.cons.injEq] at h
            have hD : ∀ x ∈ failedDeletes i.ID errs ++ [Event.deleteMember i.ID none],
                x.isLookup = false := by
              intro x hx
              rcases List.mem_append.1 hx with hx | hx
              · exact failedDeletes_not_lookup _ _ x hx
              · simp only [List.mem_singleton] at hx; subst hx; rfl
            obtain ⟨q, q1, q2⟩ := split_after_block
              (failedDeletes i.ID errs ++ [Event.deleteMember i.ID none]) pre
              (Event.isInstanceTerminated name res) post _ hD rfl (by simpa using h.2.symm)
            obtain ⟨m, h1, h2, h3⟩ := ih _ q name res post q2.symm
            have hc : (e :: pre).countP Event.isLookup = q.countP Event.isLookup + 1 := by
              rw [← h.1, q1, List.countP_cons, List.countP_append,
                List.countP_eq_zero.2 (by simpa using hD)]
              simp [Event.isLookup]
            rw [hc]
            exact ⟨m, by simpa using h1, h2, h3.shift_block i⟩
        · -- all three attempts failed
          rw [r1] at h ⊢
          simp only [Bool.not_false, if_true] at h ⊢
          rw [r3] at h
          cases pre with
          | nil =>
            simp only [List.nil_append, List.singleton_append, List.cons.injEq,
              Event.isInstanceTerminated.injEq] at h
            obtain ⟨⟨h1, h2⟩, h3⟩ := h
            exact ⟨i, by simp, h1, Or.inr (Or.inr ⟨h2 ▸ hv, errs, Or.inr ⟨r2, h3.symm, rfl⟩⟩)⟩
          | cons e pre =>
            simp only [List.cons_append, List.singleton_append, List.cons.injEq] at h
            have hm : Event.isInstanceTerminated name res ∈ failedDeletes i.ID errs := by
              have h2 := h.2
              simp only [List.nil_append] at h2
              rw [h2]; simp
            have := failedDeletes_not_lookup _ _ _ hm
            simp [Event.isLookup] at this
    · -- the lookup failed: the loop goes on
      rw [hv] at h
      simp only at h ⊢
      cases pre with
      | nil =>
        simp only [List.nil_append, List.singleton_append, List.cons.injEq,
          Event.isInstanceTerminated.injEq] at h
        obtain ⟨⟨h1, h2⟩, h3⟩ := h
        refine ⟨i, by simp, h1, Or.inr (Or.inl ⟨Or.inr ⟨e, h2 ▸ hv⟩, ?_⟩)⟩
        rw [← h3]
        exact (cleanupMembers_head E rest _).shift_cons i
      | cons e pre =>
        simp only [List.cons_append, List.singleton_append, List.cons.injEq] at h
        obtain ⟨m, h1, h2, h3⟩ := ih _ pre name res post h.2
        refine ⟨m, ?_, h2, ?_⟩
        · rw [← h.1]; simpa [Event.isLookup] using h1
        · rw [← h.1]; simpa [Event.isLookup] using h3.shift_block i
    · -- the lookup panicked
      rw [hv] at h
      simp only at h ⊢
      cases pre with
      | nil =>
        simp only [List.nil_append, List.cons.injEq, Event.isInstanceTerminated.injEq] at h
        obtain ⟨⟨h1, h2⟩, h3⟩ := h
        exact ⟨i, by simp, h1, Or.inl ⟨h2 ▸ hv, h3.symm, rfl⟩⟩
      | cons e pre =>
        simp at h

theorem newEtcdClient_eq (E : Env σ) (endpoints : List String) (s : σ) :
    newEtcdClient E endpoints s =
      ⟨[Event.newEtcdClient endpoints (E.etcdNew endpoints s).1],
        (match (E.etcdNew endpoints s).1 with
          | some err => .error err
          | none => .ok ()), (E.etcdNew endpoints s).2⟩ := by
  unfold newEtcdClient
  rcases h : E.etcdNew endpoints s with ⟨err, s1⟩
  cases err <;> rfl

theorem listMembers_eq (E : Env σ) (s : σ) :
    listMembers E s =
      ⟨[Event.listMembers (E.membersList s).1],
        (match (E.membersList s).1 with
          | .error err => .error err
          | .ok members => .ok members), (E.membersList s).2⟩ := by
  unfold listMembers
  rcases h : E.membersList s with ⟨res, s1⟩
  cases res <;> rfl

/-- The shapes a run of `syncMembership` can take. -/
theorem syncMembership_shape (E : Env σ) (config : discoveryConfig) (identity : awsIdentity)
    (instances : List String) (s : σ) :
    (∃ err, (syncMembership E config identity instances s).trace =
        [Event.newEtcdClient instances (some err)] ∧
      (syncMembership E config identity instances s).out = .error err) ∨
    (∃ err, (syncMembership E config identity instances s).trace =
        [Event.newEtcdClient instances none, Event.listMembers (.error err)] ∧
      (syncMembership E config identity instances s).out = .error err) ∨
    (∃ members s2, E.membersList (E.etcdNew instances s).2 = (.ok members, s2) ∧
      (((cleanupMembers E members s2).out ≠ .ok () ∧
        (syncMembership E config identity instances s).trace =
          Event.newEtcdClient instances none :: Event.listMembers (.ok members) ::
            (cleanupMembers E members s2).trace ∧
        (syncMembership E config identity instances s).out = (cleanupMembers E members s2).out) ∨
      ((cleanupMembers E members s2).out = .ok () ∧
        (syncMembership E config identity instances s).trace =
          Event.newEtcdClient instances none :: Event.listMembers (.ok members) ::
            ((cleanupMembers E members s2).trace ++
              (joinCluster E config identity (cleanupMembers E members s2).state).trace) ∧
        (syncMembership E config identity instances s).out =
          (joinCluster E config identity (cleanupMembers E members s2).state).out ∧
        (syncMembership E config identity instances s).state =
          (joinCluster E config identity (cleanupMembers E members s2).state).state))) := by
  unfold syncMembership
  rw [newEtcdClient_eq]
  simp only
  rcases h1 : (E.etcdNew instances s).1 with _ | err
  · simp only
    rw [listMembers_eq]
    simp only
    rcases h2 : (E.membersList (E.etcdNew instances s).2).1 with err | members
    · exact Or.inr (Or.inl ⟨err, rfl, rfl⟩)
    · simp only
      refine Or.inr (Or.inr ⟨members, (E.membersList (E.etcdNew instances s).2).2,
        by rw [← h2], ?_⟩)
      rcases h3 : (cleanupMembers E members (E.membersList (E.etcdNew instances s).2).2).out
        with u | err | _
      · right
        exact ⟨rfl, by simp, rfl, rfl⟩
      · left
        exact ⟨by simp, by simp, rfl⟩
      · left
        exact ⟨by simp, by simp, rfl⟩
  · exact Or.inl ⟨err, rfl, rfl⟩

theorem hasMember_eq (E : Env σ) (name : String) (s : σ) :
    hasMember E name s =
      ⟨[Event.hasMember name, Event.listMembers (E.membersList s).1],
        (match (E.membersList s).1 with
          | .error err => .error err
          | .ok members => .ok (members.any fun m => m.Name == name)),
        (E.membersList s).2⟩ := by
  unfold hasMember
  rw [listMembers_eq]
  rcases (E.membersList s).1 with err | members <;> rfl

/-- The calls `addMember` makes after its entry: the listing of its own `hasMember`
check and, when that finds no such member, the `Add` request. -/
theorem addMember_trace (E : Env σ) (name url : String) (s : σ) :
    ∃ t, (addMember E name url s).trace =
        Event.addMember name url :: Event.hasMember name ::
          Event.listMembers (E.membersList s).1 :: t ∧
      (addMember E name url s).out ≠ .crashed ∧
      (t = [] ∨ ∃ err, t = [Event.membersAdd url err]) := by
  unfold addMember
  rw [hasMember_eq]
  simp only
  rcases (E.membersList s).1 with err | members
  · exact ⟨[], rfl, by simp, Or.inl rfl⟩
  · simp only
    cases members.any fun m => m.Name == name
    · simp only
      rcases E.membersAdd url (E.membersList s).2 with ⟨err, s1⟩
      cases err
      · exact ⟨[Event.membersAdd url none], rfl, by simp, Or.inr ⟨_, rfl⟩⟩
      · exact ⟨[Event.membersAdd url (some _)], rfl, by simp, Or.inr ⟨_, rfl⟩⟩
    · exact ⟨[], rfl, by simp, Or.inl rfl⟩

/-- The three ways the join step can go: the listing of the `hasMember` check
fails, it finds the own instance id, or it does not and `addMember` is called. -/
theorem joinCluster_cases (E : Env σ) (config : discoveryConfig) (identity : awsIdentity)
    (s : σ) :
    (∃ err, (joinCluster E config identity s).trace =
        [Event.hasMember identity.InstanceID, Event.listMembers (.error err)] ∧
      (joinCluster E config identity s).out = .error err) ∨
    (∃ members, (members.any fun m => m.Name == identity.InstanceID) = true ∧
      (joinCluster E config identity s).trace =
        [Event.hasMember identity.InstanceID, Event.listMembers (.ok members)] ∧
      (joinCluster E config identity s).out = .ok ()) ∨
    (∃ members res t, (members.any fun m => m.Name == identity.InstanceID) = false ∧
      (joinCluster E config identity s).trace =
        Event.hasMember identity.InstanceID :: Event.listMembers (.ok members) ::
          Event.addMember identity.InstanceID (advertiseURL config identity) ::
          Event.hasMember identity.InstanceID :: Event.listMembers res :: t ∧
      (t = [] ∨ ∃ err, t = [Event.membersAdd (advertiseURL config identity) err]) ∧
      (joinCluster E config identity s).out = .ok ()) := by
  unfold joinCluster
  dsimp only
  rw [hasMember_eq]
  simp only
  rcases (E.membersList s).1 with err | members
  · exact Or.inl ⟨err, rfl, rfl⟩
  · simp only
    rcases hb : (members.any fun m => m.Name == identity.InstanceID) with _ | _
    · right; right
      simp only
      obtain ⟨t, h1, h2, h3⟩ := addMember_trace E identity.InstanceID
        (advertiseURL config identity) (E.membersList s).2
      unfold advertiseURL at h1 h2 h3 ⊢
      refine ⟨members, (E.membersList (E.membersList s).2).1, t, hb, ?_, h3, ?_⟩
      · split <;> simp [h1]
      · split
        · rename_i hc; exact absurd hc h2
        · rfl
    · exact Or.inr (Or.inl ⟨members, hb, rfl, rfl⟩)

/-- The join step opens with the `hasMember` check for the own instance id and
issues neither a lookup nor a removal. -/
theorem joinCluster_trace (E : Env σ) (config : discoveryConfig) (identity : awsIdentity)
    (s : σ) :
    (∃ t, (joinCluster E config identity s).trace = Event.hasMember identity.InstanceID :: t) ∧
    ∀ e ∈ (joinCluster E config identity s).trace, e.isLookup = false ∧ e.isDelete = false := by
  rcases joinCluster_cases E config identity s with ⟨err, h1, _⟩ | ⟨ms, _, h1, _⟩ |
    ⟨ms, res, t, _, h1, h2, _⟩
  · rw [h1]; exact ⟨⟨_, rfl⟩, by simp [Event.isLookup, Event.isDelete]⟩
  · rw [h1]; exact ⟨⟨_, rfl⟩, by simp [Event.isLookup, Event.isDelete]⟩
  · rw [h1]
    refine ⟨⟨_, rfl⟩, ?_⟩
    rcases h2 with rfl | ⟨err, rfl⟩ <;> simp [Event.isLookup, Event.isDelete]

theorem split_before_tail {p : Event → Bool} :
    ∀ (q : List Event) (L : Event) (post ct jt : List Event),
      p L = true → (∀ e ∈ jt, p e = false) → q ++ L :: post = ct ++ jt →
      ∃ cpost, ct = q ++ L :: cpost ∧ post = cpost ++ jt := by
  intro q
  induction q with
  | nil =>
    intro L post ct jt hL hj h
    cases ct with
    | nil =>
      simp only [List.nil_append] at h
      have := hj L (by rw [← h]; simp)
      rw [hL] at this; cases this
    | cons c ct =>
      simp only [List.nil_append, List.cons_append, List.cons.injEq] at h
      exact ⟨ct, by rw [h.1]; rfl, h.2⟩
  | cons x q ih =>
    intro L post ct jt hL hj h
    cases ct with
    | nil =>
      simp only [List.nil_append] at h
      have := hj L (by rw [← h]; simp)
      rw [hL] at this; cases this
    | cons c ct =>
      simp only [List.cons_append, List.cons.injEq] at h
      obtain ⟨cpost, h1, h2⟩ := ih L post ct jt hL hj h.2
      exact ⟨cpost, by rw [h.1, h1]; rfl, h2⟩

/-- Every lookup in the trace of `syncMembership` is the lookup of the member at the
same position of the list fetched at the start, and is followed by the handling of
that member. -/
theorem syncMembership_block (E : Env σ) (config : discoveryConfig) (identity : awsIdentity)
    (instances : List String) (s : σ) (pre post : List Event) (name : String)
    (res : Except String (List Reservation))
    (h : (syncMembership E config identity instances s).trace =
      pre ++ Event.isInstanceTerminated name res :: post) :
    ∃ members pre2 m,
      pre = Event.newEtcdClient instances none :: Event.listMembers (.ok members) :: pre2 ∧
      members[pre2.countP Event.isLookup]? = some m ∧ m.Name = name ∧
      SyncBlock members identity.InstanceID (syncMembership E config identity instances s).out
        (pre2.countP Event.isLookup) m res post := by
  have hnl : ∀ (l : List Event), (∀ e ∈ l, e.isLookup = false) →
      l ≠ pre ++ Event.isInstanceTerminated name res :: post := by
    intro l hl he
    have := hl (Event.isInstanceTerminated name res) (by rw [he]; simp)
    simp [Event.isLookup] at this
  rcases syncMembership_shape E config identity instances s with ⟨err, h1, _⟩ | ⟨err, h1, _⟩ |
    ⟨members, s2, _, ⟨hc, h1, h2⟩ | ⟨hc, h1, h2, _⟩⟩
  · exact absurd (h1.symm.trans h) (hnl _ (by simp [Event.isLookup]))
  · exact absurd (h1.symm.trans h) (hnl _ (by simp [Event.isLookup]))
  · -- the loop ended the run
    rw [h1] at h
    obtain ⟨q, q1, q2⟩ := @split_after_block Event.isLookup
      [Event.newEtcdClient instances none, Event.listMembers (.ok members)] pre
      (Event.isInstanceTerminated name res) post (cleanupMembers E members s2).trace
      (by simp [Event.isLookup]) rfl h.symm
    obtain ⟨m, m1, m2, m3⟩ := cleanupMembers_block E members s2 q name res post q2.symm
    refine ⟨members, q, m, q1, m1, m2, ?_⟩
    rw [h2]
    rcases m3 with b | ⟨b1, b2⟩ | ⟨b1, errs, ⟨b2, rest, b3, b4⟩ | b2⟩
    · exact Or.inl b
    · refine Or.inr (Or.inl ⟨b1, ?_⟩)
      rcases b2 with ⟨m', res', post', c1, c2⟩ | ⟨_, _, c3⟩
      · exact Or.inl ⟨m', res', post', c1, c2⟩
      · exact absurd c3 hc
    · refine Or.inr (Or.inr ⟨b1, errs, Or.inl ⟨b2, rest, b3, ?_⟩⟩)
      rcases b4 with ⟨m', res', post', c1, c2⟩ | ⟨_, _, c3⟩
      · exact Or.inl ⟨m', res', post', c1, c2⟩
      · exact absurd c3 hc
    · exact Or.inr (Or.inr ⟨b1, errs, Or.inr b2⟩)
  · -- the loop ran to its end and the join step follows
    rw [h1] at h
    obtain ⟨⟨jt, hj1⟩, hj2⟩ := joinCluster_trace E config identity (cleanupMembers E members s2).state
    obtain ⟨q, q1, q2⟩ := @split_after_block Event.isLookup
      [Event.newEtcdClient instances none, Event.listMembers (.ok members)] pre
      (Event.isInstanceTerminated name res) post _
      (by simp [Event.isLookup]) rfl h.symm
    obtain ⟨cpost, p1, p2⟩ := @split_before_tail Event.isLookup q
      (Event.isInstanceTerminated name res) post (cleanupMembers E members s2).trace
      (joinCluster E config identity (cleanupMembers E members s2).state).trace rfl
      (fun e he => (hj2 e he).1) q2
    obtain ⟨m, m1, m2, m3⟩ := cleanupMembers_block E members s2 q name res cpost p1
    refine ⟨members, q, m, q1, m1, m2, ?_⟩
    rw [hc] at m3
    rcases m3 with ⟨_, _, b⟩ | ⟨b1, b2⟩ | ⟨b1, errs, ⟨b2, rest, b3, b4⟩ | ⟨_, _, b⟩⟩
    · cases b
    · refine Or.inr (Or.inl ⟨b1, ?_⟩)
      rw [p2]
      rcases b2 with ⟨m', res', post', c1, c2⟩ | ⟨c1, c2, _⟩
      · exact Or.inl ⟨m', res', post' ++ _, c1, by rw [c2]; rfl⟩
      · exact Or.inr ⟨c1, jt, by rw [c2, hj1]; rfl,
          fun e he => (hj2 e (by rw [hj1]; simp [he])).2⟩
    · refine Or.inr (Or.inr ⟨b1, errs, Or.inl ⟨b2,
        rest ++ (joinCluster E config identity (cleanupMembers E members s2).state).trace,
        by rw [p2, b3]; simp, ?_⟩⟩)
      rcases b4 with ⟨m', res', post', c1, c2⟩ | ⟨c1, c2, _⟩
      · exact Or.inl ⟨m', res', post' ++ _, c1, by rw [c2]; rfl⟩
      · exact Or.inr ⟨c1, jt, by rw [c2, hj1]; rfl,
          fun e he => (hj2 e (by rw [hj1]; simp [he])).2⟩
    · cases b

theorem failedDeletes_all_delete (id : String) (errs : List String) :
    ∀ e ∈ failedDeletes id errs, e.isDelete = true := by
  intro e he
  simp only [failedDeletes, List.mem_map] at he
  obtain ⟨x, _, rfl⟩ := he
  rfl

theorem failedDeletes_length (id : String) (errs : List String) :
    (failedDeletes id errs).length = errs.length := by
  simp [failedDeletes]

theorem success_not_mem_failedDeletes (id : String) (errs : List String) :
    Event.deleteMember id none ∉ failedDeletes id errs := by
  intro he
  simp [failedDeletes] at he

/-- The removal calls that directly follow a lookup, in each of the ways the run can
go on. -/
theorem GoesOn.takeWhile_nil {members : List Member} {self : String} {k : Nat}
    {rest : List Event} (h : GoesOn members self k rest) :
    rest.takeWhile Event.isDelete = [] := by
  rcases h with ⟨m, res, post, _, rfl⟩ | ⟨_, t, rfl, _⟩ <;> simp [Event.isDelete]

theorem cleanupMembers_cons_trace (E : Env σ) (i : Member) (rest : List Member) (s : σ) :
    ∃ dels ct, (cleanupMembers E (i :: rest) s).trace =
        Event.isInstanceTerminated i.Name (E.describeInstances i.Name s).1 :: (dels ++ ct) ∧
      (∀ e ∈ dels, ∃ err, e = Event.deleteMember i.ID err) ∧
      (dels ≠ [] → terminatedVerdict (E.describeInstances i.Name s).1 = .ok true) ∧
      (ct = [] ∨ ∃ s2, ct = (cleanupMembers E rest s2).trace) := by
  rw [cleanupMembers, isInstanceTerminated_eq]
  simp only
  rcases hv : terminatedVerdict (E.describeInstances i.Name s).1 with b | e | _
  · cases b
    · exact ⟨[], _, rfl, by simp, by simp, Or.inr ⟨_, rfl⟩⟩
    · simp only
      have hd : ∀ e ∈ (removeLoop E i.ID 3 (E.describeInstances i.Name s).2).trace,
          ∃ err, e = Event.deleteMember i.ID err := by
        intro e he
        obtain ⟨errs, hr⟩ := removeLoop_spec E i.ID 3 (E.describeInstances i.Name s).2
        rcases hr with ⟨_, _, r3⟩ | ⟨_, _, r3⟩
        · rw [r3] at he
          rcases List.mem_append.1 he with he | he
          · simp only [failedDeletes, List.mem_map] at he
            obtain ⟨x, _, rfl⟩ := he
            exact ⟨_, rfl⟩
          · simp only [List.mem_singleton] at he
            exact ⟨_, he⟩
        · rw [r3] at he
          simp only [failedDeletes, List.mem_map] at he
          obtain ⟨x, _, rfl⟩ := he
          exact ⟨_, rfl⟩
      split
      · exact ⟨_, [], by simp, hd, by simp, Or.inl rfl⟩
      · exact ⟨_, _, by simp; rfl, hd, by simp, Or.inr ⟨_, rfl⟩⟩
  · exact ⟨[], _, rfl, by simp, by simp, Or.inr ⟨_, rfl⟩⟩
  · exact ⟨[], [], rfl, by simp, by simp, Or.inl rfl⟩

/-- A `deleteMember` call in the loop is made for a member whose lookup, the one at
the member's position, answered that the instance is terminated. -/
theorem cleanupMembers_delete_origin (E : Env σ) :
    ∀ (members : List Member) (s : σ) (id : String) (err : Option String),
      Event.deleteMember id err ∈ (cleanupMembers E members s).trace →
      ∃ (k : Nat) (m : Member) (res : Except String (List Reservation)),
        members[k]? = some m ∧ m.ID = id ∧
        ((cleanupMembers E members s).trace.filter Event.isLookup)[k]? =
          some (Event.isInstanceTerminated m.Name res) ∧
        terminatedVerdict res = .ok true := by
  intro members
  induction members with
  | nil => intro s id err h; simp [cleanupMembers] at h
  | cons i rest ih =>
    intro s id err h
    obtain ⟨dels, ct, h1, h2, h3, h4⟩ := cleanupMembers_cons_trace E i rest s
    rw [h1] at h ⊢
    have hf : ∀ l : List Event, (dels ++ l).filter Event.isLookup = l.filter Event.isLookup := by
      intro l
      rw [List.filter_append, List.filter_eq_nil_iff.2, List.nil_append]
      intro e he
      obtain ⟨x, rfl⟩ := h2 e he
      simp [Event.isLookup]
    rw [List.filter_cons_of_pos (by rfl), hf]
    simp only [List.mem_cons, List.mem_append] at h
    rcases h with h | h | h
    · cases h
    · refine ⟨0, i, (E.describeInstances i.Name s).1, List.getElem?_cons_zero, ?_,
        List.getElem?_cons_zero, h3 (List.ne_nil_of_mem h)⟩
      obtain ⟨x, hx⟩ := h2 _ h
      cases hx; rfl
    · rcases h4 with rfl | ⟨s2, rfl⟩
      · simp at h
      · obtain ⟨k, m, res, k1, k2, k3, k4⟩ := ih s2 id err h
        exact ⟨k + 1, m, res, by rw [List.getElem?_cons_succ]; exact k1, k2,
          by rw [List.getElem?_cons_succ]; exact k3, k4⟩

theorem cleanupMembers_no_join (E : Env σ) :
    ∀ (members : List Member) (s : σ), ∀ e ∈ (cleanupMembers E members s).trace,
      e.isJoin = false ∧ (e.isLookup = true ∨ e.isDelete = true) := by
  intro members
  induction members with
  | nil => intro s e h; simp [cleanupMembers] at h
  | cons i rest ih =>
    intro s e h
    obtain ⟨dels, ct, h1, h2, _, h4⟩ := cleanupMembers_cons_trace E i rest s
    rw [h1] at h
    simp only [List.mem_cons, List.mem_append] at h
    rcases h with rfl | h | h
    · exact ⟨rfl, Or.inl rfl⟩
    · obtain ⟨x, rfl⟩ := h2 e h
      exact ⟨rfl, Or.inr rfl⟩
    · rcases h4 with rfl | ⟨s2, rfl⟩
      · simp at h
      · exact ih s2 e h

theorem getElem?_filter_countP {p : Event → Bool} (pre : List Event) (L : Event)
    (post : List Event) (hL : p L = true) :
    ((pre ++ L :: post).filter p)[pre.countP p]? = some L := by
  rw [List.filter_append, List.countP_eq_length_filter, List.filter_cons_of_pos hL,
    List.getElem?_append_right (le_refl _)]
  simp

/-- A run whose trace holds a call of the join step passed the loop, and the join
step is everything from the first such call on. -/
theorem syncMembership_join_split (E : Env σ) (config : discoveryConfig)
    (identity : awsIdentity) (instances : List String) (s : σ) (a b : List Event) (e : Event)
    (h : (syncMembership E config identity instances s).trace = a ++ e :: b)
    (he : e.isJoin = true) :
    ∃ members s2 q,
      a = Event.newEtcdClient instances none :: Event.listMembers (.ok members) ::
        ((cleanupMembers E members s2).trace ++ q) ∧
      q ++ e :: b = (joinCluster E config identity (cleanupMembers E members s2).state).trace ∧
      (syncMembership E config identity instances s).out =
        (joinCluster E config identity (cleanupMembers E members s2).state).out := by
  have hnj : ∀ (l : List Event), (∀ x ∈ l, x.isJoin = false) → l ≠ a ++ e :: b := by
    intro l hl hh
    have := hl e (by rw [hh]; simp)
    rw [he] at this; cases this
  rcases syncMembership_shape E config identity instances s with ⟨err, h1, _⟩ | ⟨err, h1, _⟩ |
    ⟨members, s2, _, ⟨hc, h1, h2⟩ | ⟨hc, h1, h2, _⟩⟩
  · exact absurd (h1.symm.trans h) (hnj _ (by simp [Event.isJoin]))
  · exact absurd (h1.symm.trans h) (hnj _ (by simp [Event.isJoin]))
  · refine absurd (h1.symm.trans h) (hnj _ ?_)
    intro x hx
    simp only [List.mem_cons] at hx
    rcases hx with rfl | rfl | hx
    · rfl
    · rfl
    · exact (cleanupMembers_no_join E members s2 x hx).1
  · rw [h1] at h
    have hP : ∀ x ∈ Event.newEtcdClient instances none :: Event.listMembers (.ok members) ::
        (cleanupMembers E members s2).trace, x.isJoin = false := by
      intro x hx
      simp only [List.mem_cons] at hx
      rcases hx with rfl | rfl | hx
      · rfl
      · rfl
      · exact (cleanupMembers_no_join E members s2 x hx).1
    obtain ⟨q, q1, q2⟩ := @split_after_block Event.isJoin _ a e b
      (joinCluster E config identity (cleanupMembers E members s2).state).trace hP he
      (by rw [← h]; simp)
    exact ⟨members, s2, q, by rw [q1]; simp, q2, h2⟩

theorem syncMembership_first_join (E : Env σ) (config : discoveryConfig)
    (identity : awsIdentity) (instances : List String) (s : σ) (a b : List Event) (e : Event)
    (h : (syncMembership E config identity instances s).trace = a ++ e :: b)
    (he : e.isJoin = true) (ha : ∀ x ∈ a, x.isJoin = false) :
    ∃ s2, e :: b = (joinCluster E config identity s2).trace ∧
      (syncMembership E config identity instances s).out = (joinCluster E config identity s2).out := by
  obtain ⟨members, s2, q, h1, h2, h3⟩ :=
    syncMembership_join_split E config identity instances s a b e h he
  refine ⟨_, ?_, h3⟩
  cases q with
  | nil => simpa using h2
  | cons z q =>
    obtain ⟨⟨t, ht⟩, _⟩ := joinCluster_trace E config identity (cleanupMembers E members s2).state
    rw [ht] at h2
    simp only [List.cons_append, List.cons.injEq] at h2
    have := ha z (by rw [h1]; simp)
    rw [h2.1] at this
    cases this

/-- A `deleteMember` call of a run is made for a member of the list fetched at the
start whose own lookup answered that the instance is terminated. -/
theorem syncMembership_delete_origin (E : Env σ) (config : discoveryConfig)
    (identity : awsIdentity) (instances : List String) (s : σ) (id : String)
    (err : Option String)
    (h : Event.deleteMember id err ∈ (syncMembership E config identity instances s).trace) :
    ∃ (members : List Member) (t : List Event) (k : Nat) (m : Member)
      (res : Except String (List Reservation)),
      (syncMembership E config identity instances s).trace =
        Event.newEtcdClient instances none :: Event.listMembers (.ok members) :: t ∧
      members[k]? = some m ∧ m.ID = id ∧
      ((syncMembership E config identity instances s).trace.filter Event.isLookup)[k]? =
        some (Event.isInstanceTerminated m.Name res) ∧
      terminatedVerdict res = .ok true := by
  rcases syncMembership_shape E config identity instances s with ⟨e, h1, _⟩ | ⟨e, h1, _⟩ |
    ⟨members, s2, _, ⟨hc, h1, h2⟩ | ⟨hc, h1, h2, _⟩⟩
  · rw [h1] at h; simp at h
  · rw [h1] at h; simp at h
  · rw [h1] at h ⊢
    simp only [List.mem_cons, reduceCtorEq, false_or] at h
    obtain ⟨k, m, res, k1, k2, k3, k4⟩ := cleanupMembers_delete_origin E members s2 id err h
    refine ⟨members, _, k, m, res, rfl, k1, k2, ?_, k4⟩
    rw [List.filter_cons_of_neg (by simp [Event.isLookup]),
      List.filter_cons_of_neg (by simp [Event.isLookup])]
    exact k3
  · rw [h1] at h ⊢
    obtain ⟨_, hj⟩ := joinCluster_trace E config identity (cleanupMembers E members s2).state
    simp only [List.mem_cons, reduceCtorEq, false_or, List.mem_append] at h
    rcases h with h | h
    · obtain ⟨k, m, res, k1, k2, k3, k4⟩ := cleanupMembers_delete_origin E members s2 id err h
      refine ⟨members, _, k, m, res, rfl, k1, k2, ?_, k4⟩
      have hnil : (joinCluster E config identity (cleanupMembers E members s2).state).trace.filter
          Event.isLookup = [] :=
        List.filter_eq_nil_iff.2 (fun e he => by simp [(hj e he).1])
      rw [List.filter_cons_of_neg (by simp [Event.isLookup]),
        List.filter_cons_of_neg (by simp [Event.isLookup]), List.filter_append, hnil,
        List.append_nil]
      exact k3
    · have := (hj _ h).2
      simp [Event.isDelete] at this

theorem terminatedVerdict_of_unknown {res : Except String (List Reservation)}
    (hres : (∃ err, res = .error err) ∨ res = .ok []) :
    terminatedVerdict res ≠ .ok true ∧ terminatedVerdict res ≠ .crashed := by
  rcases hres with ⟨err, rfl⟩ | rfl <;> simp [terminatedVerdict]

theorem world_nextFault_fields (w : World) :
    w.nextFault.2.members = w.members ∧ w.nextFault.2.removed = w.removed ∧
    w.nextFault.2.inventory = w.inventory ∧ w.nextFault.2.newIDs = w.newIDs := by
  unfold World.nextFault
  cases w.faults <;> simp

theorem world_membersList_spec (w : World) :
    (World.membersList w).2.members = w.members ∧ (World.membersList w).2.removed = w.removed ∧
    (World.membersList w).2.inventory = w.inventory ∧
    ∀ ms, (World.membersList w).1 = .ok ms → ms = w.members := by
  obtain ⟨h1, h2, h3, _⟩ := world_nextFault_fields w
  unfold World.membersList
  rcases hf : w.nextFault with ⟨f, w1⟩
  rw [hf] at h1 h2 h3
  simp only at h1 h2 h3
  cases f
  · exact ⟨h1, h2, h3, fun ms h => by simp at h; rw [← h, h1]⟩
  · exact ⟨h1, h2, h3, fun ms h => by simp at h⟩

theorem world_membersRemove_spec (id : String) (w : World) :
    (World.membersRemove id w).2.inventory = w.inventory ∧
    ((World.membersRemove id w).1 = none →
      (World.membersRemove id w).2.members = w.members.filter (fun m => m.ID != id) ∧
      (World.membersRemove id w).2.removed = id :: w.removed) ∧
    ((World.membersRemove id w).1 ≠ none →
      (World.membersRemove id w).2.members = w.members ∧
      (World.membersRemove id w).2.removed = w.removed) := by
  obtain ⟨h1, h2, h3, _⟩ := world_nextFault_fields w
  unfold World.membersRemove
  rcases hf : w.nextFault with ⟨f, w1⟩
  rw [hf] at h1 h2 h3
  simp only at h1 h2 h3
  cases f
  · simp only
    split
    · simp [h1, h2, h3]
    · simp [h1, h2, h3]
  · simp [h1, h2, h3]

theorem world_membersAdd_spec (url : String) (w : World) :
    (World.membersAdd url w).2.inventory = w.inventory ∧
    (World.membersAdd url w).2.removed = w.removed ∧
    ((World.membersAdd url w).2.members = w.members ∨
      ∃ id, id ∉ w.removed ∧ (World.membersAdd url w).2.members = w.members ++ [⟨id, "", [url]⟩]) := by
  obtain ⟨h1, h2, h3, _⟩ := world_nextFault_fields w
  unfold World.membersAdd
  rcases hf : w.nextFault with ⟨f, w1⟩
  rw [hf] at h1 h2 h3
  simp only at h1 h2 h3
  cases f
  · simp only
    rcases hn : w1.newIDs with _ | ⟨id, ids⟩
    · simp [h1, h2, h3]
    · simp only
      split
      · simp [h1, h2, h3]
      · split
        · simp [h1, h2, h3]
        · rename_i hc _
          simp only [Bool.or_eq_true, not_or, Bool.not_eq_true] at hc
          refine ⟨h3, h2, Or.inr ⟨id, ?_, by simp [h1]⟩⟩
          have := hc.1
          simp only [h2] at this
          intro hmem
          simp [hmem] at this
  · simp [h1, h2, h3]

theorem world_removeLoop_spec (id : String) :
    ∀ (n : Nat) (w : World),
      (removeLoop World.env id n w).state.inventory = w.inventory ∧
      ((removeLoop World.env id n w).removed = true →
        (removeLoop World.env id n w).state.members = w.members.filter (fun m => m.ID != id) ∧
        (removeLoop World.env id n w).state.removed = id :: w.removed) ∧
      ((removeLoop World.env id n w).removed = false →
        (removeLoop World.env id n w).state.members = w.members ∧
        (removeLoop World.env id n w).state.removed = w.removed) := by
  intro n
  induction n with
  | zero => intro w; simp [removeLoop]
  | succ n ih =>
    intro w
    obtain ⟨h1, h2, h3⟩ := world_membersRemove_spec id w
    unfold removeLoop deleteMember
    simp only [World.env]
    rcases hr : World.membersRemove id w with ⟨err, w1⟩
    rw [hr] at h1 h2 h3
    simp only at h1 h2 h3
    cases err with
    | none => simpa [h1] using h2 rfl
    | some e =>
      obtain ⟨i1, i2, i3⟩ := ih w1
      obtain ⟨g1, g2⟩ := h3 (by simp)
      simp only
      refine ⟨by rw [← h1]; exact i1, ?_, ?_⟩
      · intro hh
        have := i2 hh
        rw [g1, g2] at this
        exact this
      · intro hh
        have := i3 hh
        rw [g1, g2] at this
        exact this

theorem world_isInstanceTerminated_spec (name : String) (w : World) :
    isInstanceTerminated World.env name w =
      ⟨[Event.isInstanceTerminated name (w.inventory name)], w.verdict name, w⟩ := by
  rw [isInstanceTerminated_eq]
  rfl

/-- What the loop does to a world: it leaves the inventory alone, only takes members
out, and when it runs to its end it has removed every listed member the inventory
reports as terminated. -/
theorem world_cleanupMembers_spec :
    ∀ (L : List Member) (w : World),
      (cleanupMembers World.env L w).state.inventory = w.inventory ∧
      (∀ x ∈ (cleanupMembers World.env L w).state.members, x ∈ w.members) ∧
      (∀ x ∈ w.removed, x ∈ (cleanupMembers World.env L w).state.removed) ∧
      ((cleanupMembers World.env L w).out = .ok () → ∀ m ∈ L, w.verdict m.Name = .ok true →
        m.ID ∈ (cleanupMembers World.env L w).state.removed ∧
        ∀ x ∈ (cleanupMembers World.env L w).state.members, x.ID ≠ m.ID) := by
  intro L
  induction L with
  | nil => intro w; simp [cleanupMembers]
  | cons i rest ih =>
    intro w
    rw [cleanupMembers, world_isInstanceTerminated_spec]
    simp only
    rcases hv : w.verdict i.Name with b | e | _
    · cases b
      · -- not terminated
        simp only
        obtain ⟨a1, a2, a3, a4⟩ := ih w
        refine ⟨a1, a2, a3, ?_⟩
        intro hok m hm ht
        simp only [List.mem_cons] at hm
        rcases hm with rfl | hm
        · rw [hv] at ht; cases ht
        · exact a4 hok m hm ht
      · -- terminated
        simp only
        obtain ⟨r1, r2, r3⟩ := world_removeLoop_spec i.ID 3 w
        cases hrem : (removeLoop World.env i.ID 3 w).removed
        · obtain ⟨g1, g2⟩ := r3 hrem
          simp only [Bool.not_false, if_true]
          refine ⟨r1, by rw [g1]; exact fun x hx => hx, by rw [g2]; exact fun x hx => hx, ?_⟩
          intro hok; cases hok
        · obtain ⟨g1, g2⟩ := r2 hrem
          simp only [Bool.not_true, Bool.false_eq_true, if_false]
          obtain ⟨a1, a2, a3, a4⟩ := ih (removeLoop World.env i.ID 3 w).state
          have hsub : ∀ x ∈ (cleanupMembers World.env rest (removeLoop World.env i.ID 3 w).state).state.members,
              x ∈ w.members ∧ x.ID ≠ i.ID := by
            intro x hx
            have := a2 x hx
            rw [g1] at this
            simpa using this
          refine ⟨by rw [a1, r1], fun x hx => (hsub x hx).1, ?_, ?_⟩
          · intro x hx
            exact a3 x (by rw [g2]; simp [hx])
          · intro hok m hm ht
            simp only [List.mem_cons] at hm
            rcases hm with rfl | hm
            · exact ⟨a3 _ (by rw [g2]; simp), fun x hx => (hsub x hx).2⟩
            · exact a4 hok m hm (by unfold World.verdict at ht ⊢; rw [r1]; exact ht)
    · -- lookup failed
      simp only
      obtain ⟨a1, a2, a3, a4⟩ := ih w
      refine ⟨a1, a2, a3, ?_⟩
      intro hok m hm ht
      simp only [List.mem_cons] at hm
      rcases hm with rfl | hm
      · rw [hv] at ht; cases ht
      · exact a4 hok m hm ht
    · simp only
      refine ⟨trivial, fun x hx => hx, fun x hx => hx, ?_⟩
      intro hok; cases hok

/-- When no listed member is reported terminated the loop removes nothing. -/
theorem world_cleanupMembers_idle :
    ∀ (L : List Member) (w : World), (∀ m ∈ L, w.verdict m.Name ≠ .ok true) →
      (∀ e ∈ (cleanupMembers World.env L w).trace, e.isLookup = true) ∧
      (cleanupMembers World.env L w).state = w := by
  intro L
  induction L with
  | nil => intro w _; simp [cleanupMembers]
  | cons i rest ih =>
    intro w hL
    rw [cleanupMembers, world_isInstanceTerminated_spec]
    simp only
    have hi := hL i (by simp)
    obtain ⟨a1, a2⟩ := ih w (fun m hm => hL m (by simp [hm]))
    rcases hv : w.verdict i.Name with b | e | _
    · cases b
      · simp only
        refine ⟨?_, a2⟩
        intro e he
        simp only [List.singleton_append, List.mem_cons] at he
        rcases he with rfl | he
        · rfl
        · exact a1 e he
      · exact absurd hv hi
    · simp only
      refine ⟨?_, a2⟩
      intro e he
      simp only [List.singleton_append, List.mem_cons] at he
      rcases he with rfl | he
      · rfl
      · exact a1 e he
    · simp only
      refine ⟨?_, trivial⟩
      intro e he
      simp only [List.mem_singleton] at he
      rw [he]; rfl

theorem world_addMember_spec (name url : String) (w : World) :
    (addMember World.env name url w).state.inventory = w.inventory ∧
    (addMember World.env name url w).state.removed = w.removed ∧
    ((addMember World.env name url w).state.members = w.members ∨
      ∃ id, id ∉ w.removed ∧
        (addMember World.env name url w).state.members = w.members ++ [⟨id, "", [url]⟩]) := by
  obtain ⟨l1, l2, l3, _⟩ := world_membersList_spec w
  unfold addMember
  rw [hasMember_eq]
  simp only [World.env]
  rcases hl : World.membersList w with ⟨res, w1⟩
  rw [hl] at l1 l2 l3
  simp only at l1 l2 l3
  rcases res with err | ms
  · exact ⟨l3, l2, Or.inl l1⟩
  · simp only
    cases ms.any fun m => m.Name == name
    · simp only
      obtain ⟨a1, a2, a3⟩ := world_membersAdd_spec url w1
      rcases ha : World.membersAdd url w1 with ⟨err, w2⟩
      rw [ha] at a1 a2 a3
      simp only at a1 a2 a3
      rw [l1, l2] at a3
      cases err <;> exact ⟨by rw [a1, l3], by rw [a2, l2], a3⟩
    · exact ⟨l3, l2, Or.inl l1⟩

/-- What the join step does to a world. -/
theorem world_joinCluster_spec (config : discoveryConfig) (identity : awsIdentity) (w : World) :
    (joinCluster World.env config identity w).state.inventory = w.inventory ∧
    ((joinCluster World.env config identity w).state.members = w.members ∨
      (Event.addMember identity.InstanceID (advertiseURL config identity) ∈
          (joinCluster World.env config identity w).trace ∧
        ∃ id, id ∉ w.removed ∧ (joinCluster World.env config identity w).state.members =
          w.members ++ [⟨id, "", [advertiseURL config identity]⟩])) ∧
    ((w.members.any fun m => m.Name == identity.InstanceID) = true →
      ∀ e ∈ (joinCluster World.env config identity w).trace, e.isMutation = false) ∧
    ((joinCluster World.env config identity w).out = .ok () →
      Event.addMember identity.InstanceID (advertiseURL config identity) ∉
        (joinCluster World.env config identity w).trace →
      (w.members.any fun m => m.Name == identity.InstanceID) = true ∧
      (joinCluster World.env config identity w).state.members = w.members) := by
  obtain ⟨l1, l2, l3, l4⟩ := world_membersList_spec w
  unfold joinCluster
  dsimp only
  rw [hasMember_eq]
  have e1 : World.env.membersList w = World.membersList w := rfl
  rw [e1]
  rcases hl : World.membersList w with ⟨res, w1⟩
  rw [hl] at l1 l2 l3 l4
  simp only at l1 l2 l3 l4
  rcases res with err | ms
  · simp only
    refine ⟨l3, Or.inl l1, ?_, ?_⟩
    · intro _ e he
      simp only [List.mem_cons, List.mem_singleton, List.not_mem_nil, or_false] at he
      rcases he with rfl | rfl <;> rfl
    · intro hok; cases hok
  · have hms := l4 ms rfl
    subst hms
    simp only
    rcases hb : (w.members.any fun m => m.Name == identity.InstanceID) with _ | _
    · simp only
      obtain ⟨a1, a2, a3⟩ := world_addMember_spec identity.InstanceID
        (advertiseURL config identity) w1
      obtain ⟨t, t1, t2, _⟩ := addMember_trace World.env identity.InstanceID
        (advertiseURL config identity) w1
      unfold advertiseURL at a1 a2 a3 t1 t2 ⊢
      have hmem : Event.addMember identity.InstanceID
          (getPeerURL config (if config.privateIPs = true then identity.LocalIP
            else identity.PrivateDNSName)) ∈
          [Event.hasMember identity.InstanceID, Event.listMembers (Except.ok w.members)] ++
            (addMember World.env identity.InstanceID
              (getPeerURL config (if config.privateIPs = true then identity.LocalIP
                else identity.PrivateDNSName)) w1).trace := by
        simp [t1]
      rw [l1, l2] at a3
      split
      · rename_i hc; exact absurd hc t2
      · refine ⟨by rw [a1, l3], ?_, by simp, ?_⟩
        · rcases a3 with a3 | ⟨id, i1, i2⟩
          · exact Or.inl a3
          · exact Or.inr ⟨hmem, id, i1, i2⟩
        · intro _ hno
          exact absurd hmem hno
    · simp only
      refine ⟨l3, Or.inl l1, ?_, fun _ _ => ⟨trivial, l1⟩⟩
      intro _ e he
      simp only [List.mem_cons, List.mem_singleton, List.not_mem_nil, or_false] at he
      rcases he with rfl | rfl <;> rfl

/-- The listing at the start of a run in a world returns the members of that world
and changes neither the member list nor the inventory. -/
theorem world_start_spec (instances : List String) (w : World) (members : List Member)
    (s2 : World)
    (h : World.env.membersList (World.env.etcdNew instances w).2 = (.ok members, s2)) :
    members = w.members ∧ s2.members = w.members ∧ s2.inventory = w.inventory ∧
    s2.removed = w.removed := by
  have e0 : (World.env.etcdNew instances w).2 = w := by
    show (World.etcdNew instances w).2 = w
    unfold World.etcdNew
    split <;> rfl
  rw [e0] at h
  obtain ⟨l1, l2, l3, l4⟩ := world_membersList_spec w
  have e1 : World.env.membersList w = World.membersList w := rfl
  rw [e1] at h
  rw [h] at l1 l2 l3 l4
  exact ⟨l4 members rfl, l1, l3, l2⟩

/-- The world a successful run leaves behind: the inventory is the same, and every
member either is one the inventory does not report terminated or is the unnamed
member added by this run. -/
theorem world_after_run (config : discoveryConfig) (identity : awsIdentity)
    (instances : List String) (w : World)
    (hok : (syncMembership World.env config identity instances w).out = .ok ()) :
    (syncMembership World.env config identity instances w).state.inventory = w.inventory ∧
    (∀ x ∈ (syncMembership World.env config identity instances w).state.members,
      w.verdict x.Name ≠ .ok true ∨
      (x.Name = "" ∧ Event.addMember identity.InstanceID (advertiseURL config identity) ∈
        (syncMembership World.env config identity instances w).trace)) ∧
    (Event.addMember identity.InstanceID (advertiseURL config identity) ∉
        (syncMembership World.env config identity instances w).trace →
      ((syncMembership World.env config identity instances w).state.members.any
        fun m => m.Name == identity.InstanceID) = true) := by
  rcases syncMembership_shape World.env config identity instances w with ⟨e, _, h2⟩ | ⟨e, _, h2⟩ |
    ⟨members, s2, hl, ⟨hc, _, h2⟩ | ⟨hc, h1, h2, h3⟩⟩
  · rw [h2] at hok; cases hok
  · rw [h2] at hok; cases hok
  · rw [h2] at hok; exact absurd hok hc
  · obtain ⟨g1, g2, g3, _⟩ := world_start_spec instances w members s2 hl
    subst g1
    obtain ⟨c1, c2, _, c4⟩ := world_cleanupMembers_spec w.members s2
    obtain ⟨j1, j2, _, j4⟩ := world_joinCluster_spec config identity
      (cleanupMembers World.env w.members s2).state
    have hsurv : ∀ x ∈ (cleanupMembers World.env w.members s2).state.members,
        w.verdict x.Name ≠ .ok true := by
      intro x hx hv
      have hxw : x ∈ w.members := by rw [← g2]; exact c2 x hx
      exact (c4 hc x hxw (by unfold World.verdict at hv ⊢; rw [g3]; exact hv)).2 x hx rfl
    rw [h3, h1]
    refine ⟨by rw [j1, c1, g3], ?_, ?_⟩
    · intro x hx
      rcases j2 with j2 | ⟨jm, id, _, i2⟩
      · rw [j2] at hx
        exact Or.inl (hsurv x hx)
      · rw [i2] at hx
        simp only [List.mem_append, List.mem_singleton] at hx
        rcases hx with hx | rfl
        · exact Or.inl (hsurv x hx)
        · exact Or.inr ⟨rfl, by simp [jm]⟩
    · intro hno
      have hno2 : Event.addMember identity.InstanceID (advertiseURL config identity) ∉
          (joinCluster World.env config identity
            (cleanupMembers World.env w.members s2).state).trace := by
        intro hin
        exact hno (by simp [hin])
      obtain ⟨k1, k2⟩ := j4 (by rw [← h2]; exact hok) hno2
      rw [k2]; exact k1

/-- A run in a world none of whose members is reported terminated removes nothing,
and adds nothing when a member already carries the own instance id. -/
theorem world_idle_run (config : discoveryConfig) (identity : awsIdentity)
    (instances : List String) (v : World)
    (hv : ∀ x ∈ v.members, v.verdict x.Name ≠ .ok true) :
    (∀ e ∈ (syncMembership World.env config identity instances v).trace, e.isDelete = false) ∧
    ((v.members.any fun m => m.Name == identity.InstanceID) = true →
      ∀ e ∈ (syncMembership World.env config identity instances v).trace,
        e.isMutation = false) := by
  rcases syncMembership_shape World.env config identity instances v with ⟨e, h1, _⟩ | ⟨e, h1, _⟩ |
    ⟨members, s2, hl, hcase⟩
  · rw [h1]; simp [Event.isDelete, Event.isMutation]
  · rw [h1]; simp [Event.isDelete, Event.isMutation]
  · obtain ⟨g1, g2, g3, _⟩ := world_start_spec instances v members s2 hl
    subst g1
    obtain ⟨c1, c2⟩ := world_cleanupMembers_idle v.members s2
      (fun m hm => by unfold World.verdict at hv ⊢; rw [g3]; exact hv m hm)
    have hct : ∀ e ∈ (cleanupMembers World.env v.members s2).trace,
        e.isDelete = false ∧ e.isMutation = false := by
      intro e he
      have := c1 e he
      cases e <;> simp_all [Event.isLookup, Event.isDelete, Event.isMutation]
    rcases hcase with ⟨_, h1, _⟩ | ⟨_, h1, _, _⟩
    · rw [h1]
      constructor
      · intro e he
        simp only [List.mem_cons] at he
        rcases he with rfl | rfl | he
        · rfl
        · rfl
        · exact (hct e he).1
      · intro _ e he
        simp only [List.mem_cons] at he
        rcases he with rfl | rfl | he
        · rfl
        · rfl
        · exact (hct e he).2
    · rw [h1, c2]
      obtain ⟨_, jd⟩ := joinCluster_trace World.env config identity s2
      obtain ⟨_, _, j3, _⟩ := world_joinCluster_spec config identity s2
      constructor
      · intro e he
        simp only [List.mem_cons, List.mem_append] at he
        rcases he with rfl | rfl | he | he
        · rfl
        · rfl
        · exact (hct e he).1
        · exact (jd e he).2
      · intro hany e he
        simp only [List.mem_cons, List.mem_append] at he
        rcases he with rfl | rfl | he | he
        · rfl
        · rfl
        · exact (hct e he).2
        · exact j3 (by rw [g2]; exact hany) e he

theorem instancesLoop_spec (E : Env σ) :
    ∀ (L : List GroupInstance) (list : List Instance) (s : σ),
      (∀ id res, Event.describeInstances id res ∈ (instancesLoop E L list s).trace →
        ∃ r0 rs, res = .ok (r0 :: rs)) →
      ∃ answers : List (List Reservation),
        answers.length = (L.filter fun i => i.HealthStatus == "Healthy").length ∧
        (instancesLoop E L list s).trace =
          List.zipWith (fun i a => Event.describeInstances i.InstanceId (.ok a))
            (L.filter fun i => i.HealthStatus == "Healthy") answers ∧
        (instancesLoop E L list s).out = .ok (list ++ answers.filterMap runningInstance) := by
  intro L
  induction L with
  | nil => intro list s _; exact ⟨[], rfl, rfl, by simp [instancesLoop]⟩
  | cons i rest ih =>
    intro list s hd
    rw [instancesLoop] at hd ⊢
    by_cases hh : i.HealthStatus = "Healthy"
    · rw [if_neg (not_not.2 hh)] at hd ⊢
      rw [List.filter_cons_of_pos (by simp [hh])]
      rcases hr : E.describeInstances i.InstanceId s with ⟨res, s1⟩
      rw [hr] at hd
      rcases res with err | reservations
      · obtain ⟨r0, rs, h0⟩ := hd i.InstanceId (.error err) (by simp)
        cases h0
      · simp only at hd ⊢
        rcases reservations with _ | ⟨r0, rs⟩
        · obtain ⟨r0, rs, h0⟩ := hd i.InstanceId (.ok []) (by simp)
          cases h0
        · simp only at hd ⊢
          rcases h0 : r0.Instances with _ | ⟨i0, is⟩
          · rw [h0] at hd
            simp only at hd ⊢
            obtain ⟨answers, a1, a2, a3⟩ := ih list s1 (fun id res hm => hd id res (by simp [hm]))
            refine ⟨(r0 :: rs) :: answers, by simp [a1], by simp [a2], ?_⟩
            simp [a3, runningInstance, h0]
          · rw [h0] at hd
            simp only at hd ⊢
            by_cases hs : i0.State = "running"
            · rw [if_neg (not_not.2 hs)] at hd ⊢
              simp only at hd ⊢
              obtain ⟨answers, a1, a2, a3⟩ := ih (list ++ [i0]) s1
                (fun id res hm => hd id res (by simp [hm]))
              refine ⟨(r0 :: rs) :: answers, by simp [a1], by simp [a2], ?_⟩
              simp [a3, runningInstance, h0, hs]
            · rw [if_pos hs] at hd ⊢
              simp only at hd ⊢
              obtain ⟨answers, a1, a2, a3⟩ := ih list s1
                (fun id res hm => hd id res (by simp [hm]))
              refine ⟨(r0 :: rs) :: answers, by simp [a1], by simp [a2], ?_⟩
              simp [a3, runningInstance, h0, hs]
    · rw [if_pos hh] at hd ⊢
      rw [List.filter_cons_of_neg (by simp [hh])]
      exact ih list s hd

/-- When the `hasMember` check of the join step lists the members and finds no member
with the own instance id, `addMember` is called and the run returns nil whatever
`addMember` does. -/
theorem syncMembership_check_absent (E : Env σ) (config : discoveryConfig)
    (identity : awsIdentity) (instances : List String) (s : σ) (pre post : List Event)
    (members : List Member)
    (h : (syncMembership E config identity instances s).trace =
      pre ++ Event.hasMember identity.InstanceID :: Event.listMembers (.ok members) :: post)
    (hpre : ∀ e ∈ pre, e.isJoin = false)
    (habs : (members.any fun m => m.Name == identity.InstanceID) = false) :
    (syncMembership E config identity instances s).out = .ok () ∧
    ∃ res t, post = Event.addMember identity.InstanceID (advertiseURL config identity) ::
        Event.hasMember identity.InstanceID :: Event.listMembers res :: t ∧
      (t = [] ∨ ∃ err, t = [Event.membersAdd (advertiseURL config identity) err]) := by
  obtain ⟨s2, h1, h2⟩ := syncMembership_first_join E config identity instances s pre _ _ h rfl hpre
  rw [h2]
  rcases joinCluster_cases E config identity s2 with ⟨err, j1, _⟩ | ⟨ms, j0, j1, _⟩ |
    ⟨ms, res, t, _, j1, j2, j3⟩
  · rw [j1] at h1; simp at h1
  · rw [j1] at h1
    simp only [List.cons.injEq, Event.listMembers.injEq, Except.ok.injEq, true_and] at h1
    rw [h1.1, j0] at habs; cases habs
  · rw [j1] at h1
    simp only [List.cons.injEq, Event.listMembers.injEq, Except.ok.injEq, true_and] at h1
    exact ⟨j3, res, t, h1.2, j2⟩

/-- A `deleteMember` call in the loop is made for the member whose lookup is the
last lookup before it. -/
theorem cleanupMembers_delete_position (E : Env σ) :
    ∀ (members : List Member) (s : σ) (a b : List Event) (id : String) (err : Option String),
      (cleanupMembers E members s).trace = a ++ Event.deleteMember id err :: b →
      0 < a.countP Event.isLookup ∧
      ∃ m, members[a.countP Event.isLookup - 1]? = some m ∧ m.ID = id := by
  intro members
  induction members with
  | nil => intro s a b id err h; simp [cleanupMembers] at h
  | cons i rest ih =>
    intro s a b id err h
    obtain ⟨dels, ct, h1, h2, _, h4⟩ := cleanupMembers_cons_trace E i rest s
    rw [h1] at h
    have hdl : dels.countP Event.isLookup = 0 := by
      rw [List.countP_eq_zero]
      intro e he
      obtain ⟨x, rfl⟩ := h2 e he
      simp [Event.isLookup]
    cases a with
    | nil => simp at h
    | cons x a =>
      simp only [List.cons_append, List.cons.injEq] at h
      obtain ⟨hx, h⟩ := h
      have hc : (x :: a).countP Event.isLookup = a.countP Event.isLookup + 1 := by
        rw [← hx]; simp [List.countP_cons, Event.isLookup]
      rw [hc]
      refine ⟨Nat.succ_pos _, ?_⟩
      rcases List.append_eq_append_iff.1 h with ⟨c, c1, c2⟩ | ⟨c, c1, c2⟩
      · -- the call comes after the calls for `i`
        rcases h4 with rfl | ⟨s2, rfl⟩
        · simp at c2
        · obtain ⟨p1, m, p2, p3⟩ := ih s2 c b id err c2
          refine ⟨m, ?_, p3⟩
          rw [c1, List.countP_append, hdl]
          have : 0 + List.countP Event.isLookup c + 1 - 1 =
              (List.countP Event.isLookup c - 1) + 1 := by omega
          rw [this, List.getElem?_cons_succ]
          exact p2
      · -- the call is one of the calls for `i`
        cases c with
        | nil =>
          simp only [List.nil_append] at c2
          rcases h4 with rfl | ⟨s2, rfl⟩
          · simp at c2
          · obtain ⟨p1, _⟩ := ih s2 [] b id err (by rw [← c2]; rfl)
            simp at p1
        | cons y c =>
          simp only [List.cons_append, List.cons.injEq] at c2
          have hmem : Event.deleteMember id err ∈ dels := by
            rw [c1, c2.1]; simp
          obtain ⟨e2, he2⟩ := h2 _ hmem
          have ha : a.countP Event.isLookup = 0 := by
            have := hdl
            rw [c1, List.countP_append] at this
            omega
          rw [ha]
          refine ⟨i, by simp, ?_⟩
          cases he2; rfl

theorem isDeleteOf_iff (id : String) (e : Event) :
    e.isDeleteOf id = true ↔ ∃ err, e = Event.deleteMember id err := by
  cases e <;> simp [Event.isDeleteOf]

/-- A `deleteMember` call of a run is made for the member, of the list fetched at
the start, whose lookup is the last lookup before it. -/
theorem syncMembership_delete_position (E : Env σ) (config : discoveryConfig)
    (identity : awsIdentity) (instances : List String) (s : σ) (a b : List Event)
    (id : String) (err : Option String)
    (h : (syncMembership E config identity instances s).trace =
      a ++ Event.deleteMember id err :: b) :
    ∃ (members : List Member) (t : List Event),
      (syncMembership E config identity instances s).trace =
        Event.newEtcdClient instances none :: Event.listMembers (.ok members) :: t ∧
      0 < a.countP Event.isLookup ∧
      ∃ m, members[a.countP Event.isLookup - 1]? = some m ∧ m.ID = id := by
  have hmem : Event.deleteMember id err ∈ (syncMembership E config identity instances s).trace := by
    rw [h]; simp
  rcases syncMembership_shape E config identity instances s with ⟨e, h1, _⟩ | ⟨e, h1, _⟩ |
    ⟨members, s2, _, ⟨hc, h1, h2⟩ | ⟨hc, h1, h2, _⟩⟩
  · rw [h1] at hmem; simp at hmem
  · rw [h1] at hmem; simp at hmem
  · rw [h1] at h
    obtain ⟨q, q1, q2⟩ := @split_after_block Event.isDelete
      [Event.newEtcdClient instances none, Event.listMembers (.ok members)] a
      (Event.deleteMember id err) b (cleanupMembers E members s2).trace
      (by simp [Event.isDelete]) rfl h.symm
    obtain ⟨p1, m, p2, p3⟩ := cleanupMembers_delete_position E members s2 q b id err q2.symm
    have hq : a.countP Event.isLookup = q.countP Event.isLookup := by
      rw [q1]; simp [Event.isLookup]
    rw [hq]
    exact ⟨members, _, h1, p1, m, p2, p3⟩
  · rw [h1] at h
    obtain ⟨_, hj⟩ := joinCluster_trace E config identity (cleanupMembers E members s2).state
    obtain ⟨q, q1, q2⟩ := @split_after_block Event.isDelete
      [Event.newEtcdClient instances none, Event.listMembers (.ok members)] a
      (Event.deleteMember id err) b
      ((cleanupMembers E members s2).trace ++
        (joinCluster E config identity (cleanupMembers E members s2).state).trace)
      (by simp [Event.isDelete]) rfl h.symm
    obtain ⟨cpost, c1, _⟩ := @split_before_tail Event.isDelete q (Event.deleteMember id err) b
      (cleanupMembers E members s2).trace
      (joinCluster E config identity (cleanupMembers E members s2).state).trace rfl
      (fun e he => (hj e he).2) q2
    obtain ⟨p1, m, p2, p3⟩ := cleanupMembers_delete_position E members s2 q cpost id err c1
    have hq : a.countP Event.isLookup = q.countP Event.isLookup := by
      rw [q1]; simp [Event.isLookup]
    rw [hq]
    exact ⟨members, _, h1, p1, m, p2, p3⟩

/-- When no other entry of the fetched list carries the id of the member at position
`k`, a `deleteMember` call with that id has exactly `k + 1` lookups before it. -/
theorem syncMembership_delete_unique (E : Env σ) (config : discoveryConfig)
    (identity : awsIdentity) (instances : List String) (s : σ) (members : List Member)
    (t : List Event) (k : Nat) (m : Member)
    (ht : (syncMembership E config identity instances s).trace =
      Event.newEtcdClient instances none :: Event.listMembers (.ok members) :: t)
    (huniq : ∀ j m2, members[j]? = some m2 → m2.ID = m.ID → j = k)
    (a b : List Event) (err : Option String)
    (h : (syncMembership E config identity instances s).trace =
      a ++ Event.deleteMember m.ID err :: b) :
    a.countP Event.isLookup = k + 1 := by
  obtain ⟨members2, t2, d1, d2, m2, d3, d4⟩ :=
    syncMembership_delete_position E config identity instances s a b m.ID err h
  have hm : members2 = members := by
    rw [ht] at d1
    simp only [List.cons.injEq, Event.listMembers.injEq, Except.ok.injEq, true_and] at d1
    exact d1.1.symm
  subst hm
  have := huniq _ m2 d3 d4
  omega

/-- Under the same uniqueness, the calls `deleteMember m.ID` of the whole run are the
removal calls that directly follow the lookup of `m`. -/
theorem syncMembership_deletes_of_unique (E : Env σ) (config : discoveryConfig)
    (identity : awsIdentity) (instances : List String) (s : σ) (pre post pre2 : List Event)
    (name : String) (res : Except String (List Reservation)) (members : List Member)
    (m : Member)
    (h : (syncMembership E config identity instances s).trace =
      pre ++ Event.isInstanceTerminated name res :: post)
    (h1 : pre = Event.newEtcdClient instances none :: Event.listMembers (.ok members) :: pre2)
    (hb : SyncBlock members identity.InstanceID
      (syncMembership E config identity instances s).out (pre2.countP Event.isLookup) m res post)
    (huniq : ∀ j m2, members[j]? = some m2 → m2.ID = m.ID → j = pre2.countP Event.isLookup) :
    (syncMembership E config identity instances s).trace.filter (Event.isDeleteOf m.ID) =
      post.takeWhile Event.isDelete := by
  have hpc : pre.countP Event.isLookup = pre2.countP Event.isLookup := by
    rw [h1]; simp [Event.isLookup]
  have ht : (syncMembership E config identity instances s).trace =
      Event.newEtcdClient instances none :: Event.listMembers (.ok members) ::
        (pre2 ++ Event.isInstanceTerminated name res :: post) := by
    rw [h, h1]; rfl
  have hcount := syncMembership_delete_unique E config identity instances s members _
    (pre2.countP Event.isLookup) m ht huniq
  -- no such call before the lookup
  have hA : pre.filter (Event.isDeleteOf m.ID) = [] := by
    rw [List.filter_eq_nil_iff]
    intro e he hd
    obtain ⟨err, rfl⟩ := (isDeleteOf_iff _ _).1 hd
    obtain ⟨a, b0, hab⟩ := List.append_of_mem he
    have := hcount a (b0 ++ Event.isInstanceTerminated name res :: post) err
      (by rw [h, hab]; simp)
    have h2 : pre.countP Event.isLookup =
        a.countP Event.isLookup + b0.countP Event.isLookup := by
      rw [hab]; simp [List.countP_append, List.countP_cons, Event.isLookup]
    omega
  -- no such call once the run has gone on
  have hC : ∀ (D rest : List Event), post = D ++ rest → D.countP Event.isLookup = 0 →
      GoesOn members identity.InstanceID (pre2.countP Event.isLookup + 1) rest →
      rest.filter (Event.isDeleteOf m.ID) = [] := by
    intro D rest hp hD hg
    rw [List.filter_eq_nil_iff]
    intro e he hd
    obtain ⟨err, rfl⟩ := (isDeleteOf_iff _ _).1 hd
    obtain ⟨a0, b, hab⟩ := List.append_of_mem he
    have := hcount (pre ++ Event.isInstanceTerminated name res :: (D ++ a0)) b err
      (by rw [h, hp, hab]; simp)
    have h2 : (pre ++ Event.isInstanceTerminated name res :: (D ++ a0)).countP Event.isLookup =
        pre.countP Event.isLookup + 1 + a0.countP Event.isLookup := by
      simp [List.countP_append, List.countP_cons, Event.isLookup, hD]
      omega
    have h3 : a0.countP Event.isLookup = 0 := by omega
    rcases hg with ⟨m2, res2, post2, _, g⟩ | ⟨_, t, g, gt⟩
    · rw [g] at hab
      cases a0 with
      | nil => simp at hab
      | cons x a0 =>
        simp only [List.cons_append, List.cons.injEq] at hab
        rw [← hab.1] at h3
        simp [List.countP_cons, Event.isLookup] at h3
    · rw [g] at he
      simp only [List.mem_cons, reduceCtorEq, false_or] at he
      have := gt _ he
      simp [Event.isDelete] at this
  have hfd : ∀ errs, (failedDeletes m.ID errs).filter (Event.isDeleteOf m.ID) =
      failedDeletes m.ID errs := by
    intro errs
    rw [List.filter_eq_self]
    intro e he
    simp only [failedDeletes, List.mem_map] at he
    obtain ⟨x, _, rfl⟩ := he
    simp [Event.isDeleteOf]
  have hfl : ∀ errs, (failedDeletes m.ID errs).countP Event.isLookup = 0 := by
    intro errs
    rw [List.countP_eq_zero]
    intro e he
    simp [failedDeletes_not_lookup _ _ e he]
  rw [h, List.filter_append, hA, List.nil_append,
    List.filter_cons_of_neg (by simp [Event.isDeleteOf])]
  rcases hb with ⟨_, b, _⟩ | ⟨_, b⟩ | ⟨_, errs, ⟨_, rest, b3, b4⟩ | ⟨_, b3, _⟩⟩
  · subst b; rfl
  · rw [b.takeWhile_nil]
    exact hC [] post rfl rfl b
  · have htw : post.takeWhile Event.isDelete =
        failedDeletes m.ID errs ++ [Event.deleteMember m.ID none] := by
      rw [b3, List.takeWhile_append_of_pos (failedDeletes_all_delete _ _),
        List.takeWhile_cons_of_pos (by rfl), b4.takeWhile_nil]
    have hrest := hC (failedDeletes m.ID errs ++ [Event.deleteMember m.ID none]) rest
      (by rw [b3]; simp)
      (by rw [List.countP_append, hfl]; simp [List.countP_cons, Event.isLookup]) b4
    rw [htw, b3, List.filter_append, hfd,
      List.filter_cons_of_pos (by simp [Event.isDeleteOf]), hrest]
  · rw [b3, hfd]
    exact (List.takeWhile_eq_self_iff.2 (failedDeletes_all_delete _ _)).symm

/-- A run of `syncMembership` writes no file. -/
theorem syncMembership_no_write (E : Env σ) (config : discoveryConfig) (identity : awsIdentity)
    (instances : List String) (s : σ) (f c : String) (err : Option String) :
    Event.writeFile f c err ∉ (syncMembership E config identity instances s).trace := by
  intro hmem
  have hct : ∀ members s2, Event.writeFile f c err ∉ (cleanupMembers E members s2).trace := by
    intro members s2 h
    have := (cleanupMembers_no_join E members s2 _ h).2
    simp [Event.isLookup, Event.isDelete] at this
  have hjt : ∀ s2, Event.writeFile f c err ∉ (joinCluster E config identity s2).trace := by
    intro s2 h
    rcases joinCluster_cases E config identity s2 with ⟨e, j1, _⟩ | ⟨ms, _, j1, _⟩ |
      ⟨ms, res, t, _, j1, j2, _⟩
    · rw [j1] at h; simp at h
    · rw [j1] at h; simp at h
    · rw [j1] at h
      rcases j2 with rfl | ⟨e, rfl⟩ <;> simp at h
  rcases syncMembership_shape E config identity instances s with ⟨e, h1, _⟩ | ⟨e, h1, _⟩ |
    ⟨members, s2, _, ⟨_, h1, _⟩ | ⟨_, h1, _, _⟩⟩
  · rw [h1] at hmem; simp at hmem
  · rw [h1] at hmem; simp at hmem
  · rw [h1] at hmem
    simp only [List.mem_cons, reduceCtorEq, false_or] at hmem
    exact hct _ _ hmem
  · rw [h1] at hmem
    simp only [List.mem_cons, reduceCtorEq, false_or, List.mem_append] at hmem
    rcases hmem with h | h
    · exact hct _ _ h
    · exact hjt _ h

/-- The cluster state `main` computes: `existing` in proxy mode or when the client
was created and its listing succeeded, `new` otherwise. -/
theorem clusterState_spec (E : Env σ) (config : discoveryConfig) (instances : List Instance)
    (s : σ) :
    ((clusterState E config instances s).2.1 = "existing" ↔
      config.proxyMode = true ∨
        ((newEtcdClient E (getEtcdEndpoints config instances) s).out = .ok () ∧
          ∃ members, (listMembers E
            (newEtcdClient E (getEtcdEndpoints config instances) s).state).out = .ok members)) ∧
    ((clusterState E config instances s).2.1 = "existing" ∨
      (clusterState E config instances s).2.1 = "new") := by
  unfold clusterState
  dsimp only
  cases hp : config.proxyMode
  · simp only [Bool.false_eq_true, if_false, false_or]
    rcases hc : (newEtcdClient E (getEtcdEndpoints config instances) s).out with u | e | _
    · simp only
      rcases hl : (listMembers E
          (newEtcdClient E (getEtcdEndpoints config instances) s).state).out with ms | e | _
      · simp
      · simp
      · simp
    · simp
    · simp
  · simp

/-- The one file write of `main`, once configuration, identity and instance list are
there: the environment file, with the state computed by `clusterState`. -/
theorem main_trace_written (E : Env σ) (config : discoveryConfig) (s : σ)
    (identity : awsIdentity) (instances : List Instance)
    (hc : getConfig config = none)
    (hi : (getInstanceIdentity E s).out = .ok identity)
    (hm : (getAutoScalingMembers E config identity (getInstanceIdentity E s).state).out =
      .ok instances) :
    ∃ err rest,
      (main E config s).trace =
        (getInstanceIdentity E s).trace ++
          (getAutoScalingMembers E config identity (getInstanceIdentity E s).state).trace ++
          (clusterState E config instances
            (getAutoScalingMembers E config identity (getInstanceIdentity E s).state).state).1 ++
          Event.writeFile config.environmentFile
            (environmentContent config identity instances
              (clusterState E config instances
                (getAutoScalingMembers E config identity
                  (getInstanceIdentity E s).state).state).2.1 config.proxyMode) err :: rest ∧
      ∀ f c e, Event.writeFile f c e ∉ rest := by
  unfold main
  rw [hc]
  dsimp only
  rw [hi]
  dsimp only
  rw [hm]
  dsimp only
  unfold writeEnvironment writeFile
  rcases E.fileWrite config.environmentFile _ _ with ⟨err, s1⟩
  cases err with
  | some e => exact ⟨some e, [], by simp, by simp⟩
  | none =>
    dsimp only
    cases config.proxyMode
    · simp only [Bool.not_false, if_true]
      have hw := syncMembership_no_write E config identity
        (getEtcdEndpoints config instances) s1
      rcases (syncMembership E config identity (getEtcdEndpoints config instances) s1).out
        with u | e | _ <;> exact ⟨none, _, by simp, fun f c e => hw f c e⟩
    · exact ⟨none, [], by simp, by simp⟩

/-- Nothing the program computes from the configuration reads `privateHostnames`
outside `getConfig`. -/
theorem privateHostnames_unread (config : discoveryConfig) (b : Bool)
    (instances : List Instance) (identity : awsIdentity) :
    getEtcdEndpoints { config with privateHostnames := b } instances =
      getEtcdEndpoints config instances ∧
    getPeerURLs { config with privateHostnames := b } instances = getPeerURLs config instances ∧
    advertiseURL { config with privateHostnames := b } identity = advertiseURL config identity ∧
    ∀ (σ : Type) (E : Env σ) (endpoints : List String) (s : σ),
      syncMembership E { config with privateHostnames := b } identity endpoints s =
        syncMembership E config identity endpoints s :=
  ⟨rfl, rfl, rfl, fun _ _ _ _ => rfl⟩

/-- An `addMember` call of a run carries the advertised peer URL. -/
theorem syncMembership_add_url (E : Env σ) (config : discoveryConfig) (identity : awsIdentity)
    (instances : List String) (s : σ) (name url : String)
    (h : Event.addMember name url ∈ (syncMembership E config identity instances s).trace) :
    url = advertiseURL config identity := by
  obtain ⟨a, b, hab⟩ := List.append_of_mem h
  obtain ⟨members, s2, q, _, q2, _⟩ :=
    syncMembership_join_split E config identity instances s a b _ hab rfl
  have hin : Event.addMember name url ∈
      (joinCluster E config identity (cleanupMembers E members s2).state).trace := by
    rw [← q2]; simp
  rcases joinCluster_cases E config identity (cleanupMembers E members s2).state with
    ⟨err, j1, _⟩ | ⟨ms, _, j1, _⟩ | ⟨ms, res, t, _, j1, j2, _⟩
  · rw [j1] at hin; simp at hin
  · rw [j1] at hin; simp at hin
  · rw [j1] at hin
    rcases j2 with rfl | ⟨err, rfl⟩ <;> simp at hin <;> exact hin.2

/-- Reading the instance identity writes no file. -/
theorem getInstanceIdentity_no_write (E : Env σ) (s : σ) (f c : String) (err : Option String) :
    Event.writeFile f c err ∉ (getInstanceIdentity E s).trace := by
  unfold getInstanceIdentity getMetaLocalHostname
  dsimp only
  rcases E.httpGet _ s with ⟨r | r, s1⟩
  · simp
  · dsimp only
    rcases E.unmarshalIdentity r s1 with e | doc
    · simp
    · dsimp only
      rcases E.httpGet _ s1 with ⟨r2 | r2, s2⟩ <;> simp

/-- The instance loop writes no file. -/
theorem instancesLoop_no_write (E : Env σ) (f c : String) (err : Option String) :
    ∀ (L : List GroupInstance) (list : List Instance) (s : σ),
      Event.writeFile f c err ∉ (instancesLoop E L list s).trace := by
  intro L
  induction L with
  | nil => intro list s; simp [instancesLoop]
  | cons i rest ih =>
    intro list s
    rw [instancesLoop]
    split
    · exact ih list s
    · rcases E.describeInstances i.InstanceId s with ⟨r | reservations, s1⟩
      · simp
      · dsimp only
        rcases reservations with _ | ⟨r0, rs⟩
        · simp
        · dsimp only
          rcases r0.Instances with _ | ⟨i0, is⟩
          · simpa using ih list s1
          · dsimp only
            split
            · simpa using ih list s1
            · simpa using ih _ s1

/-- Listing the instances of a group writes no file. -/
theorem getAutoScalingInstances_no_write (E : Env σ) (name : String) (s : σ) (f c : String)
    (err : Option String) :
    Event.writeFile f c err ∉ (getAutoScalingInstances E name s).trace := by
  have hg : Event.writeFile f c err ∉ (getAutoScalingGroupByName E name s).trace := by
    unfold getAutoScalingGroupByName
    rcases E.describeAutoScalingGroups s with ⟨r | groups, s1⟩
    · simp
    · dsimp only
      split <;> simp
  unfold getAutoScalingInstances
  dsimp only
  split
  · exact hg
  · exact hg
  · simp only [List.mem_append, not_or]
    exact ⟨hg, instancesLoop_no_write E f c err _ _ _⟩

/-- Finding the members of the group writes no file. -/
theorem getAutoScalingMembers_no_write (E : Env σ) (config : discoveryConfig)
    (identity : awsIdentity) (s : σ) (f c : String) (err : Option String) :
    Event.writeFile f c err ∉ (getAutoScalingMembers E config identity s).trace := by
  have hg : Event.writeFile f c err ∉
      (getAutoScalingGroupWithInstanceID E identity.InstanceID s).trace := by
    unfold getAutoScalingGroupWithInstanceID
    rcases E.describeAutoScalingGroups s with ⟨r | groups, s1⟩
    · simp
    · dsimp only
      split <;> simp
  unfold getAutoScalingMembers
  split
  · dsimp only
    split
    · exact hg
    · exact hg
    · simp only [List.mem_append, not_or]
      exact ⟨hg, getAutoScalingInstances_no_write E _ _ f c err⟩
  · exact getAutoScalingInstances_no_write E _ _ f c err

/-- Probing the cluster writes no file. -/
theorem clusterState_no_write (E : Env σ) (config : discoveryConfig)
    (instances : List Instance) (s : σ) (f c : String) (err : Option String) :
    Event.writeFile f c err ∉ (clusterState E config instances s).1 := by
  have h1 : Event.writeFile f c err ∉
      (newEtcdClient E (getEtcdEndpoints config instances) s).trace := by
    rw [newEtcdClient_eq]; simp
  have h2 : ∀ s2, Event.writeFile f c err ∉ (listMembers E s2).trace := by
    intro s2; rw [listMembers_eq]; simp
  unfold clusterState
  dsimp only
  split <;> split <;> try split
  all_goals simp only [List.mem_append, not_or]
  all_goals first | exact h1 | exact ⟨h1, h2 _⟩

theorem flaky_removeLoop (id : String) :
    ∀ (n : Nat) (v : FlakyWorld),
      removeLoop FlakyWorld.env id n v =
        ⟨(removeLoop World.env id n v.world).trace, (removeLoop World.env id n v.world).removed,
          { v with world := (removeLoop World.env id n v.world).state }⟩ := by
  intro n
  induction n with
  | zero => intro v; rfl
  | succ n ih =>
    intro v
    unfold removeLoop deleteMember
    have e1 : FlakyWorld.env.membersRemove id v =
        ((World.membersRemove id v.world).1,
          { v with world := (World.membersRemove id v.world).2 }) := rfl
    have e2 : World.env.membersRemove id v.world = World.membersRemove id v.world := rfl
    rw [e1, e2]
    rcases World.membersRemove id v.world with ⟨err, w1⟩
    cases err with
    | none => rfl
    | some e =>
      simp only
      rw [ih]

theorem flaky_joinCluster (config : discoveryConfig) (identity : awsIdentity) (v : FlakyWorld) :
    joinCluster FlakyWorld.env config identity v =
      ⟨(joinCluster World.env config identity v.world).trace,
        (joinCluster World.env config identity v.world).out,
        { v with world := (joinCluster World.env config identity v.world).state }⟩ := by
  unfold joinCluster addMember
  dsimp only
  simp only [hasMember_eq]
  have e1 : ∀ u : FlakyWorld, FlakyWorld.env.membersList u =
      ((World.membersList u.world).1, { u with world := (World.membersList u.world).2 }) :=
    fun _ => rfl
  have e2 : ∀ w : World, World.env.membersList w = World.membersList w := fun _ => rfl
  have e3 : ∀ (url : String) (u : FlakyWorld), FlakyWorld.env.membersAdd url u =
      ((World.membersAdd url u.world).1, { u with world := (World.membersAdd url u.world).2 }) :=
    fun _ _ => rfl
  have e4 : ∀ (url : String) (w : World), World.env.membersAdd url w = World.membersAdd url w :=
    fun _ _ => rfl
  simp only [e1, e2, e3, e4]
  rcases World.membersList v.world with ⟨res, w1⟩
  rcases res with err | ms
  · rfl
  · simp only
    cases ms.any fun m => m.Name == identity.InstanceID
    · simp only
      rcases World.membersList w1 with ⟨res2, w2⟩
      rcases res2 with err2 | ms2
      · rfl
      · simp only
        cases ms2.any fun m => m.Name == identity.InstanceID
        · simp only
          rcases World.membersAdd _ w2 with ⟨err3, w3⟩
          cases err3 <;> rfl
        · rfl
    · rfl

theorem flaky_describeInstances (id : String) (v : FlakyWorld) :
    (FlakyWorld.describeInstances id v).2.world = v.world ∧
    ((FlakyWorld.describeInstances id v).1 = v.world.inventory id ∨
      ∃ err, (FlakyWorld.describeInstances id v).1 = .error err) := by
  unfold FlakyWorld.describeInstances
  rcases v.lookupFaults with _ | ⟨f, rest⟩
  · exact ⟨rfl, Or.inl rfl⟩
  · cases f
    · exact ⟨rfl, Or.inl rfl⟩
    · exact ⟨rfl, Or.inr ⟨_, rfl⟩⟩

theorem flaky_isInstanceTerminated (name : String) (v : FlakyWorld) :
    (isInstanceTerminated FlakyWorld.env name v).state.world = v.world ∧
    (∃ res, (isInstanceTerminated FlakyWorld.env name v).trace =
        [Event.isInstanceTerminated name res] ∧
      (isInstanceTerminated FlakyWorld.env name v).out = terminatedVerdict res ∧
      (res = v.world.inventory name ∨ ∃ err, res = .error err)) := by
  rw [isInstanceTerminated_eq]
  obtain ⟨h1, h2⟩ := flaky_describeInstances name v
  exact ⟨h1, _, rfl, rfl, h2⟩

/-- What the loop does to a flaky world: it leaves the inventory alone, only takes
members out, and when it runs to its end, every lookup answered from the inventory,
it has removed every listed member the inventory reports as terminated. -/
theorem flaky_cleanupMembers_spec :
    ∀ (L : List Member) (v : FlakyWorld),
      (cleanupMembers FlakyWorld.env L v).state.world.inventory = v.world.inventory ∧
      (∀ x ∈ (cleanupMembers FlakyWorld.env L v).state.world.members, x ∈ v.world.members) ∧
      ((cleanupMembers FlakyWorld.env L v).out = .ok () →
        (∀ name res, Event.isInstanceTerminated name res ∈
            (cleanupMembers FlakyWorld.env L v).trace → res = v.world.inventory name) →
        ∀ m ∈ L, v.world.verdict m.Name = .ok true →
          ∀ x ∈ (cleanupMembers FlakyWorld.env L v).state.world.members, x.ID ≠ m.ID) := by
  intro L
  induction L with
  | nil => intro v; simp [cleanupMembers]
  | cons i rest ih =>
    intro v
    obtain ⟨t1, res, t2, t3, t4⟩ := flaky_isInstanceTerminated i.Name v
    rw [cleanupMembers]
    simp only
    rw [t3, t2]
    generalize (isInstanceTerminated FlakyWorld.env i.Name v).state = v1 at t1 ⊢
    obtain ⟨a1, a2, a3⟩ := ih v1
    rw [t1] at a1 a2 a3
    rcases hv : terminatedVerdict res with b | e | _
    · cases b
      · -- not terminated
        simp only
        refine ⟨a1, a2, ?_⟩
        intro hok hf m hm ht
        simp only [List.mem_cons] at hm
        rcases hm with rfl | hm
        · have := hf m.Name res (by simp)
          rw [this] at hv
          unfold World.verdict at ht
          rw [hv] at ht; cases ht
        · exact a3 hok (fun name r hr => hf name r (by simp [hr])) m hm ht
      · -- terminated
        simp only
        rw [flaky_removeLoop]
        simp only
        obtain ⟨r1, r2, r3⟩ := world_removeLoop_spec i.ID 3 v1.world
        have r1b : (removeLoop World.env i.ID 3 v1.world).state.inventory = v.world.inventory := by
          rw [r1, t1]
        cases hrem : (removeLoop World.env i.ID 3 v1.world).removed
        · obtain ⟨g1, _⟩ := r3 hrem
          simp only [Bool.not_false, if_true]
          refine ⟨r1b, by rw [g1, t1]; exact fun x hx => hx, ?_⟩
          intro hok; cases hok
        · obtain ⟨g1, _⟩ := r2 hrem
          simp only [Bool.not_true, Bool.false_eq_true, if_false]
          obtain ⟨b1, b2, b3⟩ := ih
            { v1 with world := (removeLoop World.env i.ID 3 v1.world).state }
          simp only at b1 b2 b3
          rw [r1b] at b1 b3
          have hsub : ∀ x ∈ (cleanupMembers FlakyWorld.env rest
              { v1 with world := (removeLoop World.env i.ID 3 v1.world).state }).state.world.members,
              x ∈ v.world.members ∧ x.ID ≠ i.ID := by
            intro x hx
            have := b2 x hx
            rw [g1, t1] at this
            simpa using this
          refine ⟨b1, fun x hx => (hsub x hx).1, ?_⟩
          intro hok hf m hm ht
          simp only [List.mem_cons] at hm
          rcases hm with rfl | hm
          · exact fun x hx => (hsub x hx).2
          · refine b3 hok (fun name r hr => hf name r (by simp [hr])) m hm ?_
            unfold World.verdict at ht ⊢
            rw [r1b]; exact ht
    · -- lookup failed
      simp only
      refine ⟨a1, a2, ?_⟩
      intro hok hf m hm ht
      simp only [List.mem_cons] at hm
      rcases hm with rfl | hm
      · have := hf m.Name res (by simp)
        rw [this] at hv
        unfold World.verdict at ht
        rw [hv] at ht; cases ht
      · exact a3 hok (fun name r hr => hf name r (by simp [hr])) m hm ht
    · simp only
      refine ⟨by rw [t1], by rw [t1]; exact fun x hx => hx, ?_⟩
      intro hok; cases hok

/-- When the inventory reports no listed member as terminated the loop removes
nothing, whichever lookups fail. -/
theorem flaky_cleanupMembers_idle :
    ∀ (L : List Member) (v : FlakyWorld), (∀ m ∈ L, v.world.verdict m.Name ≠ .ok true) →
      (∀ e ∈ (cleanupMembers FlakyWorld.env L v).trace, e.isLookup = true) ∧
      (cleanupMembers FlakyWorld.env L v).state.world = v.world := by
  intro L
  induction L with
  | nil => intro v _; simp [cleanupMembers]
  | cons i rest ih =>
    intro v hL
    obtain ⟨t1, res, t2, t3, t4⟩ := flaky_isInstanceTerminated i.Name v
    rw [cleanupMembers]
    simp only
    rw [t3, t2]
    generalize (isInstanceTerminated FlakyWorld.env i.Name v).state = v1 at t1 ⊢
    have hi := hL i (by simp)
    obtain ⟨a1, a2⟩ := ih v1 (fun m hm => by rw [t1]; exact hL m (by simp [hm]))
    rw [t1] at a2
    have hlook : ∀ e ∈ [Event.isInstanceTerminated i.Name res] ++
        (cleanupMembers FlakyWorld.env rest v1).trace, e.isLookup = true := by
      intro e he
      simp only [List.singleton_append, List.mem_cons] at he
      rcases he with rfl | he
      · rfl
      · exact a1 e he
    rcases hv : terminatedVerdict res with b | e | _
    · cases b
      · exact ⟨hlook, a2⟩
      · rcases t4 with rfl | ⟨err, rfl⟩
        · exact absurd hv hi
        · simp [terminatedVerdict] at hv
    · exact ⟨hlook, a2⟩
    · simp only
      refine ⟨?_, t1⟩
      intro e he
      simp only [List.mem_singleton] at he
      rw [he]; rfl

theorem flaky_start_spec (instances : List String) (v : FlakyWorld) (members : List Member)
    (s2 : FlakyWorld)
    (h : FlakyWorld.env.membersList (FlakyWorld.env.etcdNew instances v).2 = (.ok members, s2)) :
    members = v.world.members ∧ s2.world.members = v.world.members ∧
    s2.world.inventory = v.world.inventory := by
  have h1 := congrArg Prod.fst h
  have h2 := congrArg (fun p => p.2.world) h
  have h3 : World.env.membersList (World.env.etcdNew instances v.world).2 =
      (Except.ok members, s2.world) := Prod.ext h1 h2
  obtain ⟨g1, g2, g3, _⟩ := world_start_spec instances v.world members s2.world h3
  exact ⟨g1, g2, g3⟩

/-- The world a successful run leaves behind when every lookup was answered from the
inventory: the inventory is the same, and every member either is one the inventory does
not report terminated or is the unnamed member added by this run. -/
theorem flaky_after_run (config : discoveryConfig) (identity : awsIdentity)
    (instances : List String) (v : FlakyWorld)
    (hok : (syncMembership FlakyWorld.env config identity instances v).out = .ok ())
    (hf : ∀ name res, Event.isInstanceTerminated name res ∈
        (syncMembership FlakyWorld.env config identity instances v).trace →
      res = v.world.inventory name) :
    (syncMembership FlakyWorld.env config identity instances v).state.world.inventory =
      v.world.inventory ∧
    (∀ x ∈ (syncMembership FlakyWorld.env config identity instances v).state.world.members,
      v.world.verdict x.Name ≠ .ok true ∨
      (x.Name = "" ∧ Event.addMember identity.InstanceID (advertiseURL config identity) ∈
        (syncMembership FlakyWorld.env config identity instances v).trace)) ∧
    (Event.addMember identity.InstanceID (advertiseURL config identity) ∉
        (syncMembership FlakyWorld.env config identity instances v).trace →
      ((syncMembership FlakyWorld.env config identity instances v).state.world.members.any
        fun m => m.Name == identity.InstanceID) = true) := by
  rcases syncMembership_shape FlakyWorld.env config identity instances v with
    ⟨e, _, h2⟩ | ⟨e, _, h2⟩ | ⟨members, s2, hl, ⟨hc, _, h2⟩ | ⟨hc, h1, h2, h3⟩⟩
  · rw [h2] at hok; cases hok
  · rw [h2] at hok; cases hok
  · rw [h2] at hok; exact absurd hok hc
  · obtain ⟨g1, g2, g3⟩ := flaky_start_spec instances v members s2 hl
    subst g1
    obtain ⟨c1, c2, c4⟩ := flaky_cleanupMembers_spec v.world.members s2
    rw [flaky_joinCluster] at h1 h2 h3
    simp only at h1 h2 h3
    obtain ⟨j1, j2, _, j4⟩ := world_joinCluster_spec config identity
      (cleanupMembers FlakyWorld.env v.world.members s2).state.world
    have hfc : ∀ name res, Event.isInstanceTerminated name res ∈
        (cleanupMembers FlakyWorld.env v.world.members s2).trace →
        res = s2.world.inventory name := by
      intro name res hmem
      rw [g3]
      exact hf name res (by rw [h1]; simp [hmem])
    have hsurv : ∀ x ∈ (cleanupMembers FlakyWorld.env v.world.members s2).state.world.members,
        v.world.verdict x.Name ≠ .ok true := by
      intro x hx hv
      have hxw : x ∈ v.world.members := by rw [← g2]; exact c2 x hx
      exact c4 hc hfc x hxw (by unfold World.verdict at hv ⊢; rw [g3]; exact hv) x hx rfl
    rw [h3, h1]
    simp only
    refine ⟨by rw [j1, c1, g3], ?_, ?_⟩
    · intro x hx
      rcases j2 with j2 | ⟨jm, id, _, i2⟩
      · rw [j2] at hx
        exact Or.inl (hsurv x hx)
      · rw [i2] at hx
        simp only [List.mem_append, List.mem_singleton] at hx
        rcases hx with hx | rfl
        · exact Or.inl (hsurv x hx)
        · exact Or.inr ⟨rfl, by simp [jm]⟩
    · intro hno
      have hno2 : Event.addMember identity.InstanceID (advertiseURL config identity) ∉
          (joinCluster World.env config identity
            (cleanupMembers FlakyWorld.env v.world.members s2).state.world).trace := by
        intro hin
        exact hno (by simp [hin])
      obtain ⟨k1, k2⟩ := j4 (by rw [← h2]; exact hok) hno2
      rw [k2]; exact k1

/-- A run in a flaky world none of whose members the inventory reports terminated
removes nothing, and adds nothing when a member already carries the own instance id. -/
theorem flaky_idle_run (config : discoveryConfig) (identity : awsIdentity)
    (instances : List String) (u : FlakyWorld)
    (hv : ∀ x ∈ u.world.members, u.world.verdict x.Name ≠ .ok true) :
    (∀ e ∈ (syncMembership FlakyWorld.env config identity instances u).trace,
      e.isDelete = false) ∧
    ((u.world.members.any fun m => m.Name == identity.InstanceID) = true →
      ∀ e ∈ (syncMembership FlakyWorld.env config identity instances u).trace,
        e.isMutation = false) := by
  rcases syncMembership_shape FlakyWorld.env config identity instances u with
    ⟨e, h1, _⟩ | ⟨e, h1, _⟩ | ⟨members, s2, hl, hcase⟩
  · rw [h1]; simp [Event.isDelete, Event.isMutation]
  · rw [h1]; simp [Event.isDelete, Event.isMutation]
  · obtain ⟨g1, g2, g3⟩ := flaky_start_spec instances u members s2 hl
    subst g1
    obtain ⟨c1, c2⟩ := flaky_cleanupMembers_idle u.world.members s2
      (fun m hm => by unfold World.verdict at hv ⊢; rw [g3]; exact hv m hm)
    have hct : ∀ e ∈ (cleanupMembers FlakyWorld.env u.world.members s2).trace,
        e.isDelete = false ∧ e.isMutation = false := by
      intro e he
      have := c1 e he
      cases e <;> simp_all [Event.isLookup, Event.isDelete, Event.isMutation]
    rcases hcase with ⟨_, h1, _⟩ | ⟨_, h1, _, _⟩
    · rw [h1]
      constructor
      · intro e he
        simp only [List.mem_cons] at he
        rcases he with rfl | rfl | he
        · rfl
        · rfl
        · exact (hct e he).1
      · intro _ e he
        simp only [List.mem_cons] at he
        rcases he with rfl | rfl | he
        · rfl
        · rfl
        · exact (hct e he).2
    · rw [flaky_joinCluster] at h1
      simp only at h1
      rw [h1, c2]
      obtain ⟨_, jd⟩ := joinCluster_trace World.env config identity s2.world
      obtain ⟨_, _, j3, _⟩ := world_joinCluster_spec config identity s2.world
      constructor
      · intro e he
        simp only [List.mem_cons, List.mem_append] at he
        rcases he with rfl | rfl | he | he
        · rfl
        · rfl
        · exact (hct e he).1
        · exact (jd e he).2
      · intro hany e he
        simp only [List.mem_cons, List.mem_append] at he
        rcases he with rfl | rfl | he | he
        · rfl
        · rfl
        · exact (hct e he).2
        · exact j3 (by rw [g2]; exact hany) e he

/-- A describe call of the instance loop that answers an error is the last call of the
loop, and its error is what the loop returns. -/
theorem instancesLoop_error (E : Env σ) (id err : String) :
    ∀ (L : List GroupInstance) (list : List Instance) (s : σ),
      Event.describeInstances id (.error err) ∈ (instancesLoop E L list s).trace →
      (instancesLoop E L list s).out = .error err ∧
      ∃ pre, (instancesLoop E L list s).trace = pre ++ [Event.describeInstances id (.error err)] := by
  intro L
  induction L with
  | nil => intro list s h; simp [instancesLoop] at h
  | cons i rest ih =>
    intro list s
    rw [instancesLoop]
    split
    · exact ih list s
    · rcases E.describeInstances i.InstanceId s with ⟨e | reservations, s1⟩
      · intro h
        simp only [List.mem_singleton, Event.describeInstances.injEq, Except.error.injEq] at h
        obtain ⟨rfl, rfl⟩ := h
        exact ⟨rfl, [], rfl⟩
      · dsimp only
        have step : ∀ (l2 : List Instance),
            Event.describeInstances id (.error err) ∈
              Event.describeInstances i.InstanceId (.ok reservations) ::
                (instancesLoop E rest l2 s1).trace →
            (instancesLoop E rest l2 s1).out = .error err ∧
            ∃ pre, Event.describeInstances i.InstanceId (.ok reservations) ::
                (instancesLoop E rest l2 s1).trace =
              pre ++ [Event.describeInstances id (.error err)] := by
          intro l2 h
          simp only [List.mem_cons, Event.describeInstances.injEq, reduceCtorEq, and_false,
            false_or] at h
          obtain ⟨h1, pre, h2⟩ := ih l2 s1 h
          exact ⟨h1, Event.describeInstances i.InstanceId (.ok reservations) :: pre, by rw [h2]; rfl⟩
        rcases reservations with _ | ⟨r0, rs⟩
        · intro h; simp at h
        · dsimp only
          rcases r0.Instances with _ | ⟨i0, is⟩
          · exact step list
          · dsimp only
            split
            · exact step list
            · exact step _

/-! ## The claims -/

/-- C1. In every run of `syncMembership`, take any lookup `isInstanceTerminated name`
in the trace.  It is the lookup of the member `m` at the same position of the list
fetched at the start (`m.Name = name`), and the `deleteMember` calls that follow it,
up to the next call that is not a removal, are the calls made for `m`: they all carry
`m.ID`, there are at most three of them, none follows a successful one, and there is
none unless the lookup answered that the instance is terminated.  When they are three
failed calls, nothing at all follows the third one (no removal for a later member, no
`hasMember` check, no `addMember` call) and the run returns the error that names
`m`.  When no other entry of the list carries the id of `m`, these calls are all the
`deleteMember` calls with `m.ID` of the whole run. -/
theorem syncMembership_removal_retry_bound (E : Env σ) (config : discoveryConfig)
    (identity : awsIdentity) (instances : List String) (s : σ) (pre post : List Event)
    (name : String) (res : Except String (List Reservation))
    (h : (syncMembership E config identity instances s).trace =
      pre ++ Event.isInstanceTerminated name res :: post) :
    ∃ members pre2 m,
      pre = Event.newEtcdClient instances none :: Event.listMembers (.ok members) :: pre2 ∧
      members[pre2.countP Event.isLookup]? = some m ∧ m.Name = name ∧
      (∀ e ∈ post.takeWhile Event.isDelete, ∃ err, e = Event.deleteMember m.ID err) ∧
      (post.takeWhile Event.isDelete).length ≤ 3 ∧
      (∀ a b, post.takeWhile Event.isDelete = a ++ Event.deleteMember m.ID none :: b → b = []) ∧
      (post.takeWhile Event.isDelete ≠ [] → terminatedVerdict res = .ok true) ∧
      (∀ e1 e2 e3, post.takeWhile Event.isDelete = failedDeletes m.ID [e1, e2, e3] →
        post = failedDeletes m.ID [e1, e2, e3] ∧
        (syncMembership E config identity instances s).out =
          .error ("failed to remove the member: " ++ m.Name)) ∧
      ((∀ j m2, members[j]? = some m2 → m2.ID = m.ID → j = pre2.countP Event.isLookup) →
        (syncMembership E config identity instances s).trace.filter (Event.isDeleteOf m.ID) =
          post.takeWhile Event.isDelete) := by
  obtain ⟨members, pre2, m, h1, h2, h3, h4⟩ :=
    syncMembership_block E config identity instances s pre post name res h
  have hu := syncMembership_deletes_of_unique E config identity instances s pre post pre2
    name res members m h h1 h4
  refine ⟨members, pre2, m, h1, h2, h3, ?_⟩
  suffices hmain : (∀ e ∈ post.takeWhile Event.isDelete, ∃ err, e = Event.deleteMember m.ID err) ∧
      (post.takeWhile Event.isDelete).length ≤ 3 ∧
      (∀ a b, post.takeWhile Event.isDelete = a ++ Event.deleteMember m.ID none :: b → b = []) ∧
      (post.takeWhile Event.isDelete ≠ [] → terminatedVerdict res = .ok true) ∧
      (∀ e1 e2 e3, post.takeWhile Event.isDelete = failedDeletes m.ID [e1, e2, e3] →
        post = failedDeletes m.ID [e1, e2, e3] ∧
        (syncMembership E config identity instances s).out =
          .error ("failed to remove the member: " ++ m.Name)) from
    ⟨hmain.1, hmain.2.1, hmain.2.2.1, hmain.2.2.2.1, hmain.2.2.2.2, hu⟩
  rcases h4 with ⟨_, b, _⟩ | ⟨_, b⟩ | ⟨b1, errs, ⟨b2, rest, b3, b4⟩ | ⟨b2, b3, b4⟩⟩
  · subst b
    simp [failedDeletes]
  · rw [b.takeWhile_nil]
    simp [failedDeletes]
  · have ht : post.takeWhile Event.isDelete =
        failedDeletes m.ID errs ++ [Event.deleteMember m.ID none] := by
      rw [b3, List.takeWhile_append_of_pos (failedDeletes_all_delete _ _),
        List.takeWhile_cons_of_pos (by rfl), b4.takeWhile_nil]
    rw [ht]
    refine ⟨?_, ?_, ?_, fun _ => b1, ?_⟩
    · intro e he
      rcases List.mem_append.1 he with he | he
      · simp only [failedDeletes, List.mem_map] at he
        obtain ⟨x, _, rfl⟩ := he
        exact ⟨_, rfl⟩
      · simp only [List.mem_singleton] at he
        exact ⟨_, he⟩
    · simp only [List.length_append, failedDeletes_length, List.length_singleton]
      omega
    · intro a b hab
      obtain ⟨q, q1, q2⟩ := @split_after_block
        (fun e => decide (e = Event.deleteMember m.ID none)) (failedDeletes m.ID errs) a
        (Event.deleteMember m.ID none) b [Event.deleteMember m.ID none]
        (fun e he => by
          simp only [decide_eq_false_iff_not]
          rintro rfl
          exact success_not_mem_failedDeletes _ _ he)
        (by simp) hab.symm
      cases q with
      | nil => simpa using q2
      | cons x q =>
        have := congrArg List.length q2
        simp at this
    · intro e1 e2 e3 he
      have : Event.deleteMember m.ID none ∈ failedDeletes m.ID [e1, e2, e3] := by
        rw [← he]; simp
      exact absurd this (success_not_mem_failedDeletes _ _)
  · have ht : post.takeWhile Event.isDelete = failedDeletes m.ID errs := by
      rw [b3, List.takeWhile_eq_self_iff]
      exact failedDeletes_all_delete _ _
    rw [ht]
    refine ⟨?_, ?_, ?_, fun _ => b1, ?_⟩
    · intro e he
      simp only [failedDeletes, List.mem_map] at he
      obtain ⟨x, _, rfl⟩ := he
      exact ⟨_, rfl⟩
    · rw [failedDeletes_length]; omega
    · intro a b hab
      have : Event.deleteMember m.ID none ∈ failedDeletes m.ID errs := by
        rw [hab]; simp
      exact absurd this (success_not_mem_failedDeletes _ _)
    · intro e1 e2 e3 he
      exact ⟨by rw [b3, he], b4⟩

/-- C1 at `retryWorld`: the three removal attempts for the terminated member fail. -/
theorem syncMembership_removal_retry_bound_witness :
    (sampleRun retryWorld).trace =
      [Event.newEtcdClient seeds none, Event.listMembers (.ok [deadMember, okMember])] ++
        Event.isInstanceTerminated "i-dead" (sampleInventory "i-dead") ::
          failedDeletes "1" [unavailable, unavailable, unavailable] ∧
    ∃ members pre2 m,
      [Event.newEtcdClient seeds none, Event.listMembers (.ok [deadMember, okMember])] =
        Event.newEtcdClient seeds none :: Event.listMembers (.ok members) :: pre2 ∧
      members[pre2.countP Event.isLookup]? = some m ∧ m.Name = "i-dead" ∧
      (∀ e ∈ (failedDeletes "1" [unavailable, unavailable, unavailable]).takeWhile Event.isDelete,
        ∃ err, e = Event.deleteMember m.ID err) ∧
      ((failedDeletes "1" [unavailable, unavailable, unavailable]).takeWhile
        Event.isDelete).length ≤ 3 ∧
      (∀ a b, (failedDeletes "1" [unavailable, unavailable, unavailable]).takeWhile Event.isDelete =
        a ++ Event.deleteMember m.ID none :: b → b = []) ∧
      ((failedDeletes "1" [unavailable, unavailable, unavailable]).takeWhile Event.isDelete ≠ [] →
        terminatedVerdict (sampleInventory "i-dead") = .ok true) ∧
      (∀ e1 e2 e3, (failedDeletes "1" [unavailable, unavailable, unavailable]).takeWhile
          Event.isDelete = failedDeletes m.ID [e1, e2, e3] →
        failedDeletes "1" [unavailable, unavailable, unavailable] =
          failedDeletes m.ID [e1, e2, e3] ∧
        (sampleRun retryWorld).out = .error ("failed to remove the member: " ++ m.Name)) ∧
      ((∀ j m2, members[j]? = some m2 → m2.ID = m.ID → j = pre2.countP Event.isLookup) →
        (sampleRun retryWorld).trace.filter (Event.isDeleteOf m.ID) =
          (failedDeletes "1" [unavailable, unavailable, unavailable]).takeWhile
            Event.isDelete) :=
  ⟨by decide,
    syncMembership_removal_retry_bound World.env defaultConfig selfIdentity seeds retryWorld
      [Event.newEtcdClient seeds none, Event.listMembers (.ok [deadMember, okMember])]
      (failedDeletes "1" [unavailable, unavailable, unavailable]) "i-dead"
      (sampleInventory "i-dead") (by decide)⟩

/-- C2. Conservative absence.  In every run of `syncMembership`, take a lookup whose
describe call returned an error or no reservation.  It is the lookup of the member
`m` at the same position of the list fetched at the start, and the run goes on: the
next call is the lookup of the next member, or, after the last member, the
`hasMember` check; no `deleteMember` call is made for `m`.  When no other member of
the list carries the id of `m`, no `deleteMember` call with `m.ID` occurs anywhere
in the run. -/
theorem syncMembership_conservative_absence (E : Env σ) (config : discoveryConfig)
    (identity : awsIdentity) (instances : List String) (s : σ) (pre post : List Event)
    (name : String) (res : Except String (List Reservation))
    (h : (syncMembership E config identity instances s).trace =
      pre ++ Event.isInstanceTerminated name res :: post)
    (hres : (∃ err, res = .error err) ∨ res = .ok []) :
    ∃ members pre2 m,
      pre = Event.newEtcdClient instances none :: Event.listMembers (.ok members) :: pre2 ∧
      members[pre2.countP Event.isLookup]? = some m ∧ m.Name = name ∧
      ((∃ m2 res2 post2, members[pre2.countP Event.isLookup + 1]? = some m2 ∧
          post = Event.isInstanceTerminated m2.Name res2 :: post2) ∨
        (members.length ≤ pre2.countP Event.isLookup + 1 ∧
          ∃ t, post = Event.hasMember identity.InstanceID :: t)) ∧
      ((∀ j m2, members[j]? = some m2 → m2.ID = m.ID → j = pre2.countP Event.isLookup) →
        ∀ err, Event.deleteMember m.ID err ∉
          (syncMembership E config identity instances s).trace) := by
  obtain ⟨members, pre2, m, h1, h2, h3, h4⟩ :=
    syncMembership_block E config identity instances s pre post name res h
  obtain ⟨v1, v2⟩ := terminatedVerdict_of_unknown hres
  refine ⟨members, pre2, m, h1, h2, h3, ?_, ?_⟩
  · rcases h4 with ⟨b, _⟩ | ⟨_, b⟩ | ⟨b, _⟩
    · exact absurd b v2
    · rcases b with b | ⟨c1, t, c2, _⟩
      · exact Or.inl b
      · exact Or.inr ⟨c1, t, c2⟩
    · exact absurd b v1
  · intro huniq err hmem
    obtain ⟨members2, t, k, m2, res2, d1, d2, d3, d4, d5⟩ :=
      syncMembership_delete_origin E config identity instances s m.ID err hmem
    have hm : members2 = members := by
      rw [h, h1] at d1
      simp only [List.cons_append, List.cons.injEq, Event.listMembers.injEq,
        Except.ok.injEq] at d1
      exact d1.2.1.symm
    subst hm
    have hk := huniq k m2 d2 d3
    subst hk
    have hc : pre.countP Event.isLookup = pre2.countP Event.isLookup := by
      rw [h1]; simp [Event.isLookup]
    have := @getElem?_filter_countP Event.isLookup pre
      (Event.isInstanceTerminated name res) post rfl
    rw [← h, hc, d4] at this
    simp only [Option.some.injEq, Event.isInstanceTerminated.injEq] at this
    rw [this.2] at d5
    exact v1 d5

/-- C2 at `unresolvedWorld`: the lookup of the first member fails, and the run goes on
with the second member. -/
theorem syncMembership_conservative_absence_witness :
    (sampleRun unresolvedWorld).trace =
      [Event.newEtcdClient seeds none,
        Event.listMembers (.ok [errMember, goneMember, okMember])] ++
        Event.isInstanceTerminated "i-err" (.error "RequestLimitExceeded") ::
          (sampleRun unresolvedWorld).trace.drop 3 ∧
    ((∃ err, (Except.error "RequestLimitExceeded" : Except String (List Reservation)) =
        .error err) ∨
      (Except.error "RequestLimitExceeded" : Except String (List Reservation)) = .ok []) ∧
    ∃ members pre2 m,
      [Event.newEtcdClient seeds none,
        Event.listMembers (.ok [errMember, goneMember, okMember])] =
        Event.newEtcdClient seeds none :: Event.listMembers (.ok members) :: pre2 ∧
      members[pre2.countP Event.isLookup]? = some m ∧ m.Name = "i-err" ∧
      ((∃ m2 res2 post2, members[pre2.countP Event.isLookup + 1]? = some m2 ∧
          (sampleRun unresolvedWorld).trace.drop 3 =
            Event.isInstanceTerminated m2.Name res2 :: post2) ∨
        (members.length ≤ pre2.countP Event.isLookup + 1 ∧
          ∃ t, (sampleRun unresolvedWorld).trace.drop 3 =
            Event.hasMember selfIdentity.InstanceID :: t)) ∧
      ((∀ j m2, members[j]? = some m2 → m2.ID = m.ID → j = pre2.countP Event.isLookup) →
        ∀ err, Event.deleteMember m.ID err ∉ (sampleRun unresolvedWorld).trace) :=
  ⟨by decide, Or.inl ⟨"RequestLimitExceeded", rfl⟩,
    syncMembership_conservative_absence World.env defaultConfig selfIdentity seeds
      unresolvedWorld
      [Event.newEtcdClient seeds none, Event.listMembers (.ok [errMember, goneMember, okMember])]
      ((sampleRun unresolvedWorld).trace.drop 3) "i-err" (.error "RequestLimitExceeded")
      (by decide) (Or.inl ⟨"RequestLimitExceeded", rfl⟩)⟩

/-- C3. In the concrete world, where a successful `Remove(id)` takes the member with
that id out of the cluster: when `syncMembership` returns nil, the list fetched at the
start is the member list of the world, and for every member `m` of it for whose name
`isInstanceTerminated` answers `true`, no member with the id of `m` is in the cluster
afterwards (so `m` itself is not). -/
theorem syncMembership_removes_terminated (config : discoveryConfig) (identity : awsIdentity)
    (instances : List String) (w : World)
    (hok : (syncMembership World.env config identity instances w).out = .ok ())
    (m : Member) (hm : m ∈ w.members)
    (ht : (isInstanceTerminated World.env m.Name w).out = .ok true) :
    (∃ t, (syncMembership World.env config identity instances w).trace =
      Event.newEtcdClient instances none :: Event.listMembers (.ok w.members) :: t) ∧
    ∀ x ∈ (syncMembership World.env config identity instances w).state.members, x.ID ≠ m.ID := by
  rw [world_isInstanceTerminated_spec] at ht
  simp only [World.verdict] at ht
  rcases syncMembership_shape World.env config identity instances w with ⟨e, _, h2⟩ | ⟨e, _, h2⟩ |
    ⟨members, s2, hl, ⟨hc, _, h2⟩ | ⟨hc, h1, _, h3⟩⟩
  · rw [h2] at hok; cases hok
  · rw [h2] at hok; cases hok
  · rw [h2] at hok; exact absurd hok hc
  · obtain ⟨g1, g2, g3, _⟩ := world_start_spec instances w members s2 hl
    subst g1
    refine ⟨⟨_, h1⟩, ?_⟩
    obtain ⟨_, _, _, c4⟩ := world_cleanupMembers_spec w.members s2
    obtain ⟨c5, c6⟩ := c4 hc m hm (by unfold World.verdict; rw [g3]; exact ht)
    obtain ⟨_, j2, _⟩ := world_joinCluster_spec config identity
      (cleanupMembers World.env w.members s2).state
    rw [h3]
    intro x hx
    rcases j2 with j2 | ⟨_, id, i1, i2⟩
    · rw [j2] at hx
      exact c6 x hx
    · rw [i2] at hx
      simp only [List.mem_append, List.mem_singleton] at hx
      rcases hx with hx | rfl
      · exact c6 x hx
      · intro hid
        simp only at hid
        rw [hid] at i1
        exact i1 c5

/-- C3 at `healWorld`: the terminated member is removed at the third attempt, the run
returns nil and no member with its id is left. -/
theorem syncMembership_removes_terminated_witness :
    (sampleRun healWorld).out = .ok () ∧ deadMember ∈ healWorld.members ∧
    (isInstanceTerminated World.env deadMember.Name healWorld).out = .ok true ∧
    (∃ t, (sampleRun healWorld).trace =
      Event.newEtcdClient seeds none :: Event.listMembers (.ok healWorld.members) :: t) ∧
    ∀ x ∈ (sampleRun healWorld).state.members, x.ID ≠ deadMember.ID :=
  ⟨by decide, by decide, by decide,
    syncMembership_removes_terminated defaultConfig selfIdentity seeds healWorld (by decide)
      deadMember (by decide) (by decide)⟩

/-- C4, as amended.  In a world whose lookups can fail transiently, let a first run of
`syncMembership` return nil with every lookup answered from the inventory, and run it a
second time from the world the first run left, the inventory unchanged, whatever
lookups fail then.  If the first run found the own instance id already in the cluster
(it did not call `addMember`), the second run issues no mutation at all: no
`deleteMember` call and no `Add` request.  In every case the second run issues no
`deleteMember` call, as long as `isInstanceTerminated` does not answer `true` for the
empty name, the name of a member the first run just added. -/
theorem syncMembership_second_run (config : discoveryConfig) (identity : awsIdentity)
    (instances : List String) (v : FlakyWorld)
    (hok : (syncMembership FlakyWorld.env config identity instances v).out = .ok ())
    (hf : ∀ name res, Event.isInstanceTerminated name res ∈
        (syncMembership FlakyWorld.env config identity instances v).trace →
      res = v.world.inventory name) :
    (Event.addMember identity.InstanceID (advertiseURL config identity) ∉
        (syncMembership FlakyWorld.env config identity instances v).trace →
      ∀ e ∈ (syncMembership FlakyWorld.env config identity instances
          (syncMembership FlakyWorld.env config identity instances v).state).trace,
        e.isMutation = false) ∧
    ((isInstanceTerminated World.env "" v.world).out ≠ .ok true →
      ∀ e ∈ (syncMembership FlakyWorld.env config identity instances
          (syncMembership FlakyWorld.env config identity instances v).state).trace,
        e.isDelete = false) := by
  rw [world_isInstanceTerminated_spec]
  simp only [World.verdict]
  obtain ⟨a1, a2, a3⟩ := flaky_after_run config identity instances v hok hf
  constructor
  · intro hno
    refine (flaky_idle_run config identity instances _ ?_).2 (a3 hno)
    intro x hx
    unfold World.verdict
    rw [a1]
    rcases a2 x hx with h | ⟨_, h⟩
    · exact h
    · exact absurd h hno
  · intro hempty
    refine (flaky_idle_run config identity instances _ ?_).1
    intro x hx
    unfold World.verdict
    rw [a1]
    rcases a2 x hx with h | ⟨h, _⟩
    · exact h
    · rw [h]; exact hempty

/-- C4 as stated fails.  At `softFailWorld` the first run returns nil although its
`Add` request failed, and the second run issues the `Add` request again, which then
succeeds; at `joinWorld` the first `Add` request succeeds, the member it registers has
no name, and the second run sends the `Add` request again (the cluster refuses it); at
`missedWorld` the lookup of the terminated member fails in the first run, which returns
nil and leaves the member in, and the second run removes it. -/
theorem syncMembership_second_run_counterexample :
    ((sampleRun softFailWorld).out = .ok () ∧
      Event.membersAdd selfURL none ∈ (sampleRun (sampleRun softFailWorld).state).trace ∧
      (sampleRun (sampleRun softFailWorld).state).state.members ≠
        (sampleRun softFailWorld).state.members) ∧
    ((sampleRun joinWorld).out = .ok () ∧
      (sampleRun joinWorld).state.members = [okMember, ⟨"9", "", [selfURL]⟩] ∧
      Event.membersAdd selfURL (some "client: peer URL exists") ∈
        (sampleRun (sampleRun joinWorld).state).trace) ∧
    ((flakyRun missedWorld).out = .ok () ∧
      (flakyRun missedWorld).trace =
        [Event.newEtcdClient seeds none, Event.listMembers (.ok [selfMember, deadMember]),
          Event.isInstanceTerminated "i-self" (sampleInventory "i-self"),
          Event.isInstanceTerminated "i-dead" (.error "RequestLimitExceeded"),
          Event.hasMember "i-self", Event.listMembers (.ok [selfMember, deadMember])] ∧
      Event.deleteMember "1" none ∈ (flakyRun (flakyRun missedWorld).state).trace ∧
      (flakyRun (flakyRun missedWorld).state).state.world.members = [selfMember]) := by
  decide

/-- C4 as amended, at `shakyWorld`: the first run removes the terminated member and
finds the instance already in the cluster; the second run, whose lookup fails, issues
no mutation. -/
theorem syncMembership_second_run_witness :
    (flakyRun shakyWorld).out = .ok () ∧
    (∀ name res, Event.isInstanceTerminated name res ∈ (flakyRun shakyWorld).trace →
      res = shakyWorld.world.inventory name) ∧
    Event.addMember selfIdentity.InstanceID (advertiseURL defaultConfig selfIdentity) ∉
      (flakyRun shakyWorld).trace ∧
    (∀ e ∈ (flakyRun (flakyRun shakyWorld).state).trace, e.isMutation = false) ∧
    (isInstanceTerminated World.env "" shakyWorld.world).out ≠ .ok true ∧
    (∀ e ∈ (flakyRun (flakyRun shakyWorld).state).trace, e.isDelete = false) ∧
    (flakyRun shakyWorld).trace =
      [Event.newEtcdClient seeds none, Event.listMembers (.ok [selfMember, deadMember]),
        Event.isInstanceTerminated "i-self" (sampleInventory "i-self"),
        Event.isInstanceTerminated "i-dead" (sampleInventory "i-dead"),
        Event.deleteMember "1" none,
        Event.hasMember "i-self", Event.listMembers (.ok [selfMember])] ∧
    (flakyRun (flakyRun shakyWorld).state).trace =
      [Event.newEtcdClient seeds none, Event.listMembers (.ok [selfMember]),
        Event.isInstanceTerminated "i-self" (.error "RequestLimitExceeded"),
        Event.hasMember "i-self", Event.listMembers (.ok [selfMember])] :=
  have ht : (flakyRun shakyWorld).trace =
      [Event.newEtcdClient seeds none, Event.listMembers (.ok [selfMember, deadMember]),
        Event.isInstanceTerminated "i-self" (sampleInventory "i-self"),
        Event.isInstanceTerminated "i-dead" (sampleInventory "i-dead"),
        Event.deleteMember "1" none,
        Event.hasMember "i-self", Event.listMembers (.ok [selfMember])] := by decide
  have hf : ∀ name res, Event.isInstanceTerminated name res ∈ (flakyRun shakyWorld).trace →
      res = shakyWorld.world.inventory name := by
    intro name res h
    rw [ht] at h
    simp only [List.mem_cons, List.mem_singleton, List.not_mem_nil, or_false, reduceCtorEq,
      false_or, Event.isInstanceTerminated.injEq] at h
    rcases h with ⟨rfl, rfl⟩ | ⟨rfl, rfl⟩ <;> rfl
  ⟨by decide, hf, by decide,
    (syncMembership_second_run defaultConfig selfIdentity seeds shakyWorld (by decide) hf).1
      (by decide),
    by decide,
    (syncMembership_second_run defaultConfig selfIdentity seeds shakyWorld (by decide) hf).2
      (by decide),
    ht, by decide⟩

/-- C5, as amended.  In every run of `syncMembership`, `addMember` is called for the
own instance id (with the advertised peer URL) if and only if the run reaches the
`hasMember` check of the join step, which comes after the cleanup loop, and that
check lists the members successfully and finds no member named by the own instance
id.  No other `addMember` call is ever made. -/
theorem syncMembership_add_iff_check_absent (E : Env σ) (config : discoveryConfig)
    (identity : awsIdentity) (instances : List String) (s : σ) :
    (Event.addMember identity.InstanceID (advertiseURL config identity) ∈
        (syncMembership E config identity instances s).trace ↔
      ∃ pre members post,
        (syncMembership E config identity instances s).trace =
          pre ++ Event.hasMember identity.InstanceID :: Event.listMembers (.ok members) :: post ∧
        (∀ e ∈ pre, e.isJoin = false) ∧
        (members.any fun m => m.Name == identity.InstanceID) = false) ∧
    (∀ name url, Event.addMember name url ∈ (syncMembership E config identity instances s).trace →
      name = identity.InstanceID ∧ url = advertiseURL config identity) := by
  have key : ∀ name url,
      Event.addMember name url ∈ (syncMembership E config identity instances s).trace →
      (name = identity.InstanceID ∧ url = advertiseURL config identity) ∧
      ∃ pre members post,
        (syncMembership E config identity instances s).trace =
          pre ++ Event.hasMember identity.InstanceID :: Event.listMembers (.ok members) :: post ∧
        (∀ e ∈ pre, e.isJoin = false) ∧
        (members.any fun m => m.Name == identity.InstanceID) = false := by
    intro name url hmem
    obtain ⟨a, b, hab⟩ := List.append_of_mem hmem
    obtain ⟨members, s2, q, q1, q2, _⟩ :=
      syncMembership_join_split E config identity instances s a b _ hab rfl
    have hin : Event.addMember name url ∈
        (joinCluster E config identity (cleanupMembers E members s2).state).trace := by
      rw [← q2]; simp
    have htr : (syncMembership E config identity instances s).trace =
        (Event.newEtcdClient instances none :: Event.listMembers (.ok members) ::
          (cleanupMembers E members s2).trace) ++
        (joinCluster E config identity (cleanupMembers E members s2).state).trace := by
      rw [hab, q1, ← q2]; simp
    have hP : ∀ x ∈ Event.newEtcdClient instances none :: Event.listMembers (.ok members) ::
        (cleanupMembers E members s2).trace, x.isJoin = false := by
      intro x hx
      simp only [List.mem_cons] at hx
      rcases hx with rfl | rfl | hx
      · rfl
      · rfl
      · exact (cleanupMembers_no_join E members s2 x hx).1
    rcases joinCluster_cases E config identity (cleanupMembers E members s2).state with
      ⟨err, j1, _⟩ | ⟨ms, j0, j1, _⟩ | ⟨ms, res, t, j0, j1, j2, j3⟩
    · rw [j1] at hin; simp at hin
    · rw [j1] at hin; simp at hin
    · rw [j1] at hin htr
      constructor
      · rcases j2 with rfl | ⟨err, rfl⟩ <;> simpa using hin
      · exact ⟨_, ms, _, htr, hP, j0⟩
  refine ⟨⟨fun hmem => (key _ _ hmem).2, ?_⟩, fun name url hmem => (key name url hmem).1⟩
  rintro ⟨pre, members, post, h, hpre, habs⟩
  obtain ⟨_, res, t, hp, _⟩ :=
    syncMembership_check_absent E config identity instances s pre post members h hpre habs
  rw [h, hp]
  simp

/-- C5 as stated fails at `retryWorld`: no member carries the own instance id at the
start of the run, yet no add-member call is made, because the run ends at the third
failed removal. -/
theorem syncMembership_add_iff_absent_counterexample :
    (retryWorld.members.any fun m => m.Name == selfIdentity.InstanceID) = false ∧
    (sampleRun retryWorld).out = .error "failed to remove the member: i-dead" ∧
    Event.addMember selfIdentity.InstanceID selfURL ∉ (sampleRun retryWorld).trace ∧
    (sampleRun retryWorld).trace.any Event.isJoin = false :=
  ⟨by decide, by decide, by decide, by decide⟩

/-- C5 as amended, at `joinWorld`: the check of the join step finds the instance
absent, so `addMember` is called. -/
theorem syncMembership_add_iff_check_absent_witness :
    Event.addMember selfIdentity.InstanceID (advertiseURL defaultConfig selfIdentity) ∈
      (sampleRun joinWorld).trace :=
  (syncMembership_add_iff_check_absent World.env defaultConfig selfIdentity seeds
    joinWorld).1.2 ⟨(sampleRun joinWorld).trace.take 3, [okMember],
      (sampleRun joinWorld).trace.drop 5, by decide, by decide, by decide⟩

/-- C6. Soft-fail on add.  In every run of `syncMembership` that reaches the
`hasMember` check of the join step (so the client was created, the members were
listed and every removal succeeded within its retries), where that check lists the
members and finds the own instance id absent: `addMember` is called, and the run
returns nil whatever `addMember` does, be it that its own listing fails (`res` is
an error and no `Add` request follows), that the `Add` request fails (`err` is
some error) or that it succeeds. -/
theorem syncMembership_add_soft_fail (E : Env σ) (config : discoveryConfig)
    (identity : awsIdentity) (instances : List String) (s : σ) (pre post : List Event)
    (members : List Member)
    (h : (syncMembership E config identity instances s).trace =
      pre ++ Event.hasMember identity.InstanceID :: Event.listMembers (.ok members) :: post)
    (hpre : ∀ e ∈ pre, e.isJoin = false)
    (habs : (members.any fun m => m.Name == identity.InstanceID) = false) :
    (syncMembership E config identity instances s).out = .ok () ∧
    ∃ res t, post = Event.addMember identity.InstanceID (advertiseURL config identity) ::
        Event.hasMember identity.InstanceID :: Event.listMembers res :: t ∧
      (t = [] ∨ ∃ err, t = [Event.membersAdd (advertiseURL config identity) err]) :=
  syncMembership_check_absent E config identity instances s pre post members h hpre habs

/-- C6 at `softFailWorld`, where the `Add` request fails, and at `joinWorld`, where it
succeeds: both runs return nil. -/
theorem syncMembership_add_soft_fail_witness :
    ((sampleRun softFailWorld).trace =
        (sampleRun softFailWorld).trace.take 3 ++
          Event.hasMember selfIdentity.InstanceID :: Event.listMembers (.ok [okMember]) ::
            [Event.addMember "i-self" selfURL, Event.hasMember "i-self",
              Event.listMembers (.ok [okMember]), Event.membersAdd selfURL (some unavailable)] ∧
      (∀ e ∈ (sampleRun softFailWorld).trace.take 3, e.isJoin = false) ∧
      ([okMember].any fun m => m.Name == selfIdentity.InstanceID) = false ∧
      (sampleRun softFailWorld).out = .ok ()) ∧
    ((sampleRun joinWorld).trace =
        (sampleRun joinWorld).trace.take 3 ++
          Event.hasMember selfIdentity.InstanceID :: Event.listMembers (.ok [okMember]) ::
            [Event.addMember "i-self" selfURL, Event.hasMember "i-self",
              Event.listMembers (.ok [okMember]), Event.membersAdd selfURL none] ∧
      (∀ e ∈ (sampleRun joinWorld).trace.take 3, e.isJoin = false) ∧
      ([okMember].any fun m => m.Name == selfIdentity.InstanceID) = false ∧
      (sampleRun joinWorld).out = .ok ()) :=
  ⟨⟨by decide, by decide, by decide,
      (syncMembership_add_soft_fail World.env defaultConfig selfIdentity seeds softFailWorld
        ((sampleRun softFailWorld).trace.take 3)
        [Event.addMember "i-self" selfURL, Event.hasMember "i-self",
          Event.listMembers (.ok [okMember]), Event.membersAdd selfURL (some unavailable)]
        [okMember] (by decide) (by decide) (by decide)).1⟩,
    ⟨by decide, by decide, by decide,
      (syncMembership_add_soft_fail World.env defaultConfig selfIdentity seeds joinWorld
        ((sampleRun joinWorld).trace.take 3)
        [Event.addMember "i-self" selfURL, Event.hasMember "i-self",
          Event.listMembers (.ok [okMember]), Event.membersAdd selfURL none]
        [okMember] (by decide) (by decide) (by decide)).1⟩⟩

/-- C7, as amended.  For every state string, identity, member list and proxy flag,
`writeEnvironment` makes the one call `writeFile filename content`, where `content`
is five lines, each ended by a line break: an empty line, then
`ETCD_INITIAL_CLUSTER_STATE=<state>`, `ETCD_NAME=<instance id>`,
`ETCD_INITIAL_CLUSTER="<comma-joined name=peerURL list>"` and `ETCD_PROXY="on"` when
proxy, `"off"` otherwise. -/
theorem writeEnvironment_content (E : Env σ) (config : discoveryConfig) (filename : String)
    (identity : awsIdentity) (members : List Instance) (state : String) (proxy : Bool) (s : σ) :
    writeEnvironment E config filename identity members state proxy s =
      writeFile E filename
        (String.join (("" :: environmentLines state identity.InstanceID
          (getPeerURLs config members) (if proxy then "on" else "off")).map
            fun l => l ++ "\n")) s := by
  unfold writeEnvironment environmentContent environmentLines
  congr 1
  apply String.ext
  simp only [String.join, List.map, List.foldl, String.data_append, List.append_assoc]
  rfl

/-- C7 as stated fails at the scenario of the specification: the content handed to
`writeFile` is the four-line block preceded by a line break (an empty first line)
and followed by one, so it is neither the block nor the block with its final line
break. -/
theorem writeEnvironment_content_counterexample :
    (writeEnvironment World.env scenarioConfig "/etc/etcd.env" scenarioIdentity scenarioPeers
        "new" false joinWorld).trace =
      [Event.writeFile "/etc/etcd.env" ("\n" ++ scenarioBlock ++ "\n") none] ∧
    "\n" ++ scenarioBlock ++ "\n" ≠ scenarioBlock ∧
    "\n" ++ scenarioBlock ++ "\n" ≠ scenarioBlock ++ "\n" := by
  decide

/-- C8. For every configuration with both `privateIPs` and `privateHostnames` set,
whatever its other fields, `getConfig` returns an error, and `main` then ends with
`os.Exit(1)` before it has issued a single call: no metadata request, no inventory
query, no cluster call, no file write. -/
theorem getConfig_rejects_both_addressing (config : discoveryConfig)
    (h1 : config.privateIPs = true) (h2 : config.privateHostnames = true) :
    (∃ err, getConfig config = some err) ∧
    ∀ (σ : Type) (E : Env σ) (s : σ),
      (main E config s).trace = [] ∧ (main E config s).status = .exit 1 ∧
      (main E config s).state = s := by
  have h : ∃ err, getConfig config = some err := by
    unfold getConfig
    rw [h1, h2]
    split_ifs <;> simp_all
  refine ⟨h, ?_⟩
  intro σ E s
  obtain ⟨err, he⟩ := h
  unfold main
  rw [he]
  exact ⟨rfl, rfl, rfl⟩

/-- C8 at `bothConfig`, which sets the private-address flag and keeps the default of
the private-hostname flag. -/
theorem getConfig_rejects_both_addressing_witness :
    bothConfig.privateIPs = true ∧ bothConfig.privateHostnames = true ∧
    (∃ err, getConfig bothConfig = some err) ∧
    ∀ (σ : Type) (E : Env σ) (s : σ),
      (main E bothConfig s).trace = [] ∧ (main E bothConfig s).status = .exit 1 ∧
      (main E bothConfig s).state = s :=
  ⟨rfl, rfl, getConfig_rejects_both_addressing bothConfig rfl rfl⟩

/-- C9, as amended.  For every autoscaling group found by name: when every describe
call the run makes succeeds and returns at least one reservation,
`getAutoScalingInstances` makes one describe call per instance of the group whose
health status is `Healthy`, in group order, and returns without error, in that
order, the first instance of the first reservation of each answer whose state is
`running`; an unhealthy instance is not described, and an instance that is not running,
or whose first reservation holds no instance, is skipped.  A describe call that answers
an error is the last call of the run, and `getAutoScalingInstances` returns that error. -/
theorem getAutoScalingInstances_running (E : Env σ) (name : String) (s : σ) (group : Group)
    (hg : (getAutoScalingGroupByName E name s).out = .ok group) :
    ((∀ id res, Event.describeInstances id res ∈ (getAutoScalingInstances E name s).trace →
        ∃ r0 rs, res = .ok (r0 :: rs)) →
      ∃ answers : List (List Reservation),
        answers.length = (healthyInstances group).length ∧
        (getAutoScalingInstances E name s).trace =
          (getAutoScalingGroupByName E name s).trace ++
            List.zipWith (fun i a => Event.describeInstances i.InstanceId (.ok a))
              (healthyInstances group) answers ∧
        (getAutoScalingInstances E name s).out = .ok (answers.filterMap runningInstance)) ∧
    (∀ id err, Event.describeInstances id (.error err) ∈
        (getAutoScalingInstances E name s).trace →
      (getAutoScalingInstances E name s).out = .error err ∧
      ∃ pre, (getAutoScalingInstances E name s).trace =
        pre ++ [Event.describeInstances id (.error err)]) := by
  have hgt : ∀ id res, Event.describeInstances id res ∉ (getAutoScalingGroupByName E name s).trace := by
    intro id res
    unfold getAutoScalingGroupByName
    rcases E.describeAutoScalingGroups s with ⟨r | groups, s1⟩
    · simp
    · dsimp only
      split <;> simp
  unfold getAutoScalingInstances
  dsimp only
  rw [hg]
  simp only
  constructor
  · intro hd
    obtain ⟨answers, a1, a2, a3⟩ := instancesLoop_spec E group.Instances []
      (getAutoScalingGroupByName E name s).state (fun id res hm => hd id res (by simp [hm]))
    exact ⟨answers, a1, by rw [a2]; rfl, by simpa using a3⟩
  · intro id err hmem
    simp only [List.mem_append] at hmem
    rcases hmem with hmem | hmem
    · exact absurd hmem (hgt id _)
    · obtain ⟨h1, pre, h2⟩ := instancesLoop_error E id err group.Instances []
        (getAutoScalingGroupByName E name s).state hmem
      exact ⟨h1, (getAutoScalingGroupByName E name s).trace ++ pre, by rw [h2, List.append_assoc]⟩

/-- C9 as stated fails.  In the group `limited` the describe call for one healthy
member returns an error, and `getAutoScalingInstances` returns that error; in the
group `vanished` the describe call for one healthy member returns no reservation,
and `getAutoScalingInstances` panics on `Reservations[0]`, where
`isInstanceTerminated` answers `false` for the same reply. -/
theorem getAutoScalingInstances_counterexample :
    ((getAutoScalingGroupByName World.env "limited" joinWorld).out =
        .ok ⟨"limited", [⟨"i-a", "Healthy"⟩, ⟨"i-err", "Healthy"⟩, ⟨"i-c", "Healthy"⟩]⟩ ∧
      (getAutoScalingInstances World.env "limited" joinWorld).out =
        .error "RequestLimitExceeded") ∧
    ((getAutoScalingGroupByName World.env "vanished" joinWorld).out =
        .ok ⟨"vanished", [⟨"i-a", "Healthy"⟩, ⟨"i-gone", "Healthy"⟩, ⟨"i-c", "Healthy"⟩]⟩ ∧
      joinWorld.inventory "i-gone" = .ok [] ∧
      (getAutoScalingInstances World.env "vanished" joinWorld).out = .crashed ∧
      (isInstanceTerminated World.env "i-gone" joinWorld).out = .ok false) := by
  decide

/-- C9 as amended, at the group `etcd`: of its five instances one is unhealthy, one is
stopped and one has a reservation without an instance; the two others are returned.  At
the group `limited` the second describe call answers an error: it is the last call, and
its error is returned. -/
theorem getAutoScalingInstances_running_witness :
    (getAutoScalingGroupByName World.env "etcd" joinWorld).out =
      .ok ⟨"etcd", [⟨"i-a", "Healthy"⟩, ⟨"i-bad", "Unhealthy"⟩, ⟨"i-stop", "Healthy"⟩,
        ⟨"i-void", "Healthy"⟩, ⟨"i-c", "Healthy"⟩]⟩ ∧
    (∀ id res, Event.describeInstances id res ∈
        (getAutoScalingInstances World.env "etcd" joinWorld).trace →
      ∃ r0 rs, res = .ok (r0 :: rs)) ∧
    (getAutoScalingInstances World.env "etcd" joinWorld).out =
      .ok [⟨"i-a", "ip-10-0-0-1.internal", "10.0.0.1", "running"⟩,
        ⟨"i-c", "ip-10-0-0-1.internal", "10.0.0.1", "running"⟩] ∧
    (∃ answers : List (List Reservation),
      answers.length = (healthyInstances ⟨"etcd", [⟨"i-a", "Healthy"⟩, ⟨"i-bad", "Unhealthy"⟩,
        ⟨"i-stop", "Healthy"⟩, ⟨"i-void", "Healthy"⟩, ⟨"i-c", "Healthy"⟩]⟩).length ∧
      (getAutoScalingInstances World.env "etcd" joinWorld).trace =
        (getAutoScalingGroupByName World.env "etcd" joinWorld).trace ++
          List.zipWith (fun i a => Event.describeInstances i.InstanceId (.ok a))
            (healthyInstances ⟨"etcd", [⟨"i-a", "Healthy"⟩, ⟨"i-bad", "Unhealthy"⟩,
              ⟨"i-stop", "Healthy"⟩, ⟨"i-void", "Healthy"⟩, ⟨"i-c", "Healthy"⟩]⟩) answers ∧
      (getAutoScalingInstances World.env "etcd" joinWorld).out =
        .ok (answers.filterMap runningInstance)) ∧
    (getAutoScalingGroupByName World.env "limited" joinWorld).out =
      .ok ⟨"limited", [⟨"i-a", "Healthy"⟩, ⟨"i-err", "Healthy"⟩, ⟨"i-c", "Healthy"⟩]⟩ ∧
    Event.describeInstances "i-err" (.error "RequestLimitExceeded") ∈
      (getAutoScalingInstances World.env "limited" joinWorld).trace ∧
    ((getAutoScalingInstances World.env "limited" joinWorld).out =
        .error "RequestLimitExceeded" ∧
      ∃ pre, (getAutoScalingInstances World.env "limited" joinWorld).trace =
        pre ++ [Event.describeInstances "i-err" (.error "RequestLimitExceeded")]) ∧
    (getAutoScalingInstances World.env "limited" joinWorld).trace =
      [Event.describeAutoScalingGroups (.ok sampleGroups),
        Event.describeInstances "i-a" (sampleInventory "i-a"),
        Event.describeInstances "i-err" (.error "RequestLimitExceeded")] := by
  have hd : ∀ id res, Event.describeInstances id res ∈
      (getAutoScalingInstances World.env "etcd" joinWorld).trace →
      ∃ r0 rs, res = .ok (r0 :: rs) := by
    intro id res hmem
    have ht : (getAutoScalingInstances World.env "etcd" joinWorld).trace =
        [Event.describeAutoScalingGroups (.ok sampleGroups),
          Event.describeInstances "i-a" (sampleInventory "i-a"),
          Event.describeInstances "i-stop" (sampleInventory "i-stop"),
          Event.describeInstances "i-void" (sampleInventory "i-void"),
          Event.describeInstances "i-c" (sampleInventory "i-c")] := by decide
    rw [ht] at hmem
    simp only [List.mem_cons, Event.describeInstances.injEq, reduceCtorEq, false_or,
      List.mem_singleton, List.not_mem_nil, or_false] at hmem
    rcases hmem with ⟨_, rfl⟩ | ⟨_, rfl⟩ | ⟨_, rfl⟩ | ⟨_, rfl⟩ <;> exact ⟨_, _, rfl⟩
  exact ⟨by decide, hd, by decide,
    (getAutoScalingInstances_running World.env "etcd" joinWorld _ (by decide)).1 hd,
    by decide, by decide,
    (getAutoScalingInstances_running World.env "limited" joinWorld
      ⟨"limited", [⟨"i-a", "Healthy"⟩, ⟨"i-err", "Healthy"⟩, ⟨"i-c", "Healthy"⟩]⟩
      (by decide)).2
      "i-err" "RequestLimitExceeded" (by decide),
    by decide⟩

/-- C10. Cleanup precedes join.  In every run of `syncMembership`, no `deleteMember`
call comes after a call of the join step (the `hasMember` check, the `addMember` call
or the `Add` request): every removal happens before the `hasMember` check. -/
theorem syncMembership_cleanup_precedes_join (E : Env σ) (config : discoveryConfig)
    (identity : awsIdentity) (instances : List String) (s : σ) (a b : List Event) (e : Event)
    (h : (syncMembership E config identity instances s).trace = a ++ e :: b)
    (he : e.isJoin = true) :
    ∀ x ∈ b, x.isDelete = false := by
  obtain ⟨members, s2, q, _, h2, _⟩ :=
    syncMembership_join_split E config identity instances s a b e h he
  obtain ⟨_, hj⟩ := joinCluster_trace E config identity (cleanupMembers E members s2).state
  intro x hx
  exact (hj x (by rw [← h2]; simp [hx])).2

/-- C10 at `healWorld`: the three removal calls come before the `hasMember` check, and
none follows it. -/
theorem syncMembership_cleanup_precedes_join_witness :
    (sampleRun healWorld).trace =
      (sampleRun healWorld).trace.take 9 ++ Event.hasMember "i-self" ::
        (sampleRun healWorld).trace.drop 10 ∧
    (Event.hasMember "i-self").isJoin = true ∧
    ((sampleRun healWorld).trace.take 9).countP Event.isDelete = 3 ∧
    ∀ x ∈ (sampleRun healWorld).trace.drop 10, x.isDelete = false :=
  ⟨by decide, rfl, by decide,
    syncMembership_cleanup_precedes_join World.env defaultConfig selfIdentity seeds healWorld
      ((sampleRun healWorld).trace.take 9) ((sampleRun healWorld).trace.drop 10)
      (Event.hasMember "i-self") (by decide) rfl⟩

/-- C11. When `main` gets as far as the environment file (valid configuration,
identity `i` and instance listing `m` obtained), it writes that file exactly once; the
content written carries the cluster state in its line `ETCD_INITIAL_CLUSTER_STATE=`, and
that state is `existing` if and only if proxy mode is set
or the etcd client could be created from the seed endpoints and its list-members call
succeeded; it is `new` in every other case. With no seed endpoints the client cannot be
created, so the state is `new` unless proxy mode is set. -/
theorem main_writes_cluster_state (E : Env σ) (config : discoveryConfig) (s : σ)
    (identity : awsIdentity) (instances : List Instance)
    (i : Run σ awsIdentity) (m : Run σ (List Instance))
    (hc : getConfig config = none)
    (hi : getInstanceIdentity E s = i) (hio : i.out = .ok identity)
    (hm : getAutoScalingMembers E config identity i.state = m) (hmo : m.out = .ok instances) :
    (∃ state err rest,
      (main E config s).trace =
        i.trace ++ m.trace ++ (clusterState E config instances m.state).1 ++
          Event.writeFile config.environmentFile
            ("\nETCD_INITIAL_CLUSTER_STATE=" ++ state ++ "\nETCD_NAME=" ++ identity.InstanceID ++
              "\nETCD_INITIAL_CLUSTER=\"" ++ getPeerURLs config instances ++
              "\"\nETCD_PROXY=\"" ++ (if config.proxyMode then "on" else "off") ++ "\"\n")
            err :: rest ∧
      (∀ f c e, Event.writeFile f c e ∉
        i.trace ++ m.trace ++ (clusterState E config instances m.state).1 ++ rest) ∧
      state = (clusterState E config instances m.state).2.1 ∧
      (state = "existing" ↔
        config.proxyMode = true ∨
          ((newEtcdClient E (getEtcdEndpoints config instances) m.state).out = .ok () ∧
            ∃ members,
              (listMembers E
                (newEtcdClient E (getEtcdEndpoints config instances) m.state).state).out =
                  .ok members)) ∧
      (state ≠ "existing" → state = "new")) ∧
    ∀ w : World, (clusterState World.env config [] w).2.1 =
      if config.proxyMode then "existing" else "new" := by
  subst hi
  subst hm
  constructor
  · obtain ⟨err, rest, ht, hr⟩ := main_trace_written E config s identity instances hc hio hmo
    obtain ⟨hiff, hor⟩ := clusterState_spec E config instances
      (getAutoScalingMembers E config identity (getInstanceIdentity E s).state).state
    refine ⟨_, err, rest, ht, ?_, rfl, hiff, ?_⟩
    · intro f c e hmem
      simp only [List.mem_append] at hmem
      rcases hmem with ((hmem | hmem) | hmem) | hmem
      · exact getInstanceIdentity_no_write E s f c e hmem
      · exact getAutoScalingMembers_no_write E config identity _ f c e hmem
      · exact clusterState_no_write E config instances _ f c e hmem
      · exact hr f c e hmem
    · intro hne
      rcases hor with h | h
      · exact absurd h hne
      · exact h
  · intro w
    unfold clusterState
    rw [newEtcdClient_eq]
    cases hp : config.proxyMode <;> simp [getEtcdEndpoints, World.env, World.etcdNew]

/-- C11, a run of the sample world: the cluster answers, so the file says `existing`. -/
theorem main_writes_cluster_state_witness :
    getConfig bootConfig = none ∧
    (getInstanceIdentity World.env (bootWorld [])).out = .ok selfIdentity ∧
    (getAutoScalingMembers World.env bootConfig selfIdentity
      (getInstanceIdentity World.env (bootWorld [])).state).out = .ok bootInstances ∧
    ((∃ state err rest,
      (main World.env bootConfig (bootWorld [])).trace =
        (getInstanceIdentity World.env (bootWorld [])).trace ++
          (getAutoScalingMembers World.env bootConfig selfIdentity
            (getInstanceIdentity World.env (bootWorld [])).state).trace ++
          (clusterState World.env bootConfig bootInstances
            (getAutoScalingMembers World.env bootConfig selfIdentity
              (getInstanceIdentity World.env (bootWorld [])).state).state).1 ++
          Event.writeFile bootConfig.environmentFile
            ("\nETCD_INITIAL_CLUSTER_STATE=" ++ state ++ "\nETCD_NAME=" ++
              selfIdentity.InstanceID ++
              "\nETCD_INITIAL_CLUSTER=\"" ++ getPeerURLs bootConfig bootInstances ++
              "\"\nETCD_PROXY=\"" ++ (if bootConfig.proxyMode then "on" else "off") ++ "\"\n")
            err :: rest ∧
      (∀ f c e, Event.writeFile f c e ∉
        (getInstanceIdentity World.env (bootWorld [])).trace ++
          (getAutoScalingMembers World.env bootConfig selfIdentity
            (getInstanceIdentity World.env (bootWorld [])).state).trace ++
          (clusterState World.env bootConfig bootInstances
            (getAutoScalingMembers World.env bootConfig selfIdentity
              (getInstanceIdentity World.env (bootWorld [])).state).state).1 ++ rest) ∧
      state = (clusterState World.env bootConfig bootInstances
        (getAutoScalingMembers World.env bootConfig selfIdentity
          (getInstanceIdentity World.env (bootWorld [])).state).state).2.1 ∧
      (state = "existing" ↔
        bootConfig.proxyMode = true ∨
          ((newEtcdClient World.env (getEtcdEndpoints bootConfig bootInstances)
              (getAutoScalingMembers World.env bootConfig selfIdentity
                (getInstanceIdentity World.env (bootWorld [])).state).state).out = .ok () ∧
            ∃ members,
              (listMembers World.env
                (newEtcdClient World.env (getEtcdEndpoints bootConfig bootInstances)
                  (getAutoScalingMembers World.env bootConfig selfIdentity
                    (getInstanceIdentity World.env (bootWorld [])).state).state).state).out =
                  .ok members)) ∧
      (state ≠ "existing" → state = "new")) ∧
    ∀ w : World, (clusterState World.env bootConfig [] w).2.1 =
      if bootConfig.proxyMode then "existing" else "new") ∧
    (clusterState World.env bootConfig bootInstances
      (getAutoScalingMembers World.env bootConfig selfIdentity
        (getInstanceIdentity World.env (bootWorld [])).state).state).2.1 = "existing" ∧
    (clusterState World.env bootConfig bootInstances
      (getAutoScalingMembers World.env bootConfig selfIdentity
        (getInstanceIdentity World.env (bootWorld [true])).state).state).2.1 = "new" ∧
    (clusterState World.env proxyConfig bootInstances
      (getAutoScalingMembers World.env bootConfig selfIdentity
        (getInstanceIdentity World.env (bootWorld [true])).state).state).2.1 = "existing" ∧
    (getAutoScalingMembers World.env idleConfig selfIdentity
      (getInstanceIdentity World.env (bootWorld [])).state).out = .ok [] ∧
    (clusterState World.env idleConfig []
      (getAutoScalingMembers World.env idleConfig selfIdentity
        (getInstanceIdentity World.env (bootWorld [])).state).state).1 =
      [Event.newEtcdClient [] (some "client: no endpoints available")] ∧
    (main World.env bootConfig (bootWorld [])).state.files =
      [("/etc/etcd.env", "\nETCD_INITIAL_CLUSTER_STATE=existing\nETCD_NAME=i-self\n" ++
        "ETCD_INITIAL_CLUSTER=\"i-a=https://ip-10-0-0-1.internal:2380," ++
        "i-c=https://ip-10-0-0-1.internal:2380\"\nETCD_PROXY=\"off\"\n")] ∧
    (main World.env bootConfig (bootWorld [true])).state.files =
      [("/etc/etcd.env", "\nETCD_INITIAL_CLUSTER_STATE=new\nETCD_NAME=i-self\n" ++
        "ETCD_INITIAL_CLUSTER=\"i-a=https://ip-10-0-0-1.internal:2380," ++
        "i-c=https://ip-10-0-0-1.internal:2380\"\nETCD_PROXY=\"off\"\n")] ∧
    (main World.env proxyConfig (bootWorld [true])).state.files =
      [("/etc/etcd.env", "\nETCD_INITIAL_CLUSTER_STATE=existing\nETCD_NAME=i-self\n" ++
        "ETCD_INITIAL_CLUSTER=\"i-a=https://ip-10-0-0-1.internal:2380," ++
        "i-c=https://ip-10-0-0-1.internal:2380\"\nETCD_PROXY=\"on\"\n")] ∧
    (main World.env idleConfig (bootWorld [])).state.files =
      [("/etc/etcd.env", "\nETCD_INITIAL_CLUSTER_STATE=new\nETCD_NAME=i-self\n" ++
        "ETCD_INITIAL_CLUSTER=\"\"\nETCD_PROXY=\"off\"\n")] :=
  ⟨by decide, by decide, by decide,
    main_writes_cluster_state World.env bootConfig (bootWorld []) selfIdentity bootInstances
      _ _ (by decide) rfl (by decide) rfl (by decide),
    by decide, by decide, by decide, by decide, by decide,
    by set_option maxRecDepth 4096 in decide, by set_option maxRecDepth 4096 in decide,
    by set_option maxRecDepth 4096 in decide, by decide⟩

/-- C12. For every integer `p`, `isPort p` is true exactly when `1 ≤ p ≤ 65534`; and
with a non-empty environment file path `getConfig` returns an error whenever the peer
port or the client port is outside that range: the error names the peer port when that
one is out of range, and the client port otherwise. -/
theorem isPort_range_getConfig (p : Int) (config : discoveryConfig) :
    (isPort p = true ↔ 1 ≤ p ∧ p ≤ 65534) ∧
    (config.environmentFile ≠ "" →
      ¬ (1 ≤ config.etcdPeerPort ∧ config.etcdPeerPort ≤ 65534) →
      getConfig config =
        some ("etcd peer port " ++ toString config.etcdPeerPort ++ " is an invalid port")) ∧
    (config.environmentFile ≠ "" →
      (1 ≤ config.etcdPeerPort ∧ config.etcdPeerPort ≤ 65534) →
      ¬ (1 ≤ config.etcdClientPort ∧ config.etcdClientPort ≤ 65534) →
      getConfig config =
        some ("etcd client port " ++ toString config.etcdClientPort ++
          " is an invalid port")) ∧
    (config.environmentFile ≠ "" →
      ¬ (1 ≤ config.etcdPeerPort ∧ config.etcdPeerPort ≤ 65534) ∨
        ¬ (1 ≤ config.etcdClientPort ∧ config.etcdClientPort ≤ 65534) →
      ∃ err, getConfig config = some err) := by
  have hport : ∀ q : Int, isPort q = true ↔ 1 ≤ q ∧ q ≤ 65534 := by
    intro q
    unfold isPort
    by_cases h : q ≥ 1 ∧ q ≤ 65534
    · simp only [if_pos h, true_iff]; exact h
    · simp only [if_neg h, Bool.false_eq_true, false_iff]; exact h
  have hpeer : config.environmentFile ≠ "" →
      ¬ (1 ≤ config.etcdPeerPort ∧ config.etcdPeerPort ≤ 65534) →
      getConfig config =
        some ("etcd peer port " ++ toString config.etcdPeerPort ++ " is an invalid port") := by
    intro hf h
    have hb : isPort config.etcdPeerPort = false := by
      rw [← Bool.not_eq_true, hport]; exact h
    unfold getConfig
    rw [if_neg hf, hb]
    rfl
  have hclient : config.environmentFile ≠ "" →
      (1 ≤ config.etcdPeerPort ∧ config.etcdPeerPort ≤ 65534) →
      ¬ (1 ≤ config.etcdClientPort ∧ config.etcdClientPort ≤ 65534) →
      getConfig config =
        some ("etcd client port " ++ toString config.etcdClientPort ++
          " is an invalid port") := by
    intro hf h hc
    have hb : isPort config.etcdPeerPort = true := (hport _).2 h
    have hb2 : isPort config.etcdClientPort = false := by
      rw [← Bool.not_eq_true, hport]; exact hc
    unfold getConfig
    rw [if_neg hf, hb, hb2]
    rfl
  refine ⟨hport p, hpeer, hclient, ?_⟩
  intro hf hp
  by_cases h : 1 ≤ config.etcdPeerPort ∧ config.etcdPeerPort ≤ 65534
  · rcases hp with hp | hp
    · exact absurd h hp
    · exact ⟨_, hclient hf h hp⟩
  · exact ⟨_, hpeer hf h⟩

/-- C12 at the ports 0 and 65535, just outside the range. -/
theorem isPort_range_getConfig_witness :
    badPeerConfig.environmentFile ≠ "" ∧
    ¬ (1 ≤ badPeerConfig.etcdPeerPort ∧ badPeerConfig.etcdPeerPort ≤ 65534) ∧
    getConfig badPeerConfig =
      some ("etcd peer port " ++ toString badPeerConfig.etcdPeerPort ++
        " is an invalid port") ∧
    getConfig badPeerConfig = some "etcd peer port 0 is an invalid port" ∧
    getConfig badClientConfig = some "etcd client port 65535 is an invalid port" ∧
    getConfig bootConfig = none ∧
    isPort 0 = false ∧ isPort 1 = true ∧ isPort 65534 = true ∧ isPort 65535 = false ∧
    isPort (-1) = false :=
  ⟨by decide, by decide,
    (isPort_range_getConfig 0 badPeerConfig).2.1 (by decide) (by decide),
    by decide, by decide, by decide, by decide, by decide, by decide, by decide, by decide⟩

/-- C13. Address selection depends only on the `privateIPs` flag: for two
configurations that differ only in `privateHostnames`, and any instance list and
identity, `getEtcdEndpoints`, `getPeerURLs`, the advertised peer URL and the whole run of
`syncMembership` are the same, and every `addMember` call of a run carries the advertised
peer URL; each of the three uses the private IP when `privateIPs` is true and the private
DNS name otherwise, whatever `privateHostnames` is. -/
theorem address_selection_privateIPs_only (c1 c2 : discoveryConfig)
    (instances : List Instance) (identity : awsIdentity)
    (h : c2 = { c1 with privateHostnames := c2.privateHostnames }) :
    getEtcdEndpoints c2 instances = getEtcdEndpoints c1 instances ∧
    getPeerURLs c2 instances = getPeerURLs c1 instances ∧
    advertiseURL c2 identity = advertiseURL c1 identity ∧
    (∀ (σ : Type) (E : Env σ) (endpoints : List String) (s : σ),
      syncMembership E c2 identity endpoints s = syncMembership E c1 identity endpoints s ∧
      ∀ name url, Event.addMember name url ∈ (syncMembership E c1 identity endpoints s).trace →
        url = advertiseURL c1 identity) ∧
    (c1.privateIPs = true →
      getEtcdEndpoints c1 instances =
        instances.map (fun i =>
          c1.etcdClientScheme ++ "://" ++ i.PrivateIpAddress ++ ":" ++
            toString c1.etcdClientPort) ∧
      getPeerURLs c1 instances =
        ",".intercalate (instances.map fun i =>
          i.InstanceId ++ "=" ++ getPeerURL c1 i.PrivateIpAddress) ∧
      advertiseURL c1 identity = getPeerURL c1 identity.LocalIP) ∧
    (c1.privateIPs = false →
      getEtcdEndpoints c1 instances =
        instances.map (fun i =>
          c1.etcdClientScheme ++ "://" ++ i.PrivateDnsName ++ ":" ++
            toString c1.etcdClientPort) ∧
      getPeerURLs c1 instances =
        ",".intercalate (instances.map fun i =>
          i.InstanceId ++ "=" ++ getPeerURL c1 i.PrivateDnsName) ∧
      advertiseURL c1 identity = getPeerURL c1 identity.PrivateDNSName) := by
  generalize c2.privateHostnames = b at h
  subst h
  obtain ⟨e1, e2, e3, e4⟩ := privateHostnames_unread c1 b instances identity
  refine ⟨e1, e2, e3, ?_, ?_, ?_⟩
  · intro σ E endpoints s
    exact ⟨e4 σ E endpoints s, fun name url hmem =>
      syncMembership_add_url E c1 identity endpoints s name url hmem⟩
  · intro hp
    simp [getEtcdEndpoints, getPeerURLs, advertiseURL, hp]
  · intro hp
    simp [getEtcdEndpoints, getPeerURLs, advertiseURL, hp]

/-- C13 on the sample instances: with `privateHostnames` on or off, and `privateIPs`
off, the DNS names are used; with `privateIPs` on, the IP addresses. -/
theorem address_selection_privateIPs_only_witness :
    hostnamesConfig = { bootConfig with privateHostnames := hostnamesConfig.privateHostnames } ∧
    (getEtcdEndpoints hostnamesConfig bootInstances = getEtcdEndpoints bootConfig bootInstances ∧
      getPeerURLs hostnamesConfig bootInstances = getPeerURLs bootConfig bootInstances ∧
      advertiseURL hostnamesConfig selfIdentity = advertiseURL bootConfig selfIdentity) ∧
    bootConfig.privateIPs = false ∧ bootConfig.privateHostnames = false ∧
    hostnamesConfig.privateHostnames = true ∧
    getEtcdEndpoints bootConfig bootInstances =
      ["https://ip-10-0-0-1.internal:2379", "https://ip-10-0-0-1.internal:2379"] ∧
    getPeerURLs bootConfig bootInstances =
      "i-a=https://ip-10-0-0-1.internal:2380,i-c=https://ip-10-0-0-1.internal:2380" ∧
    advertiseURL bootConfig selfIdentity = "https://ip-10-0-0-5.internal:2380" ∧
    getEtcdEndpoints addressConfig bootInstances =
      ["https://10.0.0.1:2379", "https://10.0.0.1:2379"] ∧
    getPeerURLs addressConfig bootInstances =
      "i-a=https://10.0.0.1:2380,i-c=https://10.0.0.1:2380" ∧
    advertiseURL addressConfig selfIdentity = "https://10.0.0.5:2380" :=
  ⟨rfl,
    ⟨(address_selection_privateIPs_only bootConfig hostnamesConfig bootInstances
        selfIdentity rfl).1,
      (address_selection_privateIPs_only bootConfig hostnamesConfig bootInstances
        selfIdentity rfl).2.1,
      (address_selection_privateIPs_only bootConfig hostnamesConfig bootInstances
        selfIdentity rfl).2.2.1⟩,
    by decide, by decide, by decide, by decide, by decide, by decide, by decide, by decide,
    by decide⟩

end EtcdDiscovery
